import Mathlib

/-!
# Aquarium: camera constraints and feeding/orbit animation

A shallow embedding of `include/my_camera.h` (class `Camera`) and of the
animation blocks of the render loop in `src/main.cpp`.

Number model.  The program computes with `float`.  Two models of it are used.

* The real model.  A `float` is an element of a linearly ordered field `K`, and the
  functions the program takes from the C/GLM maths libraries (`sqrtf`, `cos`, `sin`,
  `atan2f`, `M_PI`) are the operations of the class `CMath K`.  The theorems about these
  functions are stated for `K = ℝ` with the real functions: they describe the program over
  exact real arithmetic (no rounding, no NaN).
* Float arithmetic.  The functions whose outcome depends on rounding
  (`checkPositionConstraints`, `getWallConstraints` and the descending branch of the feeding
  block) are also written over an arbitrary arithmetic `FloatArith F`, of whose operations no
  law is assumed; these versions carry the suffix `F` (`getWallConstraints` exists in this
  form only).  A theorem proved for every `FloatArith F` holds of the program whatever the
  rounding.  `realArith` is exact arithmetic, for which the functions are those of the real
  model (`checkPositionConstraintsF_real`, `descendF_real`); `binary32` is IEEE 754 binary32
  with rounding to nearest on finite values and serves to evaluate the program at concrete
  inputs; that it rounds to a nearest number of 24 significant bits is proved in
  `round24_spec` and `sqrtRound_spec`.

State model.  C++ object and global state is passed explicitly.  A `std::vector` of
meshes is a `List`; `v[i]` is `getMesh v i` and an assignment to `v[i]` is `List.set`.
The cached `meshMatrix` of a mesh and the draw calls are outputs to the renderer that
no modelled statement reads back; they are not part of the state.  The matrix of the
root mesh after `initModel` is modelled on its own, by `initModelRoot`; the method
`updateModelMatrix` of the mesh class is declared in `my_model.h`, which is not among the
sources, and is modelled from the spec.
-/

namespace Aquarium

/-! ## Library functions and vectors -/

/-- The functions of `<math.h>` used by the program, over the scalar type `K`. -/
class CMath (K : Type) where
  /-- The library function `std::sqrtf`. -/
  sqrtf : K → K
  /-- The library function `cos`. -/
  cos : K → K
  /-- The library function `sin`. -/
  sin : K → K
  /-- The library function `std::atan2f`, arguments in the order `(y, x)`. -/
  atan2f : K → K → K
  /-- The constant `M_PI`. -/
  pi : K

/-- Real instance: the real square root, cosine and sine; `atan2f y x` is the argument
of the complex number `x + y i`. -/
noncomputable instance instCMathReal : CMath ℝ where
  sqrtf := Real.sqrt
  cos := Real.cos
  sin := Real.sin
  atan2f := fun y x => Complex.arg ⟨x, y⟩
  pi := Real.pi

/-- The arithmetic of the C type `float` as the program uses it: the value of a floating
literal, the conversion of an unsigned integer, the four operations, `std::sqrtf`, and
`std::powf` with the exponent `2.0f`.  No law is assumed of these operations, so a function
written with them describes the program for every arithmetic, in particular for exact real
arithmetic (`realArith`) and for IEEE binary32 with rounding (`binary32`).  Where a function
compares two `float`s, the comparisons are those of a linear order on `F`; NaN is not a
value of `F`. -/
structure FloatArith (F : Type) where
  /-- The value of a floating literal such as `0.2f`, given by the number written. -/
  lit : ℚ → F
  /-- The conversion of an unsigned integer to `float`. -/
  ofNat : ℕ → F
  /-- The sum `a + b`. -/
  add : F → F → F
  /-- The difference `a - b`. -/
  sub : F → F → F
  /-- The product `a * b`. -/
  mul : F → F → F
  /-- The quotient `a / b`. -/
  div : F → F → F
  /-- The library function `std::sqrtf`. -/
  sqrtf : F → F
  /-- The library function `std::powf` with the exponent `2.0f`: `powf2 x` is
  `std::powf(x, 2.0f)`. -/
  powf2 : F → F

/-- The functions of `<math.h>` that the descending branch of the feeding block uses besides
`sqrtf` and `powf`: `sin`, `std::atan2f` (arguments in the order `(y, x)`) and the constant
`float(M_PI)`.  No law is assumed of them. -/
structure FloatLibm (F : Type) where
  /-- The library function `sin`. -/
  sin : F → F
  /-- The library function `std::atan2f`, arguments in the order `(y, x)`. -/
  atan2f : F → F → F
  /-- The constant `float(M_PI)`. -/
  pi : F

/-- Exact real arithmetic: every literal has the value written, every operation is exact. -/
noncomputable def realArith : FloatArith ℝ where
  lit := fun q => (q : ℝ)
  ofNat := fun n => (n : ℝ)
  add := fun a b => a + b
  sub := fun a b => a - b
  mul := fun a b => a * b
  div := fun a b => a / b
  sqrtf := Real.sqrt
  powf2 := fun a => a ^ 2

/-- The real sine, argument and `π`. -/
noncomputable def realLibm : FloatLibm ℝ where
  sin := Real.sin
  atan2f := fun y x => Complex.arg ⟨x, y⟩
  pi := Real.pi

/-- The type `glm::vec3`. -/
structure Vec3 (K : Type) where
  x : K
  y : K
  z : K
deriving DecidableEq

variable {K : Type} [LinearOrderedField K] [CMath K]

namespace Vec3

/-- Componentwise `operator+` of `glm::vec3`. -/
def add (a b : Vec3 K) : Vec3 K := ⟨a.x + b.x, a.y + b.y, a.z + b.z⟩

/-- Componentwise `operator-` of `glm::vec3`. -/
def sub (a b : Vec3 K) : Vec3 K := ⟨a.x - b.x, a.y - b.y, a.z - b.z⟩

/-- Vector times scalar, `v * s`. -/
def scale (a : Vec3 K) (s : K) : Vec3 K := ⟨a.x * s, a.y * s, a.z * s⟩

/-- The function `glm::dot`. -/
def dot (a b : Vec3 K) : K := a.x * b.x + a.y * b.y + a.z * b.z

/-- The function `glm::cross`. -/
def cross (a b : Vec3 K) : Vec3 K :=
  ⟨a.y * b.z - b.y * a.z, a.z * b.x - b.z * a.x, a.x * b.y - b.x * a.y⟩

/-- The function `glm::normalize`: `v * inversesqrt(dot(v, v))`. -/
def normalize (a : Vec3 K) : Vec3 K := scale a (1 / CMath.sqrtf (dot a a))

/-- The function `glm::length`: `sqrt(dot(v, v))`. -/
def length (a : Vec3 K) : K := CMath.sqrtf (dot a a)

end Vec3

/-- The function `glm::radians`: degrees to radians. -/
def radians (deg : K) : K := deg * (CMath.pi / 180)

/-! ## `my_camera.h` -/

/-- Constant `MIN_PITCH`. -/
def MIN_PITCH : K := -89
/-- Constant `MAX_PITCH`. -/
def MAX_PITCH : K := 89
/-- Constant `MIN_ZOOM`. -/
def MIN_ZOOM : K := 1
/-- Constant `MAX_ZOOM`. -/
def MAX_ZOOM : K := 60

/-- GLFW key code of the key W (from `GLFW/glfw3.h`). -/
def GLFW_KEY_W : Int := 87
/-- GLFW key code of the key A. -/
def GLFW_KEY_A : Int := 65
/-- GLFW key code of the key S. -/
def GLFW_KEY_S : Int := 83
/-- GLFW key code of the key D. -/
def GLFW_KEY_D : Int := 68
/-- GLFW key code of the key F. -/
def GLFW_KEY_F : Int := 70

/-- The mutable globals `WALL_X_MIN`, `WALL_X_MAX`, `WALL_Z_MIN`, `WALL_Z_MAX` and
`FISH_TANK_RAD` of `my_camera.h`. -/
structure Globals (K : Type) where
  WALL_X_MIN : K
  WALL_X_MAX : K
  WALL_Z_MIN : K
  WALL_Z_MAX : K
  FISH_TANK_RAD : K

/-- The initial values of the globals: walls at ±50, tank radius 7.5. -/
def Globals.initial : Globals K := ⟨-50, 50, -50, 50, 7.5⟩

/-- The data members of `class Camera`. -/
structure Camera (K : Type) where
  position : Vec3 K
  front : Vec3 K
  up : Vec3 K
  right : Vec3 K
  worldUp : Vec3 K
  yaw : K
  pitch : K
  movementSpeed : K
  mouseSensitivity : K
  zoom : K
  fps : Bool
  fixedYPos : K
  zoomEnabled : Bool

/-- Method `Camera::setWallConstrains(xMin, xMax, zMin, zMax)`: writes the four wall
globals. -/
def setWallConstrains (g : Globals K) (xMin xMax zMin zMax : K) : Globals K :=
  { g with WALL_X_MIN := xMin, WALL_X_MAX := xMax, WALL_Z_MIN := zMin, WALL_Z_MAX := zMax }

/-- Method `Camera::setFPSCamera`. -/
def setFPSCamera (c : Camera K) (fps : Bool) (yPos : K) : Camera K :=
  { c with fps := fps, fixedYPos := yPos }

/-- Method `Camera::checkPositionConstraints`: `false` outside the walls, `false` within
`FISH_TANK_RAD + 0.2` of the vertical axis, `true` otherwise. -/
def checkPositionConstraints (g : Globals K) (newPosition : Vec3 K) : Bool :=
  if newPosition.x < g.WALL_X_MIN ∨ newPosition.x > g.WALL_X_MAX ∨
      newPosition.z < g.WALL_Z_MIN ∨ newPosition.z > g.WALL_Z_MAX then false
  else if CMath.sqrtf (newPosition.x ^ 2 + newPosition.z ^ 2) ≤ g.FISH_TANK_RAD + 0.2 then false
  else true

/-- Method `Camera::processKeyboardInput`: four independent tests of `direction`, each
moving the camera when the candidate passes `checkPositionConstraints`; then, in
first-person mode, the height is set to `fixedYPos`. -/
def processKeyboardInput (g : Globals K) (c : Camera K) (direction : Int) (deltaTime : K) :
    Camera K :=
  let velocity := c.movementSpeed * deltaTime
  let c1 : Camera K :=
    if direction = GLFW_KEY_W then
      if checkPositionConstraints g (c.position.add (c.front.scale velocity)) then
        { c with position := c.position.add (c.front.scale velocity) }
      else c
    else c
  let c2 : Camera K :=
    if direction = GLFW_KEY_A then
      if checkPositionConstraints g (c1.position.sub (c1.right.scale velocity)) then
        { c1 with position := c1.position.sub (c1.right.scale velocity) }
      else c1
    else c1
  let c3 : Camera K :=
    if direction = GLFW_KEY_S then
      if checkPositionConstraints g (c2.position.sub (c2.front.scale velocity)) then
        { c2 with position := c2.position.sub (c2.front.scale velocity) }
      else c2
    else c2
  let c4 : Camera K :=
    if direction = GLFW_KEY_D then
      if checkPositionConstraints g (c3.position.add (c3.right.scale velocity)) then
        { c3 with position := c3.position.add (c3.right.scale velocity) }
      else c3
    else c3
  if c4.fps then { c4 with position := { c4.position with y := c4.fixedYPos } } else c4

/-- Method `Camera::updateCameraVectors`: front from yaw and pitch (degrees), then right
and up by normalised cross products. -/
def updateCameraVectors (c : Camera K) : Camera K :=
  let newFront : Vec3 K :=
    ⟨CMath.cos (radians c.yaw) * CMath.cos (radians c.pitch),
     CMath.sin (radians c.pitch),
     CMath.sin (radians c.yaw) * CMath.cos (radians c.pitch)⟩
  let front := newFront.normalize
  let right := (front.cross c.worldUp).normalize
  let up := (right.cross front).normalize
  { c with front := front, right := right, up := up }

/-- Method `Camera::processMouseMovement`: scale the offsets, add them to yaw and pitch,
clamp the pitch, re-derive the basis. -/
def processMouseMovement (c : Camera K) (xOff yOff : K) : Camera K :=
  let xOff := xOff * c.mouseSensitivity
  let yOff := yOff * c.mouseSensitivity
  let yaw := c.yaw + xOff
  let pitch := c.pitch + yOff
  let pitch := if pitch > MAX_PITCH then MAX_PITCH else pitch
  let pitch := if pitch < MIN_PITCH then MIN_PITCH else pitch
  updateCameraVectors { c with yaw := yaw, pitch := pitch }

/-- Method `Camera::processMouseScroll`: when zoom is enabled, subtract the offset from
the zoom and clamp it. -/
def processMouseScroll (c : Camera K) (yOff : K) : Camera K :=
  if c.zoomEnabled then
    let zoom := c.zoom - yOff
    let zoom := if zoom < MIN_ZOOM then MIN_ZOOM else zoom
    let zoom := if zoom > MAX_ZOOM then MAX_ZOOM else zoom
    { c with zoom := zoom }
  else c

/-- A pointer event delivered to the camera: `mouseCallback` calls
`processMouseMovement`, `scrollCallback` calls `processMouseScroll`. -/
inductive MouseEvent (K : Type) where
  | move (xOff yOff : K)
  | scroll (yOff : K)

/-- Deliver one pointer event to the camera. -/
def applyMouseEvent (c : Camera K) : MouseEvent K → Camera K
  | .move xOff yOff => processMouseMovement c xOff yOff
  | .scroll yOff => processMouseScroll c yOff

/-- Deliver a sequence of pointer events, first to last. -/
def applyMouseEvents (c : Camera K) (es : List (MouseEvent K)) : Camera K :=
  es.foldl applyMouseEvent c

/-- The candidate position that `processKeyboardInput` tests for `direction`:
`position + front * velocity` for W, `position - right * velocity` for A,
`position - front * velocity` for S, `position + right * velocity` for D, with
`velocity = movementSpeed * deltaTime`; for any other key code nothing is tested and the
current position is returned. -/
def moveCandidate (c : Camera K) (direction : Int) (deltaTime : K) : Vec3 K :=
  let velocity := c.movementSpeed * deltaTime
  if direction = GLFW_KEY_W then c.position.add (c.front.scale velocity)
  else if direction = GLFW_KEY_A then c.position.sub (c.right.scale velocity)
  else if direction = GLFW_KEY_S then c.position.sub (c.front.scale velocity)
  else if direction = GLFW_KEY_D then c.position.add (c.right.scale velocity)
  else c.position

/-- The camera move of the scenario: `n` successive presses of W. -/
def pressW (g : Globals K) (deltaTime : K) : Nat → Camera K → Camera K
  | 0, c => c
  | n + 1, c => processKeyboardInput g (pressW g deltaTime n c) GLFW_KEY_W deltaTime

/-- A sequence of key presses delivered to the camera, first to last; each is a key code
with the frame time of its call. -/
def applyMoves (g : Globals K) (c : Camera K) (moves : List (Int × K)) : Camera K :=
  moves.foldl (fun acc m => processKeyboardInput g acc m.1 m.2) c

/-! ## `main.cpp`: meshes and the scene state -/

/-- The array `mesh6DoF` of a mesh, indexed in the source by `tX, tY, tZ, rX, rY, rZ`. -/
structure Pose6DoF (K : Type) where
  tX : K
  tY : K
  tZ : K
  rX : K
  rY : K
  rZ : K

/-- The animation state of one mesh of a model: its 6DoF pose and the orbit parameters
`initRad`, `initRot`. -/
structure Mesh (K : Type) where
  mesh6DoF : Pose6DoF K
  initRad : K
  initRot : K

instance {F : Type} [Zero F] : Inhabited (Mesh F) := ⟨⟨⟨0, 0, 0, 0, 0, 0⟩, 0, 0⟩⟩

/-- The vector `meshes` of a `Model`. -/
abbrev Model (K : Type) := List (Mesh K)

/-- Read `meshes[i]`. -/
def getMesh {F : Type} [Zero F] (m : Model F) (i : Nat) : Mesh F := m.getD i default

/-- Assign to the pose of `meshes[i]`. -/
def setPose {F : Type} [Zero F] (m : Model F) (i : Nat) (p : Pose6DoF F) : Model F :=
  m.set i { getMesh m i with mesh6DoF := p }

/-- Assign to `meshes[i].initRad`. -/
def setInitRad {F : Type} [Zero F] (m : Model F) (i : Nat) (r : F) : Model F :=
  m.set i { getMesh m i with initRad := r }

/-- A counting loop `for (i = lo; i < hi; i++) body`. -/
def forLoop {σ : Type} (lo hi : Nat) (body : Nat → σ → σ) (s : σ) : σ :=
  (List.range' lo (hi - lo)).foldl (fun acc i => body i acc) s

/-- A loop of at most `n` passes whose body may `break`: the body returns the new state
and whether it broke out. -/
def loopWithBreak {σ : Type} (body : σ → σ × Bool) : Nat → σ → σ
  | 0, s => s
  | n + 1, s => if (body s).2 then (body s).1 else loopWithBreak body n (body s).1

/-- The program state read and written by input handling and by the animation blocks of
the render loop: the camera with its wall globals, the two feeding flags, and the models
that are animated. -/
structure Scene (K : Type) where
  camera : Camera K
  globals : Globals K
  fishFoodInit : Bool
  fishFoodAnimStarted : Bool
  fishFoodModel : Model K
  sharkModel : Model K
  fish1Models : List (Model K)
  fish2Models : List (Model K)

/-- The wag term `0.1f * sin(elapsedTime * 5.0f + j * 5.0f)` of node `j`. -/
def wag (elapsedTime : K) (j : Nat) : K := 0.1 * CMath.sin (elapsedTime * 5 + (j : K) * 5)

/-- The inner loop of the orbiting models (idle shark, fish): node `j` gets the yaw
currently stored in node 0 plus its wag term. -/
def wagLoopOrbit (elapsedTime : K) (m : Model K) : Model K :=
  forLoop 0 m.length
    (fun j m => setPose m j
      { (getMesh m j).mesh6DoF with rY := (getMesh m 0).mesh6DoF.rY + wag elapsedTime j }) m

/-- The inner loop of the pursuing shark: node `j` gets the yaw currently stored in node 0
plus its wag term, is rendered, and then has the wag term subtracted again. -/
def wagLoopPursuit (elapsedTime : K) (m : Model K) : Model K :=
  forLoop 0 m.length
    (fun j m =>
      let m1 := setPose m j
        { (getMesh m j).mesh6DoF with rY := (getMesh m 0).mesh6DoF.rY + wag elapsedTime j }
      setPose m1 j
        { (getMesh m1 j).mesh6DoF with rY := (getMesh m1 j).mesh6DoF.rY - wag elapsedTime j }) m

/-- The orbit update of the root node: position on the circle of radius `initRad` at
angle `theta`, yaw `π/2 − theta + π`. -/
def orbitRoot (theta : K) (m : Model K) : Model K :=
  let rad := (getMesh m 0).initRad
  let m1 := setPose m 0 { (getMesh m 0).mesh6DoF with tX := rad * CMath.cos theta }
  let m2 := setPose m1 0 { (getMesh m1 0).mesh6DoF with tZ := rad * CMath.sin theta }
  setPose m2 0 { (getMesh m2 0).mesh6DoF with rY := CMath.pi / 2 - theta + CMath.pi }

/-- The idle shark block: one pass per shark node (the inner loop variable shadows the
outer one), each pass recomputing the root from `theta = elapsedTime * 0.1` and wagging
all nodes. -/
def sharkIdleLoop (elapsedTime : K) (shark : Model K) : Model K :=
  forLoop 0 shark.length
    (fun _ m => wagLoopOrbit elapsedTime (orbitRoot (elapsedTime * 0.1) m)) shark

/-- The update of fish number `i`: the root from `theta = elapsedTime * 0.1 + 1.0 * i`,
then the wag of all nodes. -/
def fishUpdate (elapsedTime : K) (i : Nat) (fish : Model K) : Model K :=
  wagLoopOrbit elapsedTime (orbitRoot (elapsedTime * 0.1 + 1.0 * (i : K)) fish)

/-- One pass of the food loop of the descending branch, for food mesh `i`: the floor
check, then the descent of the mesh. -/
def foodDescentBody (elapsedTime : K) (i : Nat) (s : Scene K) : Scene K :=
  let s1 : Scene K :=
    if (getMesh s.fishFoodModel i).mesh6DoF.tY - elapsedTime * 0.0001 < 0 then
      { s with fishFoodAnimStarted := false, fishFoodInit := false }
    else s
  let tY := (getMesh s1.fishFoodModel i).mesh6DoF.tY - elapsedTime * 0.00002
  { s1 with
    fishFoodModel := setPose s1.fishFoodModel i { (getMesh s1.fishFoodModel i).mesh6DoF with tY := tY } }

/-- The steering of the shark root toward the food by the unit vector `directionVec`:
a step of `0.005` along it and a yaw step of `0.001` toward `atan2f(dz, dx) + π`. -/
def steerShark (directionVec : Vec3 K) (shark : Model K) : Model K :=
  let m1 := setPose shark 0
    { (getMesh shark 0).mesh6DoF with tX := (getMesh shark 0).mesh6DoF.tX + directionVec.x * 0.005 }
  let m2 := setPose m1 0
    { (getMesh m1 0).mesh6DoF with tY := (getMesh m1 0).mesh6DoF.tY + directionVec.y * 0.005 }
  let m3 := setPose m2 0
    { (getMesh m2 0).mesh6DoF with tZ := (getMesh m2 0).mesh6DoF.tZ + directionVec.z * 0.005 }
  let target := CMath.atan2f directionVec.z directionVec.x + CMath.pi
  if target - (getMesh m3 0).mesh6DoF.rY < 0 then
    setPose m3 0 { (getMesh m3 0).mesh6DoF with rY := (getMesh m3 0).mesh6DoF.rY - 0.001 }
  else
    setPose m3 0 { (getMesh m3 0).mesh6DoF with rY := (getMesh m3 0).mesh6DoF.rY + 0.001 }

/-- One pass of the outer shark loop of the descending branch.  When the shark is within
`0.1` of the food the session flags are cleared, the orbit radius is recomputed and the
loop breaks; otherwise the shark is steered and all nodes are wagged. -/
def sharkPursuitBody (elapsedTime : K) (s : Scene K) : Scene K × Bool :=
  let food0 := (getMesh s.fishFoodModel 0).mesh6DoF
  let shark0 := (getMesh s.sharkModel 0).mesh6DoF
  let directionVec : Vec3 K := ⟨food0.tX - shark0.tX, food0.tY - shark0.tY, food0.tZ - shark0.tZ⟩
  let magnitude := CMath.sqrtf (directionVec.x ^ 2 + directionVec.y ^ 2 + directionVec.z ^ 2)
  if magnitude < 0.1 then
    ({ s with
        fishFoodAnimStarted := false
        fishFoodInit := false
        sharkModel := setInitRad s.sharkModel 0 (CMath.sqrtf (shark0.tX ^ 2 + shark0.tZ ^ 2)) },
      true)
  else
    let directionVec : Vec3 K :=
      ⟨directionVec.x / magnitude, directionVec.y / magnitude, directionVec.z / magnitude⟩
    ({ s with sharkModel := wagLoopPursuit elapsedTime (steerShark directionVec s.sharkModel) },
      false)

/-- The descending branch of the feeding block: the food loop, then the shark loop with
one pass per shark node unless it breaks. -/
def descend (elapsedTime : K) (s : Scene K) : Scene K :=
  let s1 := forLoop 0 s.fishFoodModel.length (foodDescentBody elapsedTime) s
  loopWithBreak (sharkPursuitBody elapsedTime) s1.sharkModel.length s1

/-- One key test of `processUserInput`: if `key` is down, the camera processes it. -/
def moveOnKey (pressed : Int → Bool) (key : Int) (deltaTime : K) (s : Scene K) : Scene K :=
  if pressed key then
    { s with camera := processKeyboardInput s.globals s.camera key deltaTime }
  else s

/-- The feed trigger of `processUserInput`: if F is down and no session is active,
`fishFoodAnimStarted` is set. -/
def feedOnKey (pressed : Int → Bool) (s : Scene K) : Scene K :=
  if pressed GLFW_KEY_F then
    if !s.fishFoodAnimStarted then { s with fishFoodAnimStarted := true } else s
  else s

/-- Function `processUserInput`: the keys W, A, S, D are tested in this order and move the
camera, then the key F starts a feeding session unless one is active.  `pressed k` tells
whether key `k` is down. -/
def processUserInput (pressed : Int → Bool) (deltaTime : K) (s : Scene K) : Scene K :=
  let s1 := moveOnKey pressed GLFW_KEY_W deltaTime s
  let s2 := moveOnKey pressed GLFW_KEY_A deltaTime s1
  let s3 := moveOnKey pressed GLFW_KEY_S deltaTime s2
  let s4 := moveOnKey pressed GLFW_KEY_D deltaTime s3
  feedOnKey pressed s4

/-- The feeding session of a scene: the two flags and the food model. -/
def session (s : Scene K) : Bool × Bool × Model K :=
  (s.fishFoodAnimStarted, s.fishFoodInit, s.fishFoodModel)

/-- The translation of the root node of a model. -/
def rootPosition (m : Model K) : Vec3 K :=
  ⟨(getMesh m 0).mesh6DoF.tX, (getMesh m 0).mesh6DoF.tY, (getMesh m 0).mesh6DoF.tZ⟩

/-- The yaw stored in the root node of a model. -/
def rootYaw (m : Model K) : K := (getMesh m 0).mesh6DoF.rY

/-- The height of the root of the food model. -/
def foodHeight (s : Scene K) : K := (getMesh s.fishFoodModel 0).mesh6DoF.tY

/-- A feeding session is in its descending phase: both flags are set. -/
def Descending (s : Scene K) : Prop := s.fishFoodAnimStarted = true ∧ s.fishFoodInit = true

/-- No feeding session is active: both flags are clear. -/
def Idle (s : Scene K) : Prop := s.fishFoodAnimStarted = false ∧ s.fishFoodInit = false

/-! ## `main.cpp`: wall constraints and the initial transform -/

instance {F : Type} [Zero F] : Inhabited (Vec3 F) := ⟨⟨0, 0, 0⟩⟩

/-- The type `glm::vec4`. -/
structure Vec4 (K : Type) where
  x : K
  y : K
  z : K
  w : K

/-- The locals `xMin, xMax, zMin, zMax` of `getWallConstraints`. -/
structure WallBounds (K : Type) where
  xMin : K
  xMax : K
  zMin : K
  zMax : K

/-- One pass of the loop of `getWallConstraints` for vertex `i`: the first vertex sets the
four bounds, every later vertex is compared with them. -/
def wallBody {F : Type} [LinearOrder F] [Zero F] (modelVertices : List (Vec3 F)) (i : Nat)
    (b : WallBounds F) : WallBounds F :=
  let v := modelVertices.getD i default
  if i = 0 then ⟨v.x, v.x, v.z, v.z⟩
  else
    let b1 : WallBounds F := if v.x < b.xMin then { b with xMin := v.x } else b
    let b2 : WallBounds F := if v.x > b1.xMax then { b1 with xMax := v.x } else b1
    let b3 : WallBounds F := if v.z < b2.zMin then { b2 with zMin := v.z } else b2
    if v.z > b3.zMax then { b3 with zMax := v.z } else b3

/-- Function `getWallConstraints`, over the float arithmetic `ar`: the extents of the
vertices in `x` and `z`, moved inwards by `0.25f` with the operations `+=` and `-=` of
`float`, returned in the order `xMin, xMax, zMin, zMax`. -/
def getWallConstraints {F : Type} [LinearOrder F] [Zero F] (ar : FloatArith F)
    (modelVertices : List (Vec3 F)) : Vec4 F :=
  let b := forLoop 0 modelVertices.length (wallBody modelVertices) ⟨0, 0, 0, 0⟩
  ⟨ar.add b.xMin (ar.lit 0.25), ar.sub b.xMax (ar.lit 0.25),
    ar.add b.zMin (ar.lit 0.25), ar.sub b.zMax (ar.lit 0.25)⟩

/-- Method `Camera::setWallConstrains(glm::vec4)`: the four wall globals from a vector in the
order `xMin, xMax, zMin, zMax`. -/
def setWallConstrainsVec (g : Globals K) (constraints : Vec4 K) : Globals K :=
  { g with WALL_X_MIN := constraints.x, WALL_X_MAX := constraints.y,
           WALL_Z_MIN := constraints.z, WALL_Z_MAX := constraints.w }

/-- The type `glm::mat4`, as a matrix acting on column vectors. -/
abbrev Mat4 (K : Type) := Matrix (Fin 4) (Fin 4) K

/-- The rotation about the `x` axis: `glm::rotate(m, angle, (1, 0, 0))` is `m * RotateX angle`. -/
def RotateX (angle : K) : Mat4 K :=
  Matrix.of ![![1, 0, 0, 0],
              ![0, CMath.cos angle, -CMath.sin angle, 0],
              ![0, CMath.sin angle, CMath.cos angle, 0],
              ![0, 0, 0, 1]]

/-- The rotation about the `y` axis: `glm::rotate(m, angle, (0, 1, 0))` is `m * RotateY angle`. -/
def RotateY (angle : K) : Mat4 K :=
  Matrix.of ![![CMath.cos angle, 0, CMath.sin angle, 0],
              ![0, 1, 0, 0],
              ![-CMath.sin angle, 0, CMath.cos angle, 0],
              ![0, 0, 0, 1]]

/-- The rotation about the `z` axis: `glm::rotate(m, angle, (0, 0, 1))` is `m * RotateZ angle`. -/
def RotateZ (angle : K) : Mat4 K :=
  Matrix.of ![![CMath.cos angle, -CMath.sin angle, 0, 0],
              ![CMath.sin angle, CMath.cos angle, 0, 0],
              ![0, 0, 1, 0],
              ![0, 0, 0, 1]]

/-- The translation by `(x, y, z)`: `glm::translate(m, v)` is `m * Translate v.x v.y v.z`. -/
def Translate (x y z : K) : Mat4 K :=
  Matrix.of ![![1, 0, 0, x],
              ![0, 1, 0, y],
              ![0, 0, 1, z],
              ![0, 0, 0, 1]]

/-- The values of the enumerators `tX`, `tY`, `tZ` with which the source indexes `mesh6DoF`.
Their declaration is in `my_model.h`; the values are taken as parameters. -/
structure PoseIndex where
  tX : Nat
  tY : Nat
  tZ : Nat

/-- Function `initModel`, matrix part: the value that the statement
`model.meshes[i].meshMatrix = rotation * translation` stores for the root mesh.  The
rotation is built from the identity by `glm::rotate` about `x`, `y`, `z` with the angles
passed in; the translation is `glm::translate(glm::mat4(1.0f), glm::vec3(tX, tY, tZ))`,
whose arguments are the enumerators `tX, tY, tZ`, not the parameters `_tX, _tY, _tZ`; the
result is `rotation * translation`. -/
def initModelMatrix (idx : PoseIndex) (_tX _tY _tZ _rX _rY _rZ : K) : Mat4 K :=
  let rotation : Mat4 K := 1 * RotateX _rX
  let rotation : Mat4 K := rotation * RotateY _rY
  let rotation : Mat4 K := rotation * RotateZ _rZ
  let translation : Mat4 K := 1 * Translate (idx.tX : K) (idx.tY : K) (idx.tZ : K)
  rotation * translation

/-- The pose of one mesh together with its cached local transform `meshMatrix`. -/
structure MeshTransform (K : Type) where
  mesh6DoF : Pose6DoF K
  meshMatrix : Mat4 K

/-- Modelled from the spec: the method `updateModelMatrix` of the mesh class, declared in
`my_model.h`, which is not among the sources.  By sections 3 and 4.1 of the spec the local
transform is a cache rebuilt from the pose, `Rotate(rx) · Rotate(ry) · Rotate(rz) ·
Translate(tx, ty, tz)`; `main.cpp` uses the method in this way throughout, writing fields of
`mesh6DoF`, calling `updateModelMatrix()` and then reading `meshMatrix`. -/
def updateModelMatrix (m : MeshTransform K) : MeshTransform K :=
  { m with
    meshMatrix := RotateX m.mesh6DoF.rX * RotateY m.mesh6DoF.rY * RotateZ m.mesh6DoF.rZ *
      Translate m.mesh6DoF.tX m.mesh6DoF.tY m.mesh6DoF.tZ }

/-- Function `initModel`, the pass of its loop for the root mesh (`i == 0`): the six pose
parameters are stored in `mesh6DoF`, the matrix `rotation * translation` is stored in
`meshMatrix` (`initModelMatrix`), and `updateModelMatrix()` is called on the mesh. -/
def initModelRoot (idx : PoseIndex) (mesh : MeshTransform K) (_tX _tY _tZ _rX _rY _rZ : K) :
    MeshTransform K :=
  let mesh : MeshTransform K := { mesh with mesh6DoF := ⟨_tX, _tY, _tZ, _rX, _rY, _rZ⟩ }
  let mesh : MeshTransform K :=
    { mesh with meshMatrix := initModelMatrix idx _tX _tY _tZ _rX _rY _rZ }
  updateModelMatrix mesh

/-! ## Observations of the pursuit -/

/-- The food loop of the descending branch. -/
def foodDescentLoop (elapsedTime : K) (s : Scene K) : Scene K :=
  forLoop 0 s.fishFoodModel.length (foodDescentBody elapsedTime) s

/-- The distance from the shark root to the food root, as `sharkPursuitBody` computes it
in `magnitude`. -/
def sharkFoodDistance (s : Scene K) : K :=
  CMath.sqrtf
    (((getMesh s.fishFoodModel 0).mesh6DoF.tX - (getMesh s.sharkModel 0).mesh6DoF.tX) ^ 2 +
      ((getMesh s.fishFoodModel 0).mesh6DoF.tY - (getMesh s.sharkModel 0).mesh6DoF.tY) ^ 2 +
      ((getMesh s.fishFoodModel 0).mesh6DoF.tZ - (getMesh s.sharkModel 0).mesh6DoF.tZ) ^ 2)

/-- The unit direction from the shark root to the food root, as `sharkPursuitBody` computes
it by `directionVec /= magnitude`. -/
def sharkFoodDirection (s : Scene K) : Vec3 K :=
  ⟨((getMesh s.fishFoodModel 0).mesh6DoF.tX - (getMesh s.sharkModel 0).mesh6DoF.tX)
      / sharkFoodDistance s,
    ((getMesh s.fishFoodModel 0).mesh6DoF.tY - (getMesh s.sharkModel 0).mesh6DoF.tY)
      / sharkFoodDistance s,
    ((getMesh s.fishFoodModel 0).mesh6DoF.tZ - (getMesh s.sharkModel 0).mesh6DoF.tZ)
      / sharkFoodDistance s⟩

/-- The orbit radius stored in the root node of the shark. -/
def sharkInitRad (s : Scene K) : K := (getMesh s.sharkModel 0).initRad

/-! ## The program over a float arithmetic -/

/-- Method `Camera::checkPositionConstraints` over the float arithmetic `ar`: `false`
outside the walls; `false` when `sqrtf(powf(x, 2.0f) + powf(z, 2.0f))` is at most
`FISH_TANK_RAD + 0.2f`, both computed with the operations of `ar`; `true` otherwise. -/
def checkPositionConstraintsF {F : Type} [LinearOrder F] (ar : FloatArith F) (g : Globals F)
    (newPosition : Vec3 F) : Bool :=
  if newPosition.x < g.WALL_X_MIN ∨ newPosition.x > g.WALL_X_MAX ∨
      newPosition.z < g.WALL_Z_MIN ∨ newPosition.z > g.WALL_Z_MAX then false
  else if ar.sqrtf (ar.add (ar.powf2 newPosition.x) (ar.powf2 newPosition.z))
      ≤ ar.add g.FISH_TANK_RAD (ar.lit 0.2) then false
  else true

/-- The wag term `0.1f * sin(elapsedTime * 5.0f + j * 5.0f)` of node `j`, over the float
arithmetic `ar`. -/
def wagF {F : Type} (ar : FloatArith F) (lm : FloatLibm F) (elapsedTime : F) (j : Nat) : F :=
  ar.mul (ar.lit 0.1)
    (lm.sin (ar.add (ar.mul elapsedTime (ar.lit 5)) (ar.mul (ar.ofNat j) (ar.lit 5))))

/-- The inner loop of the pursuing shark over the float arithmetic `ar`: node `j` gets the
yaw currently stored in node 0 plus its wag term, is rendered, and then has the wag term
subtracted again. -/
def wagLoopPursuitF {F : Type} [Zero F] (ar : FloatArith F) (lm : FloatLibm F)
    (elapsedTime : F) (m : Model F) : Model F :=
  forLoop 0 m.length
    (fun j m =>
      let m1 := setPose m j
        { (getMesh m j).mesh6DoF with
          rY := ar.add (getMesh m 0).mesh6DoF.rY (wagF ar lm elapsedTime j) }
      setPose m1 j
        { (getMesh m1 j).mesh6DoF with
          rY := ar.sub (getMesh m1 j).mesh6DoF.rY (wagF ar lm elapsedTime j) }) m

/-- One pass of the food loop of the descending branch over the float arithmetic `ar`, for
food mesh `i`: the floor check `(tY - elapsedTime * 0.0001f) < 0.0f`, then the descent
`tY -= elapsedTime * 0.00002f`. -/
def foodDescentBodyF {F : Type} [LinearOrder F] [Zero F] (ar : FloatArith F)
    (elapsedTime : F) (i : Nat) (s : Scene F) : Scene F :=
  let s1 : Scene F :=
    if ar.sub (getMesh s.fishFoodModel i).mesh6DoF.tY (ar.mul elapsedTime (ar.lit 0.0001))
        < ar.lit 0 then
      { s with fishFoodAnimStarted := false, fishFoodInit := false }
    else s
  let tY := ar.sub (getMesh s1.fishFoodModel i).mesh6DoF.tY (ar.mul elapsedTime (ar.lit 0.00002))
  { s1 with
    fishFoodModel := setPose s1.fishFoodModel i { (getMesh s1.fishFoodModel i).mesh6DoF with tY := tY } }

/-- The steering of the shark root over the float arithmetic `ar`: a step of `0.005f` along
`directionVec` and a yaw step of `0.001f` toward `atan2f(dz, dx) + float(M_PI)`. -/
def steerSharkF {F : Type} [LinearOrder F] [Zero F] (ar : FloatArith F) (lm : FloatLibm F)
    (directionVec : Vec3 F) (shark : Model F) : Model F :=
  let m1 := setPose shark 0
    { (getMesh shark 0).mesh6DoF with
      tX := ar.add (getMesh shark 0).mesh6DoF.tX (ar.mul directionVec.x (ar.lit 0.005)) }
  let m2 := setPose m1 0
    { (getMesh m1 0).mesh6DoF with
      tY := ar.add (getMesh m1 0).mesh6DoF.tY (ar.mul directionVec.y (ar.lit 0.005)) }
  let m3 := setPose m2 0
    { (getMesh m2 0).mesh6DoF with
      tZ := ar.add (getMesh m2 0).mesh6DoF.tZ (ar.mul directionVec.z (ar.lit 0.005)) }
  let target := ar.add (lm.atan2f directionVec.z directionVec.x) lm.pi
  if ar.sub target (getMesh m3 0).mesh6DoF.rY < ar.lit 0 then
    setPose m3 0
      { (getMesh m3 0).mesh6DoF with rY := ar.sub (getMesh m3 0).mesh6DoF.rY (ar.lit 0.001) }
  else
    setPose m3 0
      { (getMesh m3 0).mesh6DoF with rY := ar.add (getMesh m3 0).mesh6DoF.rY (ar.lit 0.001) }

/-- The value `magnitude` that a pass of the shark loop computes: the length of the vector
from the shark root to the food root, with the operations of `ar`. -/
def sharkFoodDistanceF {F : Type} [Zero F] (ar : FloatArith F) (s : Scene F) : F :=
  ar.sqrtf
    (ar.add
      (ar.add
        (ar.powf2 (ar.sub (getMesh s.fishFoodModel 0).mesh6DoF.tX
          (getMesh s.sharkModel 0).mesh6DoF.tX))
        (ar.powf2 (ar.sub (getMesh s.fishFoodModel 0).mesh6DoF.tY
          (getMesh s.sharkModel 0).mesh6DoF.tY)))
      (ar.powf2 (ar.sub (getMesh s.fishFoodModel 0).mesh6DoF.tZ
        (getMesh s.sharkModel 0).mesh6DoF.tZ)))

/-- One pass of the outer shark loop of the descending branch over the float arithmetic
`ar`.  When `magnitude < 0.1f` the session flags are cleared, the orbit radius is recomputed
and the loop breaks; otherwise the direction is divided by `magnitude`, the shark is steered
and all nodes are wagged. -/
def sharkPursuitBodyF {F : Type} [LinearOrder F] [Zero F] (ar : FloatArith F)
    (lm : FloatLibm F) (elapsedTime : F) (s : Scene F) : Scene F × Bool :=
  let food0 := (getMesh s.fishFoodModel 0).mesh6DoF
  let shark0 := (getMesh s.sharkModel 0).mesh6DoF
  let directionVec : Vec3 F :=
    ⟨ar.sub food0.tX shark0.tX, ar.sub food0.tY shark0.tY, ar.sub food0.tZ shark0.tZ⟩
  let magnitude := ar.sqrtf
    (ar.add (ar.add (ar.powf2 directionVec.x) (ar.powf2 directionVec.y))
      (ar.powf2 directionVec.z))
  if magnitude < ar.lit 0.1 then
    ({ s with
        fishFoodAnimStarted := false
        fishFoodInit := false
        sharkModel := setInitRad s.sharkModel 0
          (ar.sqrtf (ar.add (ar.powf2 shark0.tX) (ar.powf2 shark0.tZ))) },
      true)
  else
    let directionVec : Vec3 F :=
      ⟨ar.div directionVec.x magnitude, ar.div directionVec.y magnitude,
        ar.div directionVec.z magnitude⟩
    ({ s with
        sharkModel := wagLoopPursuitF ar lm elapsedTime (steerSharkF ar lm directionVec s.sharkModel) },
      false)

/-- The food loop of the descending branch over the float arithmetic `ar`. -/
def foodDescentLoopF {F : Type} [LinearOrder F] [Zero F] (ar : FloatArith F)
    (elapsedTime : F) (s : Scene F) : Scene F :=
  forLoop 0 s.fishFoodModel.length (foodDescentBodyF ar elapsedTime) s

/-- The descending branch of the feeding block over the float arithmetic `ar`: the food
loop, then the shark loop with one pass per shark node unless it breaks. -/
def descendF {F : Type} [LinearOrder F] [Zero F] (ar : FloatArith F) (lm : FloatLibm F)
    (elapsedTime : F) (s : Scene F) : Scene F :=
  let s1 := forLoop 0 s.fishFoodModel.length (foodDescentBodyF ar elapsedTime) s
  loopWithBreak (sharkPursuitBodyF ar lm elapsedTime) s1.sharkModel.length s1

/-- The floor check of the descending branch fires for some food mesh: for some `i` the
value `tY - elapsedTime * 0.0001f`, computed with the operations of `ar` from the height of
food mesh `i` before the update, is below `0.0f`. -/
def FloorCheckFires {F : Type} [LinearOrder F] [Zero F] (ar : FloatArith F) (elapsedTime : F)
    (s : Scene F) : Prop :=
  ∃ i, i < s.fishFoodModel.length ∧
    ar.sub (getMesh s.fishFoodModel i).mesh6DoF.tY (ar.mul elapsedTime (ar.lit 0.0001))
      < ar.lit 0

/-! ## The binary32 model -/

/-- The number `⌊log₂ n⌋` for `n ≥ 1` (and `0` for `n = 0`), by repeated halving. -/
def floorLog2Fuel : Nat → Nat → Nat
  | 0, _ => 0
  | fuel + 1, n => if n < 2 then 0 else floorLog2Fuel fuel (n / 2) + 1

/-- The number `⌊log₂ n⌋`; the fuel covers every `n < 2 ^ 4096`. -/
def floorLog2 (n : Nat) : Nat := floorLog2Fuel 4096 n

/-- The fraction `n / d` rounded to the nearest integer, ties to the even one. -/
def halfEven (n d : Nat) : Nat :=
  let q := n / d
  let r := n % d
  if 2 * r < d then q else if d < 2 * r then q + 1 else if q % 2 = 0 then q else q + 1

/-- The fraction `n / d` rounded to 24 significant bits, to the nearest, ties to even; below
`2 ^ 24` the result is the nearest integer. -/
def round24 (n d : Nat) : Nat :=
  let k := floorLog2 (n / d) - 23
  halfEven n (d * 2 ^ k) * 2 ^ k

/-- Signed version of `round24`: the fraction `n / d`, `d > 0`, rounded to 24 significant
bits. -/
def roundInt (n : Int) (d : Nat) : Int :=
  if 0 ≤ n then (round24 n.natAbs d : Int) else -(round24 n.natAbs d : Int)

/-- The unit of the binary32 model is `2 ^ (-149)`, the least positive binary32 number; this
is the number of units in `1`. -/
def binary32One : Nat := 2 ^ 149

/-- The digit-by-digit integer square root: with `acc² ≤ n < (acc + 2 ^ i)²`, the bits
`i - 1, …, 0` of the root are decided one after the other. -/
def isqrtBits (n : Nat) : Nat → Nat → Nat
  | 0, acc => acc
  | i + 1, acc =>
    isqrtBits n i (if (acc + 2 ^ i) * (acc + 2 ^ i) ≤ n then acc + 2 ^ i else acc)

/-- The integer square root `⌊√n⌋`. -/
def isqrt (n : Nat) : Nat := isqrtBits n (floorLog2 n / 2 + 1) 0

/-- The square root of `m` rounded to 24 significant bits, to the nearest, ties to even. -/
def sqrtRound (m : Nat) : Nat :=
  let s := isqrt m
  let k := floorLog2 s - 23
  let q := s / 2 ^ k
  let lo := q * 2 ^ k
  let mid2 := 2 * lo + 2 ^ k
  if 4 * m < mid2 ^ 2 then lo
  else if mid2 ^ 2 < 4 * m then lo + 2 ^ k
  else if q % 2 = 0 then lo else lo + 2 ^ k

/-- IEEE 754 binary32 arithmetic, round to nearest with ties to even, on finite values.  A
value is the whole number of units `2 ^ (-149)` it holds, so every finite binary32 number,
subnormal ones included, is represented exactly, and the order of the values is the order of
the integers.  Each operation rounds the exact result to 24 significant bits; `powf2` is the
correctly rounded square.  Overflow to infinity, NaN and the sign of zero are not
represented: a division by zero and the square root of a negative number give `0`. -/
def binary32 : FloatArith Int where
  lit := fun q => roundInt (q.num * binary32One) q.den
  ofNat := fun n => roundInt (n * binary32One) 1
  add := fun a b => roundInt (a + b) 1
  sub := fun a b => roundInt (a - b) 1
  mul := fun a b => roundInt (a * b) binary32One
  div := fun a b =>
    if b = 0 then 0
    else if 0 < b then roundInt (a * binary32One) b.natAbs
    else roundInt (-(a * binary32One)) b.natAbs
  sqrtf := fun a => if a < 0 then 0 else (sqrtRound (a.natAbs * binary32One) : Int)
  powf2 := fun a => roundInt (a * a) binary32One

/-- The rational number that a value of the binary32 model stands for. -/
def binary32Value (a : Int) : ℚ := (a : ℚ) / (binary32One : ℚ)

/-! ## Concrete inputs -/

/-- The camera built by the default constructor `Camera()` (position at the origin, yaw
`-90`, pitch `0`, looking down `-z`) after `setFPSCamera(true, 1.8f)`. -/
def originFpsCamera : Camera ℝ :=
  { position := ⟨0, 0, 0⟩, front := ⟨0, 0, -1⟩, up := ⟨0, 1, 0⟩, right := ⟨1, 0, 0⟩,
    worldUp := ⟨0, 1, 0⟩, yaw := -90, pitch := 0, movementSpeed := 2.5,
    mouseSensitivity := 0.1, zoom := 50, fps := true, fixedYPos := 1.8, zoomEnabled := true }

/-- The camera of `main.cpp` after setup: at `(0, 1.8, 9)`, speed `2`, first-person mode
at height `1.8`, zoom disabled. -/
def mainCamera : Camera ℝ :=
  { position := ⟨0, 1.8, 9⟩, front := ⟨0, 0, -1⟩, up := ⟨0, 1, 0⟩, right := ⟨1, 0, 0⟩,
    worldUp := ⟨0, 1, 0⟩, yaw := -90, pitch := 0, movementSpeed := 2,
    mouseSensitivity := 0.1, zoom := 50, fps := true, fixedYPos := 1.8, zoomEnabled := false }

/-- The globals of the scenario: walls `x, z ∈ [-10, 10]`, exclusion radius `rad`. -/
def scenarioGlobals (rad : ℝ) : Globals ℝ := ⟨-10, 10, -10, 10, rad⟩

/-- The camera of the scenario: at the origin at height `y`, move direction `+x`, speed `3`
(so that a frame time of `1` gives a step of `3`). -/
def scenarioCamera (y : ℝ) (fps : Bool) (fixedYPos : ℝ) : Camera ℝ :=
  { position := ⟨0, y, 0⟩, front := ⟨1, 0, 0⟩, up := ⟨0, 1, 0⟩, right := ⟨0, 0, 1⟩,
    worldUp := ⟨0, 1, 0⟩, yaw := 0, pitch := 0, movementSpeed := 3,
    mouseSensitivity := 0.1, zoom := 50, fps := fps, fixedYPos := fixedYPos,
    zoomEnabled := true }

/-- A fish of two nodes on the orbit of radius `1`. -/
def twoNodeFish : Model ℝ := [⟨⟨1, 1, 0, 0, 3, 0⟩, 1, 3⟩, ⟨⟨0, 0, 0, 0, 0, 0⟩, 0, 0⟩]

/-- A scene in the deploy state: the feed key has been pressed (`fishFoodAnimStarted` set,
`fishFoodInit` clear), the food model has one mesh, the shark has two nodes and starts at
`(4.5, 1.5, 4.5)`. -/
def feedScene : Scene ℝ :=
  { camera := mainCamera, globals := ⟨-50, 50, -50, 50, 7.5⟩, fishFoodInit := false,
    fishFoodAnimStarted := true,
    fishFoodModel := [⟨⟨0, 0, 0, 0, 0, 0⟩, 0, 0⟩],
    sharkModel := [⟨⟨4.5, 1.5, 4.5, 0, 3, 0⟩, 6.36, 3⟩, ⟨⟨0, 0, 0, 0, 0, 0⟩, 0, 0⟩],
    fish1Models := [twoNodeFish], fish2Models := [] }

/-- A scene in the descending phase whose food is about to reach the floor: one food mesh
at `(4, 0.00002, 4)`, a one-node shark at `(1, 0, 4)` with orbit radius `6`. -/
def floorScene : Scene ℝ :=
  { camera := mainCamera, globals := ⟨-50, 50, -50, 50, 7.5⟩, fishFoodInit := true,
    fishFoodAnimStarted := true,
    fishFoodModel := [⟨⟨4, 0.00002, 4, 0, 0, 0⟩, 0, 0⟩],
    sharkModel := [⟨⟨1, 0, 4, 0, 3, 0⟩, 6, 3⟩],
    fish1Models := [], fish2Models := [] }

/-- A scene in the descending phase whose food is still above the floor, at height
`0.00005`, and will be there after the update: one food mesh at `(4, 0.00005, 4)`, a
one-node shark at `(1, 0, 4)`. -/
def aboveFloorScene : Scene ℝ :=
  { camera := mainCamera, globals := ⟨-50, 50, -50, 50, 7.5⟩, fishFoodInit := true,
    fishFoodAnimStarted := true,
    fishFoodModel := [⟨⟨4, 0.00005, 4, 0, 0, 0⟩, 0, 0⟩],
    sharkModel := [⟨⟨1, 0, 4, 0, 3, 0⟩, 6, 3⟩],
    fish1Models := [], fish2Models := [] }

/-- A scene in the descending phase with the shark far from the food: one food mesh at
`(4, 1.00002, 4)`, a two-node shark with root at `(1, 1, 4)`. -/
def pursuitScene : Scene ℝ :=
  { camera := mainCamera, globals := ⟨-50, 50, -50, 50, 7.5⟩, fishFoodInit := true,
    fishFoodAnimStarted := true,
    fishFoodModel := [⟨⟨4, 1.00002, 4, 0, 0, 0⟩, 0, 0⟩],
    sharkModel := [⟨⟨1, 1, 4, 0, 3, 0⟩, 6, 3⟩, ⟨⟨0, 0, 0, 0, 0, 0⟩, 0, 0⟩],
    fish1Models := [], fish2Models := [] }

/-- The initial values of the globals in the binary32 model: walls at ±50, tank radius
`7.5f`. -/
def initialGlobals32 : Globals Int :=
  ⟨binary32.lit (-50), binary32.lit 50, binary32.lit (-50), binary32.lit 50, binary32.lit 7.5⟩

/-- A position of the binary32 model just inside the rejected band of the initial globals:
`(7.69921875, 1.8, 0.10968017578125)`, whose `x` and `z` are binary32 numbers. -/
def bandPosition : Vec3 Int :=
  ⟨binary32.lit 7.69921875, binary32.lit 1.8, binary32.lit 0.10968017578125⟩

/-- The globals of the scenario in the binary32 model: walls `x, z ∈ [-10, 10]`, exclusion
radius `5`. -/
def scenarioGlobals32 : Globals Int :=
  ⟨binary32.lit (-10), binary32.lit 10, binary32.lit (-10), binary32.lit 10, binary32.lit 5⟩

/-- Two wall vertices in the binary32 model whose `x` coordinates are `-2 ^ 24` and `2 ^ 24`. -/
def wideWalls : List (Vec3 Int) :=
  [⟨binary32.lit (-16777216), binary32.lit 0, binary32.lit (-8)⟩,
   ⟨binary32.lit 16777216, binary32.lit 3, binary32.lit 8⟩]

/-- The camera of `main.cpp` after setup, in the binary32 model. -/
def mainCamera32 : Camera Int :=
  { position := ⟨0, binary32.lit 1.8, binary32.lit 9⟩, front := ⟨0, 0, binary32.lit (-1)⟩,
    up := ⟨0, binary32.lit 1, 0⟩, right := ⟨binary32.lit 1, 0, 0⟩,
    worldUp := ⟨0, binary32.lit 1, 0⟩, yaw := binary32.lit (-90), pitch := 0,
    movementSpeed := binary32.lit 2, mouseSensitivity := binary32.lit 0.1,
    zoom := binary32.lit 50, fps := true, fixedYPos := binary32.lit 1.8, zoomEnabled := false }

/-- A scene of the binary32 model in the descending phase whose food is at height `h`: one
food mesh at `(4, h, 4)`, a one-node shark at `(1, 0, 4)`. -/
def floorScene32 (h : Int) : Scene Int :=
  { camera := mainCamera32, globals := initialGlobals32,
    fishFoodInit := true, fishFoodAnimStarted := true,
    fishFoodModel := [⟨⟨binary32.lit 4, h, binary32.lit 4, 0, 0, 0⟩, 0, 0⟩],
    sharkModel := [⟨⟨binary32.lit 1, 0, binary32.lit 4, 0, binary32.lit 3, 0⟩,
      binary32.lit 6, binary32.lit 3⟩],
    fish1Models := [], fish2Models := [] }

/-! ## Values of the binary32 model -/

/-- Values of the binary32 model at well-known inputs: the literals `0.1f` and `0.2f` are
`13421773 / 2²⁷` and `13421773 / 2²⁶`; `1.0f / 3.0f` is `11184811 / 2²⁵`; `sqrtf(2.0f)` is
`11863283 / 2²³`; `16777216.0f + 1.0f` is `16777216` (a tie, rounded to even) and
`16777216.0f + 3.0f` is `16777220`; the least positive value is `2⁻¹⁴⁹`, and halving it
gives `0`. -/
theorem binary32_values :
    binary32Value (binary32.lit 0.1) = 13421773 / 134217728 ∧
      binary32Value (binary32.lit 0.2) = 13421773 / 67108864 ∧
      binary32Value (binary32.div (binary32.lit 1) (binary32.lit 3)) = 11184811 / 33554432 ∧
      binary32Value (binary32.sqrtf (binary32.lit 2)) = 11863283 / 8388608 ∧
      binary32.add (binary32.lit 16777216) (binary32.lit 1) = binary32.lit 16777216 ∧
      binary32.add (binary32.lit 16777216) (binary32.lit 3) = binary32.lit 16777220 ∧
      binary32Value 1 = 1 / 2 ^ 149 ∧
      binary32.mul 1 (binary32.lit 0.5) = 0 := by
  decide!

/-! ## Correct rounding in the binary32 model -/

/-- The halving loop computes the binary logarithm: for `1 ≤ n < 2 ^ fuel` the result `k`
satisfies `2 ^ k ≤ n < 2 ^ (k + 1)`. -/
theorem floorLog2Fuel_spec (fuel n : ℕ) (h1 : 1 ≤ n) (h2 : n < 2 ^ fuel) :
    2 ^ floorLog2Fuel fuel n ≤ n ∧ n < 2 ^ (floorLog2Fuel fuel n + 1) := by
  induction fuel generalizing n with
  | zero =>
    simp only [pow_zero] at h2
    omega
  | succ f ih =>
    unfold floorLog2Fuel
    by_cases hn : n < 2
    · rw [if_pos hn]
      simp only [pow_zero, zero_add, pow_one]
      omega
    · rw [if_neg hn]
      have hdiv1 : 1 ≤ n / 2 := by omega
      have hdiv2 : n / 2 < 2 ^ f := by
        rw [pow_succ] at h2
        omega
      obtain ⟨a, b⟩ := ih (n / 2) hdiv1 hdiv2
      constructor
      · rw [pow_succ]
        omega
      · rw [pow_succ]
        omega

/-- The function `halfEven` rounds to a nearest integer: its result is within one half of
`n / d`. -/
theorem halfEven_spec (n d : ℕ) (hd : 0 < d) :
    2 * (halfEven n d * d) ≤ 2 * n + d ∧ 2 * n ≤ 2 * (halfEven n d * d) + d := by
  have hmod : n % d < d := Nat.mod_lt n hd
  have hdiv : n / d * d + n % d = n := Nat.div_add_mod' n d
  unfold halfEven
  simp only
  split_ifs <;> (try simp only [add_mul, one_mul]) <;> constructor <;> omega

/-- In a tie the function `halfEven` returns the even neighbour. -/
theorem halfEven_tie (n d : ℕ) (h : 2 * (n % d) = d) : halfEven n d % 2 = 0 := by
  unfold halfEven
  simp only
  rw [if_neg (by omega), if_neg (by omega)]
  split_ifs with he
  · exact he
  · omega

/-- The function `round24` rounds correctly to binary32, in units of `2 ^ (-149)`: with
`k = ⌊log₂ (n / d)⌋ - 23` (and `k = 0` below `2 ^ 24`), the result is a multiple of
`2 ^ k`, it is within half of `2 ^ k` of `n / d`, and `n / d` is below `2 ^ (k + 24)`, so
that the multiples of `2 ^ k` around it have at most 24 significant bits; for `k > 0` also
`2 ^ (k + 23) ≤ n / d`, so that `2 ^ k` is the finest such grid. -/
theorem round24_spec (n d : ℕ) (hd : 0 < d) (hn : n / d < 2 ^ 4096) :
    2 ^ (floorLog2 (n / d) - 23) ∣ round24 n d ∧
      2 * (round24 n d * d) ≤ 2 * n + d * 2 ^ (floorLog2 (n / d) - 23) ∧
      2 * n ≤ 2 * (round24 n d * d) + d * 2 ^ (floorLog2 (n / d) - 23) ∧
      n / d < 2 ^ (floorLog2 (n / d) - 23 + 24) ∧
      (0 < floorLog2 (n / d) - 23 → 2 ^ (floorLog2 (n / d) - 23 + 23) ≤ n / d) := by
  have hpos : 0 < d * 2 ^ (floorLog2 (n / d) - 23) := Nat.mul_pos hd (by positivity)
  obtain ⟨a, b⟩ := halfEven_spec n (d * 2 ^ (floorLog2 (n / d) - 23)) hpos
  refine ⟨?_, ?_, ?_, ?_, ?_⟩
  · exact Dvd.intro_left _ rfl
  · unfold round24
    simp only
    calc 2 * (halfEven n (d * 2 ^ (floorLog2 (n / d) - 23)) * 2 ^ (floorLog2 (n / d) - 23) * d)
        = 2 * (halfEven n (d * 2 ^ (floorLog2 (n / d) - 23))
            * (d * 2 ^ (floorLog2 (n / d) - 23))) := by ring
      _ ≤ 2 * n + d * 2 ^ (floorLog2 (n / d) - 23) := a
  · unfold round24
    simp only
    calc 2 * n ≤ 2 * (halfEven n (d * 2 ^ (floorLog2 (n / d) - 23))
            * (d * 2 ^ (floorLog2 (n / d) - 23))) + d * 2 ^ (floorLog2 (n / d) - 23) := b
      _ = 2 * (halfEven n (d * 2 ^ (floorLog2 (n / d) - 23))
            * 2 ^ (floorLog2 (n / d) - 23) * d) + d * 2 ^ (floorLog2 (n / d) - 23) := by ring
  · rcases Nat.eq_zero_or_pos (n / d) with h0 | h1
    · rw [h0]
      positivity
    · obtain ⟨-, hlt⟩ := floorLog2Fuel_spec 4096 (n / d) h1 hn
      refine lt_of_lt_of_le hlt (Nat.pow_le_pow_right (by norm_num) ?_)
      unfold floorLog2
      omega
  · intro hk
    have h1 : 1 ≤ n / d := by
      rcases Nat.eq_zero_or_pos (n / d) with h0 | h1
      · rw [h0] at hk
        simp [floorLog2, floorLog2Fuel] at hk
      · exact h1
    obtain ⟨hle, -⟩ := floorLog2Fuel_spec 4096 (n / d) h1 hn
    have e : floorLog2 (n / d) - 23 + 23 = floorLog2Fuel 4096 (n / d) := by
      unfold floorLog2 at hk ⊢
      omega
    rw [e]
    exact hle

/-- The digit-by-digit loop keeps `acc² ≤ n < (acc + 2 ^ i)²` and so ends at `⌊√n⌋`. -/
theorem isqrtBits_spec (n i acc : ℕ) (h1 : acc * acc ≤ n)
    (h2 : n < (acc + 2 ^ i) * (acc + 2 ^ i)) :
    isqrtBits n i acc * isqrtBits n i acc ≤ n ∧
      n < (isqrtBits n i acc + 1) * (isqrtBits n i acc + 1) := by
  induction i generalizing acc with
  | zero =>
    simp only [pow_zero] at h2
    exact ⟨h1, h2⟩
  | succ j ih =>
    unfold isqrtBits
    by_cases hc : (acc + 2 ^ j) * (acc + 2 ^ j) ≤ n
    · rw [if_pos hc]
      refine ih _ hc ?_
      have e : acc + 2 ^ j + 2 ^ j = acc + 2 ^ (j + 1) := by
        rw [pow_succ]
        omega
      rw [e]
      exact h2
    · rw [if_neg hc]
      exact ih _ h1 (by omega)

/-- The function `isqrt` is the integer square root: `isqrt n ² ≤ n < (isqrt n + 1)²`. -/
theorem isqrt_spec (n : ℕ) (hn : n < 2 ^ 4096) :
    isqrt n * isqrt n ≤ n ∧ n < (isqrt n + 1) * (isqrt n + 1) := by
  unfold isqrt
  refine isqrtBits_spec n _ 0 (Nat.zero_le _) ?_
  rw [zero_add, ← pow_add]
  rcases Nat.eq_zero_or_pos n with h0 | h1
  · rw [h0]
    positivity
  · obtain ⟨-, hlt⟩ := floorLog2Fuel_spec 4096 n h1 hn
    refine lt_of_lt_of_le hlt (Nat.pow_le_pow_right (by norm_num) ?_)
    unfold floorLog2
    omega

/-- The function `sqrtRound` rounds the square root correctly: with `s = ⌊√m⌋` and
`k = ⌊log₂ s⌋ - 23`, the result `r` is a multiple of `2 ^ k` with
`r - 2 ^ k / 2 ≤ √m ≤ r + 2 ^ k / 2` (stated on the squares of the doubles), and
`s < 2 ^ (k + 24)`. -/
theorem sqrtRound_spec (m : ℕ) (hm : m < 2 ^ 4096) :
    2 ^ (floorLog2 (isqrt m) - 23) ∣ sqrtRound m ∧
      (2 * sqrtRound m - 2 ^ (floorLog2 (isqrt m) - 23)) ^ 2 ≤ 4 * m ∧
      4 * m ≤ (2 * sqrtRound m + 2 ^ (floorLog2 (isqrt m) - 23)) ^ 2 ∧
      isqrt m < 2 ^ (floorLog2 (isqrt m) - 23 + 24) := by
  obtain ⟨hs1, hs2⟩ := isqrt_spec m hm
  generalize hk : floorLog2 (isqrt m) - 23 = k at *
  have hpk : 0 < 2 ^ k := by positivity
  have hlo : isqrt m / 2 ^ k * 2 ^ k ≤ isqrt m := Nat.div_mul_le_self _ _
  have hhi : isqrt m < isqrt m / 2 ^ k * 2 ^ k + 2 ^ k := by
    have := Nat.div_add_mod' (isqrt m) (2 ^ k)
    have := Nat.mod_lt (isqrt m) hpk
    omega
  have hsm : isqrt m < 2 ^ 4096 := by
    have : isqrt m ≤ m := by nlinarith
    omega
  have hgrid : isqrt m < 2 ^ (k + 24) := by
    rcases Nat.eq_zero_or_pos (isqrt m) with h0 | h1
    · rw [h0]
      positivity
    · obtain ⟨-, hlt⟩ := floorLog2Fuel_spec 4096 (isqrt m) h1 hsm
      refine lt_of_lt_of_le hlt (Nat.pow_le_pow_right (by norm_num) ?_)
      unfold floorLog2 at hk
      omega
  have hdvd : ∀ c : ℕ, 2 ^ k ∣ isqrt m / 2 ^ k * 2 ^ k + c * 2 ^ k := fun c =>
    ⟨isqrt m / 2 ^ k + c, by ring⟩
  -- the two possible results
  have hA : 4 * m ≤ (2 * (isqrt m / 2 ^ k * 2 ^ k) + 2 ^ k) ^ 2 →
      2 ^ k ∣ isqrt m / 2 ^ k * 2 ^ k ∧
      (2 * (isqrt m / 2 ^ k * 2 ^ k) - 2 ^ k) ^ 2 ≤ 4 * m ∧
      4 * m ≤ (2 * (isqrt m / 2 ^ k * 2 ^ k) + 2 ^ k) ^ 2 ∧ isqrt m < 2 ^ (k + 24) := by
    intro h
    refine ⟨Dvd.intro_left _ rfl, ?_, h, hgrid⟩
    have h2 : 2 * (isqrt m / 2 ^ k * 2 ^ k) - 2 ^ k ≤ 2 * isqrt m := by omega
    calc (2 * (isqrt m / 2 ^ k * 2 ^ k) - 2 ^ k) ^ 2 ≤ (2 * isqrt m) ^ 2 :=
          Nat.pow_le_pow_left h2 2
      _ = 4 * (isqrt m * isqrt m) := by ring
      _ ≤ 4 * m := by omega
  have hB : (2 * (isqrt m / 2 ^ k * 2 ^ k) + 2 ^ k) ^ 2 ≤ 4 * m →
      2 ^ k ∣ isqrt m / 2 ^ k * 2 ^ k + 2 ^ k ∧
      (2 * (isqrt m / 2 ^ k * 2 ^ k + 2 ^ k) - 2 ^ k) ^ 2 ≤ 4 * m ∧
      4 * m ≤ (2 * (isqrt m / 2 ^ k * 2 ^ k + 2 ^ k) + 2 ^ k) ^ 2 ∧
      isqrt m < 2 ^ (k + 24) := by
    intro h
    refine ⟨?_, ?_, ?_, hgrid⟩
    · have := hdvd 1
      rwa [one_mul] at this
    · have e : 2 * (isqrt m / 2 ^ k * 2 ^ k + 2 ^ k) - 2 ^ k
          = 2 * (isqrt m / 2 ^ k * 2 ^ k) + 2 ^ k := by omega
      rw [e]
      exact h
    · have h2 : 2 * (isqrt m + 1) ≤ 2 * (isqrt m / 2 ^ k * 2 ^ k + 2 ^ k) + 2 ^ k := by omega
      calc 4 * m ≤ 4 * ((isqrt m + 1) * (isqrt m + 1)) := by omega
        _ = (2 * (isqrt m + 1)) ^ 2 := by ring
        _ ≤ _ := Nat.pow_le_pow_left h2 2
  unfold sqrtRound
  simp only [hk]
  split_ifs with c1 c2 c3
  · exact hA (le_of_lt c1)
  · exact hB (le_of_lt c2)
  · exact hA (not_lt.mp c2)
  · exact hB (not_lt.mp c1)

/-! ## The constraint check -/

/-- Over the reals `sqrtf` is the real square root. -/
theorem sqrtf_real (x : ℝ) : CMath.sqrtf x = Real.sqrt x := rfl

/-- The check accepts exactly the positions inside (or on) the walls whose horizontal
distance from the origin exceeds `FISH_TANK_RAD + 0.2`. -/
theorem checkPositionConstraints_eq_true_iff (g : Globals ℝ) (p : Vec3 ℝ) :
    checkPositionConstraints g p = true ↔
      (g.WALL_X_MIN ≤ p.x ∧ p.x ≤ g.WALL_X_MAX ∧ g.WALL_Z_MIN ≤ p.z ∧ p.z ≤ g.WALL_Z_MAX) ∧
        g.FISH_TANK_RAD + 0.2 < Real.sqrt (p.x ^ 2 + p.z ^ 2) := by
  unfold checkPositionConstraints
  rw [sqrtf_real]
  by_cases hw : p.x < g.WALL_X_MIN ∨ p.x > g.WALL_X_MAX ∨ p.z < g.WALL_Z_MIN ∨ p.z > g.WALL_Z_MAX
  · rw [if_pos hw]
    constructor
    · intro h; cases h
    · rintro ⟨⟨h1, h2, h3, h4⟩, -⟩
      rcases hw with h | h | h | h <;> linarith
  · rw [if_neg hw]
    simp only [not_or, not_lt, gt_iff_lt] at hw
    by_cases hr : Real.sqrt (p.x ^ 2 + p.z ^ 2) ≤ g.FISH_TANK_RAD + 0.2
    · rw [if_pos hr]
      constructor
      · intro h; cases h
      · rintro ⟨-, h⟩; linarith
    · rw [if_neg hr]
      exact ⟨fun _ => ⟨hw, not_le.mp hr⟩, fun _ => rfl⟩

/-- The check rejects exactly the positions outside the walls or within
`FISH_TANK_RAD + 0.2` of the vertical axis. -/
theorem checkPositionConstraints_eq_false_iff (g : Globals ℝ) (p : Vec3 ℝ) :
    checkPositionConstraints g p = false ↔
      (p.x < g.WALL_X_MIN ∨ p.x > g.WALL_X_MAX ∨ p.z < g.WALL_Z_MIN ∨ p.z > g.WALL_Z_MAX) ∨
        Real.sqrt (p.x ^ 2 + p.z ^ 2) ≤ g.FISH_TANK_RAD + 0.2 := by
  rw [← Bool.not_eq_true, checkPositionConstraints_eq_true_iff]
  constructor
  · intro h
    by_contra hc
    simp only [not_or, not_lt, gt_iff_lt, not_le] at hc
    exact h ⟨⟨hc.1.1, hc.1.2.1, hc.1.2.2.1, hc.1.2.2.2⟩, hc.2⟩
  · rintro h ⟨⟨h1, h2, h3, h4⟩, h5⟩
    rcases h with (h | h | h | h) | h <;> linarith

/-- Over exact real arithmetic a literal has the value written. -/
theorem realArith_lit (q : ℚ) : realArith.lit q = (q : ℝ) := rfl

/-- Over exact real arithmetic the conversion of an unsigned integer is exact. -/
theorem realArith_ofNat (n : ℕ) : realArith.ofNat n = (n : ℝ) := rfl

/-- Over exact real arithmetic the sum is the real sum. -/
theorem realArith_add (a b : ℝ) : realArith.add a b = a + b := rfl

/-- Over exact real arithmetic the difference is the real difference. -/
theorem realArith_sub (a b : ℝ) : realArith.sub a b = a - b := rfl

/-- Over exact real arithmetic the product is the real product. -/
theorem realArith_mul (a b : ℝ) : realArith.mul a b = a * b := rfl

/-- Over exact real arithmetic the quotient is the real quotient. -/
theorem realArith_div (a b : ℝ) : realArith.div a b = a / b := rfl

/-- Over exact real arithmetic `sqrtf` is the real square root. -/
theorem realArith_sqrtf (a : ℝ) : realArith.sqrtf a = Real.sqrt a := rfl

/-- Over exact real arithmetic `powf` with the exponent `2` is the square. -/
theorem realArith_powf2 (a : ℝ) : realArith.powf2 a = a ^ 2 := rfl

/-- The check over exact real arithmetic is the check of the real model. -/
theorem checkPositionConstraintsF_real (g : Globals ℝ) (p : Vec3 ℝ) :
    checkPositionConstraintsF realArith g p = checkPositionConstraints g p := by
  unfold checkPositionConstraintsF checkPositionConstraints
  simp only [realArith_lit, realArith_add, realArith_sqrtf, realArith_powf2, sqrtf_real,
    Rat.cast_ofScientific]

/-- The check over a float arithmetic reads only the `x` and `z` coordinates of its
argument. -/
theorem checkPositionConstraintsF_congr {F : Type} [LinearOrder F] (ar : FloatArith F)
    (g : Globals F) (p q : Vec3 F) (hx : q.x = p.x) (hz : q.z = p.z) :
    checkPositionConstraintsF ar g q = checkPositionConstraintsF ar g p := by
  unfold checkPositionConstraintsF
  rw [hx, hz]

/-- The check over a float arithmetic rejects exactly the positions outside the walls or
whose computed distance from the vertical axis is at most the computed threshold. -/
theorem checkPositionConstraintsF_eq_false_iff {F : Type} [LinearOrder F] (ar : FloatArith F)
    (g : Globals F) (p : Vec3 F) :
    checkPositionConstraintsF ar g p = false ↔
      (p.x < g.WALL_X_MIN ∨ p.x > g.WALL_X_MAX ∨ p.z < g.WALL_Z_MIN ∨ p.z > g.WALL_Z_MAX) ∨
        ar.sqrtf (ar.add (ar.powf2 p.x) (ar.powf2 p.z)) ≤ ar.add g.FISH_TANK_RAD (ar.lit 0.2) := by
  unfold checkPositionConstraintsF
  by_cases hw : p.x < g.WALL_X_MIN ∨ p.x > g.WALL_X_MAX ∨ p.z < g.WALL_Z_MIN ∨ p.z > g.WALL_Z_MAX
  · rw [if_pos hw]
    exact ⟨fun _ => Or.inl hw, fun _ => rfl⟩
  · rw [if_neg hw]
    by_cases hr : ar.sqrtf (ar.add (ar.powf2 p.x) (ar.powf2 p.z))
        ≤ ar.add g.FISH_TANK_RAD (ar.lit 0.2)
    · rw [if_pos hr]
      exact ⟨fun _ => Or.inr hr, fun _ => rfl⟩
    · rw [if_neg hr]
      refine ⟨fun h => ?_, fun h => ?_⟩
      · cases h
      · rcases h with h | h
        · exact absurd h hw
        · exact absurd h hr

/-- C1 as stated fails on the code, whose arithmetic is binary32.  With the initial globals
(walls at ±50, radius `7.5`) the position `(7.69921875, 1.8, 0.10968017578125)` has
`sqrt(x² + z²) ≤ 7.5 + 0.2`, yet `checkPositionConstraints` accepts it: the computed
`sqrtf(powf(x, 2) + powf(z, 2))` is `16148071 / 2²¹ ≈ 7.70000029`, the computed
`FISH_TANK_RAD + 0.2f` is `16148070 / 2²¹ ≈ 7.69999981`. -/
theorem checkPositionConstraints_float_counterexample :
    (binary32Value bandPosition.x = 7.69921875 ∧
      binary32Value bandPosition.z = 0.10968017578125 ∧
      binary32Value initialGlobals32.FISH_TANK_RAD = 7.5) ∧
      Real.sqrt ((7.69921875 : ℝ) ^ 2 + (0.10968017578125 : ℝ) ^ 2) ≤ 7.5 + 0.2 ∧
      (binary32Value (binary32.sqrtf (binary32.add (binary32.powf2 bandPosition.x)
          (binary32.powf2 bandPosition.z))) = 16148071 / 2097152 ∧
        binary32Value (binary32.add initialGlobals32.FISH_TANK_RAD (binary32.lit 0.2))
          = 16148070 / 2097152) ∧
      checkPositionConstraintsF binary32 initialGlobals32 bandPosition = true := by
  refine ⟨by decide!, ?_, by decide!, by decide!⟩
  rw [Real.sqrt_le_iff]
  norm_num

/-- C1 (amended): for all wall bounds, every exclusion radius and every candidate `p`, over
every float arithmetic `ar` (exact or rounding), `checkPositionConstraints` returns `false`
when `p` is outside the walls in `x` or `z`; returns `false` when the distance it computes,
`sqrtf(powf(p.x, 2.0f) + powf(p.z, 2.0f))`, is at most the threshold it computes,
`FISH_TANK_RAD + 0.2f`; and its result is the same for any two positions with the same `x`
and `z` (it never depends on `y`). -/
theorem checkPositionConstraints_rejects {F : Type} [LinearOrder F] (ar : FloatArith F)
    (g : Globals F) (p : Vec3 F) :
    ((p.x < g.WALL_X_MIN ∨ p.x > g.WALL_X_MAX ∨ p.z < g.WALL_Z_MIN ∨ p.z > g.WALL_Z_MAX) →
        checkPositionConstraintsF ar g p = false) ∧
      (ar.sqrtf (ar.add (ar.powf2 p.x) (ar.powf2 p.z)) ≤ ar.add g.FISH_TANK_RAD (ar.lit 0.2) →
        checkPositionConstraintsF ar g p = false) ∧
      (∀ q : Vec3 F, q.x = p.x → q.z = p.z →
        checkPositionConstraintsF ar g q = checkPositionConstraintsF ar g p) :=
  ⟨fun h => (checkPositionConstraintsF_eq_false_iff ar g p).mpr (Or.inl h),
    fun h => (checkPositionConstraintsF_eq_false_iff ar g p).mpr (Or.inr h),
    fun q hx hz => checkPositionConstraintsF_congr ar g p q hx hz⟩

/-- C1 (amended) at concrete inputs: in binary32 with the initial globals, `(60, 0, 0)` is
outside the walls and `(1, 0, 1)` is inside the tank; both are rejected. -/
theorem checkPositionConstraints_rejects_witness :
    checkPositionConstraintsF binary32 initialGlobals32
        ⟨binary32.lit 60, binary32.lit 0, binary32.lit 0⟩ = false ∧
      checkPositionConstraintsF binary32 initialGlobals32
        ⟨binary32.lit 1, binary32.lit 0, binary32.lit 1⟩ = false :=
  ⟨(checkPositionConstraints_rejects binary32 initialGlobals32
      ⟨binary32.lit 60, binary32.lit 0, binary32.lit 0⟩).1 (by decide!),
    (checkPositionConstraints_rejects binary32 initialGlobals32
      ⟨binary32.lit 1, binary32.lit 0, binary32.lit 1⟩).2.1 (by decide!)⟩

/-- C2 as stated fails: with the initial globals (walls at ±50, radius 7.5) the position
`(7.6, 0, 0)` is strictly inside the walls and outside the exclusion circle
(`sqrt(7.6²) = 7.6 > 7.5`), yet it is rejected, because `7.6 ≤ 7.5 + 0.2`. -/
theorem checkPositionConstraints_margin_counterexample :
    ((Globals.initial : Globals ℝ).WALL_X_MIN < (7.6 : ℝ) ∧
      (7.6 : ℝ) < (Globals.initial : Globals ℝ).WALL_X_MAX ∧
      (Globals.initial : Globals ℝ).WALL_Z_MIN < (0 : ℝ) ∧
      (0 : ℝ) < (Globals.initial : Globals ℝ).WALL_Z_MAX ∧
      Real.sqrt ((7.6 : ℝ) ^ 2 + (0 : ℝ) ^ 2) > (Globals.initial : Globals ℝ).FISH_TANK_RAD) ∧
      checkPositionConstraints (Globals.initial : Globals ℝ) ⟨7.6, 0, 0⟩ = false := by
  have hs : Real.sqrt ((7.6 : ℝ) ^ 2 + (0 : ℝ) ^ 2) = 7.6 := by
    rw [show ((7.6 : ℝ) ^ 2 + (0 : ℝ) ^ 2) = (7.6 : ℝ) ^ 2 by norm_num]
    exact Real.sqrt_sq (by norm_num)
  refine ⟨⟨?_, ?_, ?_, ?_, ?_⟩, ?_⟩
  · norm_num [Globals.initial]
  · norm_num [Globals.initial]
  · norm_num [Globals.initial]
  · norm_num [Globals.initial]
  · rw [hs]; norm_num [Globals.initial]
  · rw [checkPositionConstraints_eq_false_iff]
    right
    show Real.sqrt ((7.6 : ℝ) ^ 2 + (0 : ℝ) ^ 2) ≤ _
    rw [hs]; norm_num [Globals.initial]

/-- C2 (amended): for all wall bounds, every exclusion radius and every candidate `p`
strictly inside the walls, over every float arithmetic `ar` (exact or rounding): when the
distance that the check computes, `sqrtf(powf(p.x, 2.0f) + powf(p.z, 2.0f))`, exceeds the
threshold that it computes, `FISH_TANK_RAD + 0.2f`, `checkPositionConstraints` returns
`true`. -/
theorem checkPositionConstraints_accepts {F : Type} [LinearOrder F] (ar : FloatArith F)
    (g : Globals F) (p : Vec3 F)
    (hx1 : g.WALL_X_MIN < p.x) (hx2 : p.x < g.WALL_X_MAX)
    (hz1 : g.WALL_Z_MIN < p.z) (hz2 : p.z < g.WALL_Z_MAX)
    (hr : ar.sqrtf (ar.add (ar.powf2 p.x) (ar.powf2 p.z)) > ar.add g.FISH_TANK_RAD (ar.lit 0.2)) :
    checkPositionConstraintsF ar g p = true := by
  rw [← Bool.not_eq_false, checkPositionConstraintsF_eq_false_iff]
  rintro ((h | h | h | h) | h)
  · exact lt_asymm h hx1
  · exact lt_asymm h hx2
  · exact lt_asymm h hz1
  · exact lt_asymm h hz2
  · exact not_le.mpr hr h

/-- C2 (amended) at a concrete input: in binary32 the start position `(0, 1.8, 9)` of the
camera is accepted under the initial globals. -/
theorem checkPositionConstraints_accepts_witness :
    checkPositionConstraintsF binary32 initialGlobals32
      ⟨binary32.lit 0, binary32.lit 1.8, binary32.lit 9⟩ = true :=
  checkPositionConstraints_accepts binary32 initialGlobals32
    ⟨binary32.lit 0, binary32.lit 1.8, binary32.lit 9⟩
    (by decide!) (by decide!) (by decide!) (by decide!) (by decide!)

/-- The inputs that separate the real model from binary32 near the margin.  With the tank
radius `2.8f` the computed threshold `2.8f + 0.2f` is `3`, so the position `(3, 0, 0)` is
rejected; and with the initial globals the position `(7.6f, 0, 0)` is rejected in binary32
as it is over the reals. -/
theorem checkPositionConstraints_margin_binary32 :
    binary32.add (binary32.lit 2.8) (binary32.lit 0.2) = binary32.lit 3 ∧
      checkPositionConstraintsF binary32
          ⟨binary32.lit (-10), binary32.lit 10, binary32.lit (-10), binary32.lit 10,
            binary32.lit 2.8⟩
          ⟨binary32.lit 3, binary32.lit 0, binary32.lit 0⟩ = false ∧
      checkPositionConstraintsF binary32 initialGlobals32
        ⟨binary32.lit 7.6, binary32.lit 0, binary32.lit 0⟩ = false := by
  decide!

/-! ## Keyboard moves -/

/-- A move whose candidate is rejected leaves the camera as it was, apart from the
first-person height assignment that ends `processKeyboardInput`. -/
theorem processKeyboardInput_of_rejected (g : Globals ℝ) (c : Camera ℝ) (d : Int) (dt : ℝ)
    (hrej : checkPositionConstraints g (moveCandidate c d dt) = false) :
    processKeyboardInput g c d dt =
      if c.fps then { c with position := { c.position with y := c.fixedYPos } } else c := by
  unfold moveCandidate at hrej
  unfold processKeyboardInput
  by_cases hW : d = GLFW_KEY_W
  · subst hW
    simp only [if_true] at hrej
    simp [hrej, GLFW_KEY_W, GLFW_KEY_A, GLFW_KEY_S, GLFW_KEY_D]
  · by_cases hA : d = GLFW_KEY_A
    · subst hA
      simp only [if_neg hW, if_true] at hrej
      simp [hrej, GLFW_KEY_W, GLFW_KEY_A, GLFW_KEY_S, GLFW_KEY_D]
    · by_cases hS : d = GLFW_KEY_S
      · subst hS
        simp only [if_neg hW, if_neg hA, if_true] at hrej
        simp [hrej, GLFW_KEY_W, GLFW_KEY_A, GLFW_KEY_S, GLFW_KEY_D]
      · by_cases hD : d = GLFW_KEY_D
        · subst hD
          simp only [if_neg hW, if_neg hA, if_neg hS, if_true] at hrej
          simp [hrej, GLFW_KEY_W, GLFW_KEY_A, GLFW_KEY_S, GLFW_KEY_D]
        · simp [hW, hA, hS, hD]

/-- A move with key W, A, S or D whose candidate is accepted puts the camera at the
candidate, and then applies the first-person height assignment. -/
theorem processKeyboardInput_of_accepted (g : Globals ℝ) (c : Camera ℝ) (d : Int) (dt : ℝ)
    (hd : d = GLFW_KEY_W ∨ d = GLFW_KEY_A ∨ d = GLFW_KEY_S ∨ d = GLFW_KEY_D)
    (hacc : checkPositionConstraints g (moveCandidate c d dt) = true) :
    processKeyboardInput g c d dt =
      if c.fps then
        { c with position := { moveCandidate c d dt with y := c.fixedYPos } }
      else { c with position := moveCandidate c d dt } := by
  unfold moveCandidate at hacc ⊢
  unfold processKeyboardInput
  rcases hd with rfl | rfl | rfl | rfl
  · simp only [if_true] at hacc
    simp [hacc, GLFW_KEY_W, GLFW_KEY_A, GLFW_KEY_S, GLFW_KEY_D]
  · simp only [GLFW_KEY_W, GLFW_KEY_A, GLFW_KEY_S, GLFW_KEY_D] at hacc ⊢
    norm_num at hacc
    simp [hacc]
  · simp only [GLFW_KEY_W, GLFW_KEY_A, GLFW_KEY_S, GLFW_KEY_D] at hacc ⊢
    norm_num at hacc
    simp [hacc]
  · simp only [GLFW_KEY_W, GLFW_KEY_A, GLFW_KEY_S, GLFW_KEY_D] at hacc ⊢
    norm_num at hacc
    simp [hacc]

/-- C3 as stated fails: the camera built by `Camera()` and put in first-person mode at
height `1.8` stands at the origin, inside the tank; its W move is rejected (the candidate
`(0, 0, -2.5)` is within `7.5 + 0.2` of the axis), and yet the move changes the position:
the height goes from `0` to `1.8`. -/
theorem processKeyboardInput_rejected_counterexample :
    checkPositionConstraints Globals.initial (moveCandidate originFpsCamera GLFW_KEY_W 1) = false ∧
      originFpsCamera.position.y = 0 ∧
      (processKeyboardInput Globals.initial originFpsCamera GLFW_KEY_W 1).position.y = 1.8 ∧
      (processKeyboardInput Globals.initial originFpsCamera GLFW_KEY_W 1).position ≠
        originFpsCamera.position := by
  have hrej : checkPositionConstraints Globals.initial
      (moveCandidate originFpsCamera GLFW_KEY_W 1) = false := by
    rw [checkPositionConstraints_eq_false_iff]
    right
    rw [Real.sqrt_le_iff]
    norm_num [moveCandidate, originFpsCamera, Globals.initial, Vec3.add, Vec3.scale]
  have hy : (processKeyboardInput Globals.initial originFpsCamera GLFW_KEY_W 1).position.y
      = 1.8 := by
    rw [processKeyboardInput_of_rejected _ _ _ _ hrej]
    simp [originFpsCamera]
  refine ⟨hrej, rfl, hy, fun h => ?_⟩
  have h2 := congrArg Vec3.y h
  rw [hy] at h2
  norm_num [originFpsCamera] at h2

/-- C3 (amended): for every camera state, every direction in {W, A, S, D} and every `dt`,
if `checkPositionConstraints` rejects the candidate then `processKeyboardInput` leaves the
`x` and `z` coordinates of the position exactly as they were; the height `y` is left as it
was when first-person mode is off and is set to `fixedYPos` when it is on.  So the
position is unchanged whenever first-person mode is off or the camera already is at the
fixed height. -/
theorem processKeyboardInput_rejected (g : Globals ℝ) (c : Camera ℝ) (d : Int) (dt : ℝ)
    (hd : d = GLFW_KEY_W ∨ d = GLFW_KEY_A ∨ d = GLFW_KEY_S ∨ d = GLFW_KEY_D)
    (hrej : checkPositionConstraints g (moveCandidate c d dt) = false) :
    (processKeyboardInput g c d dt).position.x = c.position.x ∧
      (processKeyboardInput g c d dt).position.z = c.position.z ∧
      (processKeyboardInput g c d dt).position.y =
        (if c.fps then c.fixedYPos else c.position.y) ∧
      ((c.fps = false ∨ c.position.y = c.fixedYPos) →
        (processKeyboardInput g c d dt).position = c.position) := by
  have _ := hd
  rw [processKeyboardInput_of_rejected g c d dt hrej]
  cases hf : c.fps
  · simp
  · simp only [if_true, true_and]
    rintro (h | h)
    · cases h
    · rw [← h]

/-- C3 (amended) at a concrete input: the camera of `main.cpp` at `(0, 1.8, 9)` pressing W
with frame time `1` has its candidate `(0, 1.8, 7)` rejected and stays where it is. -/
theorem processKeyboardInput_rejected_witness :
    (processKeyboardInput Globals.initial mainCamera GLFW_KEY_W 1).position =
      mainCamera.position :=
  (processKeyboardInput_rejected Globals.initial mainCamera GLFW_KEY_W 1 (Or.inl rfl)
    (by
      rw [checkPositionConstraints_eq_false_iff]
      right
      rw [Real.sqrt_le_iff]
      norm_num [moveCandidate, mainCamera, Globals.initial, Vec3.add, Vec3.scale])).2.2.2
    (Or.inr rfl)

/-- C4: for every camera state, direction `d` in {W, S, A, D} and `dt`, with candidate
`c = position ± front * v` (W, S) or `position ± right * v` (D, A), `v = movementSpeed * dt`:
if `checkPositionConstraints` accepts the candidate, then after `processKeyboardInput` the
position has the candidate's `x` and `z`, and its `y` is `fixedYPos` in first-person mode
and the candidate's `y` otherwise. -/
theorem processKeyboardInput_accepted (g : Globals ℝ) (c : Camera ℝ) (d : Int) (dt : ℝ)
    (hd : d = GLFW_KEY_W ∨ d = GLFW_KEY_A ∨ d = GLFW_KEY_S ∨ d = GLFW_KEY_D)
    (hacc : checkPositionConstraints g (moveCandidate c d dt) = true) :
    (processKeyboardInput g c d dt).position.x = (moveCandidate c d dt).x ∧
      (processKeyboardInput g c d dt).position.z = (moveCandidate c d dt).z ∧
      (processKeyboardInput g c d dt).position.y =
        (if c.fps then c.fixedYPos else (moveCandidate c d dt).y) := by
  rw [processKeyboardInput_of_accepted g c d dt hd hacc]
  cases hf : c.fps <;> simp

/-- C4 at a concrete input: the camera of `main.cpp` at `(0, 1.8, 9)` pressing D with
frame time `1` moves to `(2, 1.8, 9)`. -/
theorem processKeyboardInput_accepted_witness :
    (processKeyboardInput Globals.initial mainCamera GLFW_KEY_D 1).position.x = 2 ∧
      (processKeyboardInput Globals.initial mainCamera GLFW_KEY_D 1).position.z = 9 ∧
      (processKeyboardInput Globals.initial mainCamera GLFW_KEY_D 1).position.y = 1.8 := by
  have hacc : checkPositionConstraints Globals.initial
      (moveCandidate mainCamera GLFW_KEY_D 1) = true := by
    rw [checkPositionConstraints_eq_true_iff]
    refine ⟨?_, Real.lt_sqrt_of_sq_lt ?_⟩ <;>
      norm_num [moveCandidate, mainCamera, Globals.initial, Vec3.add, Vec3.scale,
        GLFW_KEY_W, GLFW_KEY_A, GLFW_KEY_S, GLFW_KEY_D]
  have h := processKeyboardInput_accepted Globals.initial mainCamera GLFW_KEY_D 1
    (Or.inr (Or.inr (Or.inr rfl))) hacc
  have hc : moveCandidate mainCamera GLFW_KEY_D 1 = ⟨2, 1.8, 9⟩ := by
    norm_num [moveCandidate, mainCamera, Vec3.add, Vec3.scale,
      GLFW_KEY_W, GLFW_KEY_A, GLFW_KEY_S, GLFW_KEY_D]
  rw [hc] at h
  simpa [mainCamera] using h

/-! ## The scenario: repeated moves in `+x` -/

/-- One W press in the scenario.  A camera on the `x` axis side `x ≥ 0` with move direction
`+x` and step `3` keeps its direction, speed and `z = 0`, and advances by `3` exactly when
the candidate is inside the wall `x ≤ 10` and farther than `rad + 0.2` from the axis. -/
theorem scenario_step (rad : ℝ) (c : Camera ℝ) (hf : c.front = ⟨1, 0, 0⟩)
    (hs : c.movementSpeed = 3) (hz : c.position.z = 0) (hx : 0 ≤ c.position.x) :
    (processKeyboardInput (scenarioGlobals rad) c GLFW_KEY_W 1).front = ⟨1, 0, 0⟩ ∧
      (processKeyboardInput (scenarioGlobals rad) c GLFW_KEY_W 1).movementSpeed = 3 ∧
      (processKeyboardInput (scenarioGlobals rad) c GLFW_KEY_W 1).position.z = 0 ∧
      (processKeyboardInput (scenarioGlobals rad) c GLFW_KEY_W 1).position.x =
        (if c.position.x + 3 ≤ 10 ∧ rad + 0.2 < c.position.x + 3 then c.position.x + 3
         else c.position.x) := by
  have hcand : moveCandidate c GLFW_KEY_W 1 = ⟨c.position.x + 3, c.position.y, 0⟩ := by
    simp [moveCandidate, Vec3.add, Vec3.scale, hf, hs, hz]
  have hsqrt : Real.sqrt ((c.position.x + 3) ^ 2 + (0 : ℝ) ^ 2) = c.position.x + 3 := by
    rw [show (c.position.x + 3) ^ 2 + (0 : ℝ) ^ 2 = (c.position.x + 3) ^ 2 by ring]
    exact Real.sqrt_sq (by linarith)
  by_cases hacc : c.position.x + 3 ≤ 10 ∧ rad + 0.2 < c.position.x + 3
  · have hchk : checkPositionConstraints (scenarioGlobals rad)
        (moveCandidate c GLFW_KEY_W 1) = true := by
      rw [checkPositionConstraints_eq_true_iff, hcand]
      simp only [scenarioGlobals]
      rw [hsqrt]
      refine ⟨⟨by linarith, hacc.1, by norm_num, by norm_num⟩, hacc.2⟩
    rw [processKeyboardInput_of_accepted _ c _ 1 (Or.inl rfl) hchk, hcand, if_pos hacc]
    cases hfps : c.fps <;> simp [hf, hs]
  · have hchk : checkPositionConstraints (scenarioGlobals rad)
        (moveCandidate c GLFW_KEY_W 1) = false := by
      rw [checkPositionConstraints_eq_false_iff, hcand]
      simp only [scenarioGlobals]
      rw [hsqrt]
      by_cases h10 : c.position.x + 3 ≤ 10
      · right
        exact not_lt.mp (fun h => hacc ⟨h10, h⟩)
      · left; right; left
        exact not_le.mp h10
    rw [processKeyboardInput_of_rejected _ c _ 1 hchk, if_neg hacc]
    cases hfps : c.fps <;> simp [hf, hs, hz]

/-- The scenario invariant for the exclusion radius `5`: after any number of presses of W
the camera still has the move direction `+x`, the speed `3` and the position `x = 0`,
`z = 0`. -/
theorem scenario_pressW (y fy : ℝ) (fps : Bool) (n : ℕ) :
    (pressW (scenarioGlobals 5) 1 n (scenarioCamera y fps fy)).front = ⟨1, 0, 0⟩ ∧
      (pressW (scenarioGlobals 5) 1 n (scenarioCamera y fps fy)).movementSpeed = 3 ∧
      (pressW (scenarioGlobals 5) 1 n (scenarioCamera y fps fy)).position.z = 0 ∧
      (pressW (scenarioGlobals 5) 1 n (scenarioCamera y fps fy)).position.x = 0 := by
  induction n with
  | zero => simp [pressW, scenarioCamera]
  | succ k ih =>
    obtain ⟨hf, hs, hz, hx⟩ := ih
    obtain ⟨hf', hs', hz', hx'⟩ := scenario_step 5 _ hf hs hz hx.ge
    refine ⟨hf', hs', hz', ?_⟩
    show (processKeyboardInput _ _ _ _).position.x = 0
    rw [hx', hx, if_neg]
    rintro ⟨-, h2⟩
    norm_num at h2

/-- C5 as stated fails: in the scenario (walls ±10, exclusion radius 5, camera at the
origin, direction `+x`, step 3) the first move is not accepted.  Its candidate `(3, 0, 0)`
is rejected, since `sqrt(3²) = 3 ≤ 5 + 0.2`, and the camera stays at `x = 0`, not `x = 3`. -/
theorem scenario_counterexample :
    checkPositionConstraints (scenarioGlobals 5)
        (moveCandidate (scenarioCamera 0 false 0) GLFW_KEY_W 1) = false ∧
      (processKeyboardInput (scenarioGlobals 5) (scenarioCamera 0 false 0)
        GLFW_KEY_W 1).position.x = 0 ∧
      (processKeyboardInput (scenarioGlobals 5) (scenarioCamera 0 false 0)
        GLFW_KEY_W 1).position.x ≠ 3 := by
  have hrej : checkPositionConstraints (scenarioGlobals 5)
      (moveCandidate (scenarioCamera 0 false 0) GLFW_KEY_W 1) = false := by
    rw [checkPositionConstraints_eq_false_iff]
    right
    rw [Real.sqrt_le_iff]
    norm_num [moveCandidate, scenarioCamera, scenarioGlobals, Vec3.add, Vec3.scale]
  have hx : (processKeyboardInput (scenarioGlobals 5) (scenarioCamera 0 false 0)
      GLFW_KEY_W 1).position.x = 0 := by
    rw [processKeyboardInput_of_rejected _ _ _ _ hrej]
    simp [scenarioCamera]
  refine ⟨hrej, hx, ?_⟩
  rw [hx]
  norm_num

/-- C5 (amended): with walls `x, z ∈ [-10, 10]` and exclusion radius `5`, a camera starting
at the origin (any height, first-person mode on or off) whose move direction is `+x` and
whose step is `3`: every `+x` move is rejected, because its candidate `(3, y, 0)` is within
`5 + 0.2` of the axis, and the position stays at `x = 0` after any number `n` of moves.  The
rejection does not depend on the arithmetic: in binary32 the candidate is `x = 0 + 1 * (3 *
1) = 3`, `z = 0 + 0 * (3 * 1) = 0`, and the check rejects `(3, y, 0)` for every `y`. -/
theorem scenario_positions (y fy : ℝ) (fps : Bool) (n : ℕ) :
    checkPositionConstraints (scenarioGlobals 5)
        (moveCandidate (pressW (scenarioGlobals 5) 1 n (scenarioCamera y fps fy))
          GLFW_KEY_W 1) = false ∧
      (pressW (scenarioGlobals 5) 1 n (scenarioCamera y fps fy)).position.x = 0 ∧
      (binary32.add (binary32.lit 0)
          (binary32.mul (binary32.lit 1) (binary32.mul (binary32.lit 3) (binary32.lit 1)))
          = binary32.lit 3 ∧
        binary32.add (binary32.lit 0)
          (binary32.mul (binary32.lit 0) (binary32.mul (binary32.lit 3) (binary32.lit 1)))
          = binary32.lit 0 ∧
        ∀ y32 : Int, checkPositionConstraintsF binary32 scenarioGlobals32
          ⟨binary32.lit 3, y32, binary32.lit 0⟩ = false) := by
  obtain ⟨hf, hs, hz, hx⟩ := scenario_pressW y fy fps n
  refine ⟨?_, hx, by decide!, by decide!, fun y32 => ?_⟩
  · have hcand : moveCandidate (pressW (scenarioGlobals 5) 1 n (scenarioCamera y fps fy))
        GLFW_KEY_W 1 = ⟨0 + 3, (pressW (scenarioGlobals 5) 1 n
          (scenarioCamera y fps fy)).position.y, 0⟩ := by
      simp [moveCandidate, Vec3.add, Vec3.scale, hf, hs, hz, hx]
    rw [checkPositionConstraints_eq_false_iff, hcand]
    right
    rw [Real.sqrt_le_iff]
    norm_num [scenarioGlobals]
  · rw [checkPositionConstraintsF_congr binary32 scenarioGlobals32
      ⟨binary32.lit 3, binary32.lit 0, binary32.lit 0⟩ ⟨binary32.lit 3, y32, binary32.lit 0⟩
      rfl rfl]
    decide!

/-! ## Pitch and zoom clamping -/

/-- Pointer events never change `zoomEnabled`. -/
theorem applyMouseEvents_zoomEnabled (c : Camera ℝ) (es : List (MouseEvent ℝ)) :
    (applyMouseEvents c es).zoomEnabled = c.zoomEnabled := by
  unfold applyMouseEvents
  induction es generalizing c with
  | nil => rfl
  | cons e es ih =>
    rw [List.foldl_cons, ih]
    cases e with
    | move xOff yOff => rfl
    | scroll yOff =>
      show (processMouseScroll c yOff).zoomEnabled = c.zoomEnabled
      unfold processMouseScroll
      by_cases h : c.zoomEnabled = true
      · rw [if_pos h]
      · rw [if_neg h]

/-- After `processMouseMovement` the pitch is in `[-89, 89]`, whatever it was before. -/
theorem processMouseMovement_pitch (c : Camera ℝ) (xOff yOff : ℝ) :
    -89 ≤ (processMouseMovement c xOff yOff).pitch ∧
      (processMouseMovement c xOff yOff).pitch ≤ 89 := by
  simp only [processMouseMovement, updateCameraVectors, MAX_PITCH, MIN_PITCH]
  split_ifs <;> constructor <;> linarith

/-- After `processMouseScroll` with zoom enabled the zoom is in `[1, 60]`, whatever it was
before. -/
theorem processMouseScroll_zoom (c : Camera ℝ) (yOff : ℝ) (hz : c.zoomEnabled = true) :
    1 ≤ (processMouseScroll c yOff).zoom ∧ (processMouseScroll c yOff).zoom ≤ 60 := by
  simp only [processMouseScroll, hz, if_true, MAX_ZOOM, MIN_ZOOM]
  split_ifs <;> constructor <;> linarith

/-- C6: for every initial camera state (any prior pitch and zoom) with zoom enabled and
every finite sequence `es` of `processMouseMovement` and `processMouseScroll` calls, a
further `processMouseMovement` leaves the pitch in `[-89, 89]` and a further
`processMouseScroll` leaves the zoom in `[1, 60]`; so the bound holds after each call of
every sequence. -/
theorem pitch_zoom_clamped (c : Camera ℝ) (hz : c.zoomEnabled = true)
    (es : List (MouseEvent ℝ)) :
    (∀ xOff yOff : ℝ,
        -89 ≤ (applyMouseEvents c (es ++ [MouseEvent.move xOff yOff])).pitch ∧
          (applyMouseEvents c (es ++ [MouseEvent.move xOff yOff])).pitch ≤ 89) ∧
      (∀ yOff : ℝ,
        1 ≤ (applyMouseEvents c (es ++ [MouseEvent.scroll yOff])).zoom ∧
          (applyMouseEvents c (es ++ [MouseEvent.scroll yOff])).zoom ≤ 60) := by
  constructor
  · intro xOff yOff
    simp only [applyMouseEvents, List.foldl_append, List.foldl_cons, List.foldl_nil,
      applyMouseEvent]
    exact processMouseMovement_pitch _ xOff yOff
  · intro yOff
    simp only [applyMouseEvents, List.foldl_append, List.foldl_cons, List.foldl_nil,
      applyMouseEvent]
    exact processMouseScroll_zoom _ yOff
      ((applyMouseEvents_zoomEnabled c es).trans hz)

/-- C6 at a concrete input: from pitch `0` and zoom `50`, a pointer move of `5000` up gives
pitch at most `89`, and a following scroll of `-100` gives zoom at most `60`. -/
theorem pitch_zoom_clamped_witness :
    (applyMouseEvents originFpsCamera ([] ++ [MouseEvent.move 0 5000])).pitch ≤ 89 ∧
      (applyMouseEvents originFpsCamera
        ([MouseEvent.move 0 5000] ++ [MouseEvent.scroll (-100)])).zoom ≤ 60 :=
  ⟨((pitch_zoom_clamped originFpsCamera rfl []).1 0 5000).2,
    ((pitch_zoom_clamped originFpsCamera rfl [MouseEvent.move 0 5000]).2 (-100)).2⟩

/-! ## Meshes and loops -/

/-- Over the reals `M_PI` is `π`. -/
theorem pi_real : (CMath.pi : ℝ) = Real.pi := rfl

/-- Over the reals `cos` is the real cosine. -/
theorem cos_real (x : ℝ) : CMath.cos x = Real.cos x := rfl

/-- Over the reals `sin` is the real sine. -/
theorem sin_real (x : ℝ) : CMath.sin x = Real.sin x := rfl

/-- Assigning a pose keeps the number of meshes. -/
theorem length_setPose {F : Type} [Zero F] (m : Model F) (i : Nat) (p : Pose6DoF F) :
    (setPose m i p).length = m.length := by
  simp [setPose]

/-- Assigning the pose of mesh `i` leaves every other mesh as it was. -/
theorem getMesh_setPose_ne {F : Type} [Zero F] (m : Model F) (i j : Nat) (p : Pose6DoF F)
    (h : i ≠ j) :
    getMesh (setPose m i p) j = getMesh m j := by
  simp [getMesh, setPose, List.getD_eq_getElem?_getD, List.getElem?_set_ne h]

/-- Reading back the mesh whose pose was assigned. -/
theorem getMesh_setPose_self {F : Type} [Zero F] (m : Model F) (i : Nat) (p : Pose6DoF F)
    (h : i < m.length) :
    getMesh (setPose m i p) i = { getMesh m i with mesh6DoF := p } := by
  simp [getMesh, setPose, List.getD_eq_getElem?_getD, h]

/-- Assigning `initRad` changes no pose. -/
theorem getMesh_setInitRad_pose {F : Type} [Zero F] (m : Model F) (i j : Nat) (r : F) :
    (getMesh (setInitRad m i r) j).mesh6DoF = (getMesh m j).mesh6DoF := by
  by_cases h : i = j
  · subst h
    by_cases hl : i < m.length
    · simp [getMesh, setInitRad, List.getD_eq_getElem?_getD, hl]
    · simp [getMesh, setInitRad, List.getD_eq_getElem?_getD, List.set_eq_of_length_le (not_lt.mp hl)]
  · simp [getMesh, setInitRad, List.getD_eq_getElem?_getD, List.getElem?_set_ne h]

/-- A counting loop with `lo < hi` runs its body at `lo` and continues from `lo + 1`. -/
theorem forLoop_step {σ : Type} (lo hi : Nat) (body : Nat → σ → σ) (s : σ) (h : lo < hi) :
    forLoop lo hi body s = forLoop (lo + 1) hi body (body lo s) := by
  unfold forLoop
  have : hi - lo = (hi - (lo + 1)) + 1 := by omega
  rw [this, List.range'_succ, List.foldl_cons]

/-- Loop invariant rule for a counting loop. -/
theorem forLoop_invariant {σ : Type} (P : σ → Prop) (lo hi : Nat) (body : Nat → σ → σ) (s : σ)
    (h0 : P s) (hstep : ∀ i t, lo ≤ i → i < hi → P t → P (body i t)) :
    P (forLoop lo hi body s) := by
  unfold forLoop
  generalize hn : hi - lo = n
  induction n generalizing lo s with
  | zero => simpa using h0
  | succ k ih =>
    rw [List.range'_succ, List.foldl_cons]
    apply ih
    · exact hstep lo s le_rfl (by omega) h0
    · intro i t hi1 hi2 ht
      exact hstep i t (by omega) hi2 ht
    · omega

/-- Loop invariant rule for a loop that may break. -/
theorem loopWithBreak_invariant {σ : Type} (P : σ → Prop) (body : σ → σ × Bool)
    (hstep : ∀ s, P s → P (body s).1) (n : ℕ) (s : σ) (h0 : P s) :
    P (loopWithBreak body n s) := by
  induction n generalizing s with
  | zero => exact h0
  | succ n ih =>
    unfold loopWithBreak
    split_ifs
    · exact hstep s h0
    · exact ih _ (hstep s h0)

/-! ## Orbit-swim -/

/-- The wag loop of the orbiting models keeps the length. -/
theorem length_wagLoopOrbit (eT : ℝ) (m : Model ℝ) : (wagLoopOrbit eT m).length = m.length := by
  unfold wagLoopOrbit
  exact forLoop_invariant (fun t : Model ℝ => t.length = m.length) 0 m.length _ m rfl
    (fun i t _ _ ht => by simp only [length_setPose]; exact ht)

/-- After the wag loop of an orbiting model, node 0 holds its previous yaw plus its own
wag term; its other pose fields and orbit parameters are as before. -/
theorem getMesh_wagLoopOrbit_zero (eT : ℝ) (m : Model ℝ) (h : m ≠ []) :
    getMesh (wagLoopOrbit eT m) 0 =
      { getMesh m 0 with
        mesh6DoF := { (getMesh m 0).mesh6DoF with
          rY := (getMesh m 0).mesh6DoF.rY + wag eT 0 } } := by
  have hlen : 0 < m.length := List.length_pos.mpr h
  unfold wagLoopOrbit
  rw [forLoop_step 0 m.length _ m hlen]
  have key := forLoop_invariant
    (fun t : Model ℝ => getMesh t 0 = { getMesh m 0 with
        mesh6DoF := { (getMesh m 0).mesh6DoF with
          rY := (getMesh m 0).mesh6DoF.rY + wag eT 0 } }) (0 + 1) m.length
    (fun j m => setPose m j
      { (getMesh m j).mesh6DoF with rY := (getMesh m 0).mesh6DoF.rY + wag eT j })
    (setPose m 0 { (getMesh m 0).mesh6DoF with rY := (getMesh m 0).mesh6DoF.rY + wag eT 0 })
    (getMesh_setPose_self m 0 _ hlen)
    (fun i t hi _ ht => by
      beta_reduce at ht ⊢
      rw [getMesh_setPose_ne t i 0 _ (by omega)]
      exact ht)
  exact key

/-- The orbit update of the root keeps the number of meshes. -/
theorem length_orbitRoot (theta : ℝ) (m : Model ℝ) : (orbitRoot theta m).length = m.length := by
  simp [orbitRoot, length_setPose]

/-- The root node after `orbitRoot`. -/
theorem getMesh_orbitRoot_zero (theta : ℝ) (m : Model ℝ) (h : m ≠ []) :
    getMesh (orbitRoot theta m) 0 =
      { getMesh m 0 with
        mesh6DoF := { (getMesh m 0).mesh6DoF with
          tX := (getMesh m 0).initRad * Real.cos theta
          tZ := (getMesh m 0).initRad * Real.sin theta
          rY := Real.pi / 2 - theta + Real.pi } } := by
  have hlen : 0 < m.length := List.length_pos.mpr h
  unfold orbitRoot
  simp only [getMesh_setPose_self, length_setPose, hlen, cos_real, sin_real, pi_real]

/-- The root node after the orbit update and wag loop of one pass. -/
theorem getMesh_orbit_pass_zero (eT theta : ℝ) (m : Model ℝ) (h : m ≠ []) :
    getMesh (wagLoopOrbit eT (orbitRoot theta m)) 0 =
      { getMesh m 0 with
        mesh6DoF := { (getMesh m 0).mesh6DoF with
          tX := (getMesh m 0).initRad * Real.cos theta
          tZ := (getMesh m 0).initRad * Real.sin theta
          rY := Real.pi / 2 - theta + Real.pi + wag eT 0 } } := by
  have h' : orbitRoot theta m ≠ [] := by
    intro hc
    have := length_orbitRoot theta m
    rw [hc] at this
    exact h (List.length_eq_zero.mp this.symm)
  rw [getMesh_wagLoopOrbit_zero eT _ h', getMesh_orbitRoot_zero theta m h]

/-- The root node after the idle shark block. -/
theorem getMesh_sharkIdleLoop_zero (eT : ℝ) (m : Model ℝ) (h : m ≠ []) :
    getMesh (sharkIdleLoop eT m) 0 =
      { getMesh m 0 with
        mesh6DoF := { (getMesh m 0).mesh6DoF with
          tX := (getMesh m 0).initRad * Real.cos (eT * 0.1)
          tZ := (getMesh m 0).initRad * Real.sin (eT * 0.1)
          rY := Real.pi / 2 - eT * 0.1 + Real.pi + wag eT 0 } } := by
  have hlen : 0 < m.length := List.length_pos.mpr h
  unfold sharkIdleLoop
  rw [forLoop_step 0 m.length _ m hlen]
  refine (forLoop_invariant (fun t : Model ℝ => t ≠ [] ∧ getMesh t 0 = _) (0 + 1) m.length _ _
    ⟨?_, getMesh_orbit_pass_zero eT (eT * 0.1) m h⟩ ?_).2
  · intro hc
    have h1 := length_wagLoopOrbit eT (orbitRoot (eT * 0.1) m)
    rw [length_orbitRoot, hc] at h1
    exact h (List.length_eq_zero.mp h1.symm)
  · intro i t _ _ ht
    beta_reduce at ht ⊢
    refine ⟨?_, ?_⟩
    · intro hc
      have h1 := length_wagLoopOrbit eT (orbitRoot (eT * 0.1) t)
      rw [length_orbitRoot, hc] at h1
      exact ht.1 (List.length_eq_zero.mp h1.symm)
    · rw [getMesh_orbit_pass_zero eT (eT * 0.1) t ht.1, ht.2]

/-- C9: orbit-swim is periodic with period `2π/ω = 20π` for `ω = 0.1`.  For every radius
(the root's `initRad`), entity index `i` and time `t`, the root position computed for a fish
is `x = r cos(0.1 t + i)`, `z = r sin(0.1 t + i)` at unchanged height, and for the idle shark
`x = r cos(0.1 t)`, `z = r sin(0.1 t)`; in both cases the position computed at time
`t + 20π` equals the position computed at time `t`. -/
theorem orbit_periodic (t : ℝ) (i : ℕ) (fish shark : Model ℝ) (hf : fish ≠ [])
    (hs : shark ≠ []) :
    rootPosition (fishUpdate t i fish) =
        ⟨(getMesh fish 0).initRad * Real.cos (0.1 * t + i), (getMesh fish 0).mesh6DoF.tY,
          (getMesh fish 0).initRad * Real.sin (0.1 * t + i)⟩ ∧
      rootPosition (fishUpdate (t + 20 * Real.pi) i fish) = rootPosition (fishUpdate t i fish) ∧
      rootPosition (sharkIdleLoop t shark) =
        ⟨(getMesh shark 0).initRad * Real.cos (0.1 * t), (getMesh shark 0).mesh6DoF.tY,
          (getMesh shark 0).initRad * Real.sin (0.1 * t)⟩ ∧
      rootPosition (sharkIdleLoop (t + 20 * Real.pi) shark) =
        rootPosition (sharkIdleLoop t shark) := by
  have e1 : t * 0.1 + 1.0 * (i : ℝ) = 0.1 * t + i := by ring
  have e2 : (t + 20 * Real.pi) * 0.1 + 1.0 * (i : ℝ) = (0.1 * t + i) + 2 * Real.pi := by ring
  have e3 : t * 0.1 = 0.1 * t := by ring
  have e4 : (t + 20 * Real.pi) * 0.1 = 0.1 * t + 2 * Real.pi := by ring
  refine ⟨?_, ?_, ?_, ?_⟩
  · simp only [rootPosition, fishUpdate, getMesh_orbit_pass_zero _ _ fish hf, e1]
  · simp only [rootPosition, fishUpdate, getMesh_orbit_pass_zero _ _ fish hf, e1, e2,
      Real.cos_add_two_pi, Real.sin_add_two_pi]
  · simp only [rootPosition, getMesh_sharkIdleLoop_zero _ shark hs, e3]
  · simp only [rootPosition, getMesh_sharkIdleLoop_zero _ shark hs, e3, e4,
      Real.cos_add_two_pi, Real.sin_add_two_pi]

/-- C9 at a concrete input: the two-node fish with index `3` is at the same place at times
`7` and `7 + 20π`. -/
theorem orbit_periodic_witness :
    rootPosition (fishUpdate (7 + 20 * Real.pi) 3 twoNodeFish)
      = rootPosition (fishUpdate 7 3 twoNodeFish) :=
  (orbit_periodic 7 3 twoNodeFish twoNodeFish (List.cons_ne_nil _ _)
    (List.cons_ne_nil _ _)).2.1

/-! ## The wag of the body segments -/

/-- The wag term of node 0. -/
theorem wag_zero (eT : ℝ) : wag eT 0 = 0.1 * Real.sin (eT * 5) := by
  simp [wag, sin_real]

/-- The wag loop of the pursuing shark leaves node 0 exactly as it was. -/
theorem getMesh_wagLoopPursuit_zero (eT : ℝ) (m : Model ℝ) :
    getMesh (wagLoopPursuit eT m) 0 = getMesh m 0 := by
  unfold wagLoopPursuit
  refine forLoop_invariant (fun t : Model ℝ => getMesh t 0 = getMesh m 0) 0 m.length _ m rfl ?_
  intro i t _ hi ht
  beta_reduce at ht ⊢
  by_cases h0 : i = 0
  · subst h0
    by_cases hl : 0 < t.length
    · rw [getMesh_setPose_self _ 0 _ (by rw [length_setPose]; exact hl),
        getMesh_setPose_self _ 0 _ hl, ← ht]
      simp
    · have : t = [] := List.length_eq_zero.mp (by omega)
      subst this
      rw [← ht]
      rfl
  · rw [getMesh_setPose_ne _ i 0 _ h0, getMesh_setPose_ne _ i 0 _ h0]
    exact ht

/-- Steering changes the root yaw by one step of `0.001` up or down (by nothing when the
model has no mesh). -/
theorem rootYaw_steerShark (dir : Vec3 ℝ) (m : Model ℝ) :
    ∃ k : ℤ, |k| ≤ 1 ∧ rootYaw (steerShark dir m) = rootYaw m + k * 0.001 := by
  by_cases hl : 0 < m.length
  · unfold steerShark rootYaw
    simp only [getMesh_setPose_self, length_setPose, hl]
    split_ifs
    · refine ⟨-1, by norm_num, ?_⟩
      simp only [getMesh_setPose_self, length_setPose, hl]
      push_cast; ring
    · refine ⟨1, by norm_num, ?_⟩
      simp only [getMesh_setPose_self, length_setPose, hl]
      push_cast; ring
  · have : m = [] := List.length_eq_zero.mp (by omega)
    subst this
    refine ⟨0, by norm_num, ?_⟩
    unfold steerShark rootYaw
    simp [setPose]

/-- One pass of the shark loop changes the root yaw by at most one steering step; the wag
terms leave no trace in it. -/
theorem rootYaw_sharkPursuitBody (eT : ℝ) (s : Scene ℝ) :
    ∃ k : ℤ, |k| ≤ 1 ∧
      rootYaw (sharkPursuitBody eT s).1.sharkModel = rootYaw s.sharkModel + k * 0.001 := by
  unfold sharkPursuitBody
  simp only
  split_ifs
  · refine ⟨0, by norm_num, ?_⟩
    simp [rootYaw, getMesh_setInitRad_pose]
  · simp only [rootYaw, getMesh_wagLoopPursuit_zero]
    exact rootYaw_steerShark _ _

/-- The shark loop of `n` passes changes the root yaw by at most `n` steering steps. -/
theorem rootYaw_loopWithBreak (eT : ℝ) (n : ℕ) (s : Scene ℝ) :
    ∃ k : ℤ, |k| ≤ (n : ℤ) ∧
      rootYaw (loopWithBreak (sharkPursuitBody eT) n s).sharkModel
        = rootYaw s.sharkModel + k * 0.001 := by
  induction n generalizing s with
  | zero => exact ⟨0, by simp, by simp [loopWithBreak]⟩
  | succ n ih =>
    obtain ⟨k1, hk1, h1⟩ := rootYaw_sharkPursuitBody eT s
    unfold loopWithBreak
    split_ifs
    · refine ⟨k1, ?_, h1⟩
      push_cast
      have := abs_nonneg k1
      omega
    · obtain ⟨k2, hk2, h2⟩ := ih (sharkPursuitBody eT s).1
      refine ⟨k1 + k2, ?_, ?_⟩
      · push_cast
        have := abs_add k1 k2
        omega
      · rw [h2, h1]; push_cast; ring

/-- The food loop does not touch the shark. -/
theorem foodLoop_sharkModel (eT : ℝ) (n : ℕ) (s : Scene ℝ) :
    (forLoop 0 n (foodDescentBody eT) s).sharkModel = s.sharkModel := by
  refine forLoop_invariant (fun t : Scene ℝ => t.sharkModel = s.sharkModel) 0 n _ s rfl ?_
  intro i t _ _ ht
  beta_reduce at ht ⊢
  unfold foodDescentBody
  simp only
  split_ifs <;> exact ht

/-- A descending update changes the root yaw of the shark by at most one steering step per
shark node. -/
theorem rootYaw_descend (eT : ℝ) (s : Scene ℝ) :
    ∃ k : ℤ, |k| ≤ (s.sharkModel.length : ℤ) ∧
      rootYaw (descend eT s).sharkModel = rootYaw s.sharkModel + k * 0.001 := by
  unfold descend
  simp only
  have h := rootYaw_loopWithBreak eT
    (forLoop 0 s.fishFoodModel.length (foodDescentBody eT) s).sharkModel.length
    (forLoop 0 s.fishFoodModel.length (foodDescentBody eT) s)
  rw [foodLoop_sharkModel] at h ⊢
  exact h

/-- After the wag loop of an orbiting model with two nodes, node 1 holds the yaw that the
loop has just stored in node 0, which already contains the wag term of node 0, plus its own
wag term. -/
theorem getMesh_wagLoopOrbit_one (eT : ℝ) (a b : Mesh ℝ) :
    (getMesh (wagLoopOrbit eT [a, b]) 1).mesh6DoF.rY
      = a.mesh6DoF.rY + wag eT 0 + wag eT 1 := by
  simp [wagLoopOrbit, forLoop, List.range', getMesh, setPose]

/-- C10 fails on the code for the orbiting models, whose wag loops never subtract the wag
term.  After the update of the two-node fish with index `0` at time `1`, node 0's stored yaw
is the base yaw `π/2 − θ + π` plus `0.1 sin(5)`, and `sin(5) < 0`, so it is not the base
yaw; node 1 holds the base yaw plus the wag terms of both nodes.  The same happens in the
idle shark block.  The wag loop of the pursuing shark, which does subtract the term, leaves
node 0 as it was. -/
theorem wag_not_subtracted :
    rootYaw (fishUpdate 1 0 twoNodeFish)
        = (Real.pi / 2 - (1 * 0.1 + 1.0 * ((0 : ℕ) : ℝ)) + Real.pi) + 0.1 * Real.sin 5 ∧
      Real.sin 5 < 0 ∧
      rootYaw (fishUpdate 1 0 twoNodeFish)
        ≠ Real.pi / 2 - (1 * 0.1 + 1.0 * ((0 : ℕ) : ℝ)) + Real.pi ∧
      (getMesh (fishUpdate 1 0 twoNodeFish) 1).mesh6DoF.rY
        = (Real.pi / 2 - (1 * 0.1 + 1.0 * ((0 : ℕ) : ℝ)) + Real.pi)
          + 0.1 * Real.sin 5 + 0.1 * Real.sin 10 ∧
      rootYaw (sharkIdleLoop 1 twoNodeFish)
        = (Real.pi / 2 - 1 * 0.1 + Real.pi) + 0.1 * Real.sin 5 ∧
      getMesh (wagLoopPursuit 1 twoNodeFish) 0 = getMesh twoNodeFish 0 := by
  have hsin : Real.sin 5 < 0 := by
    rw [← Real.sin_sub_two_pi]
    apply Real.sin_neg_of_neg_of_neg_pi_lt
    · have := Real.pi_gt_three
      linarith
    · have := Real.pi_le_four
      linarith
  have h : rootYaw (fishUpdate 1 0 twoNodeFish)
      = (Real.pi / 2 - (1 * 0.1 + 1.0 * ((0 : ℕ) : ℝ)) + Real.pi) + 0.1 * Real.sin 5 := by
    unfold rootYaw fishUpdate
    rw [getMesh_orbit_pass_zero _ _ twoNodeFish (List.cons_ne_nil _ _), wag_zero]
    norm_num
  refine ⟨h, hsin, ?_, ?_, ?_, getMesh_wagLoopPursuit_zero 1 twoNodeFish⟩
  · rw [h]
    intro hc
    linarith
  · have e : orbitRoot (1 * 0.1 + 1.0 * ((0 : ℕ) : ℝ)) twoNodeFish
        = [getMesh (orbitRoot (1 * 0.1 + 1.0 * ((0 : ℕ) : ℝ)) twoNodeFish) 0,
            ⟨⟨0, 0, 0, 0, 0, 0⟩, 0, 0⟩] := by
      simp [orbitRoot, twoNodeFish, setPose, getMesh]
    unfold fishUpdate
    rw [e, getMesh_wagLoopOrbit_one,
      getMesh_orbitRoot_zero _ twoNodeFish (List.cons_ne_nil _ _)]
    simp only [wag, sin_real]
    norm_num
  · unfold rootYaw
    rw [getMesh_sharkIdleLoop_zero _ twoNodeFish (List.cons_ne_nil _ _), wag_zero]
    norm_num

/-! ## The feed trigger -/

/-- A key test for a camera move keeps the feeding flags and the food and shark models. -/
theorem moveOnKey_fields (pressed : Int → Bool) (key : Int) (dt : ℝ) (s : Scene ℝ) :
    (moveOnKey pressed key dt s).fishFoodInit = s.fishFoodInit ∧
      (moveOnKey pressed key dt s).fishFoodModel = s.fishFoodModel ∧
      (moveOnKey pressed key dt s).sharkModel = s.sharkModel ∧
      (moveOnKey pressed key dt s).fishFoodAnimStarted = s.fishFoodAnimStarted := by
  unfold moveOnKey
  split_ifs <;> exact ⟨rfl, rfl, rfl, rfl⟩

/-- The feed trigger keeps `fishFoodInit` and the models, and sets `fishFoodAnimStarted` when F
is down. -/
theorem feedOnKey_fields (pressed : Int → Bool) (s : Scene ℝ) :
    (feedOnKey pressed s).fishFoodInit = s.fishFoodInit ∧
      (feedOnKey pressed s).fishFoodModel = s.fishFoodModel ∧
      (feedOnKey pressed s).sharkModel = s.sharkModel ∧
      (feedOnKey pressed s).fishFoodAnimStarted =
        (s.fishFoodAnimStarted || pressed GLFW_KEY_F) := by
  unfold feedOnKey
  cases hF : pressed GLFW_KEY_F <;> cases hA : s.fishFoodAnimStarted <;> simp [hA]

/-- Input handling keeps `fishFoodInit` and the food and shark models; it sets
`fishFoodAnimStarted` when F is down. -/
theorem processUserInput_fields (pressed : Int → Bool) (dt : ℝ) (s : Scene ℝ) :
    (processUserInput pressed dt s).fishFoodInit = s.fishFoodInit ∧
      (processUserInput pressed dt s).fishFoodModel = s.fishFoodModel ∧
      (processUserInput pressed dt s).sharkModel = s.sharkModel ∧
      (processUserInput pressed dt s).fishFoodAnimStarted =
        (s.fishFoodAnimStarted || pressed GLFW_KEY_F) := by
  unfold processUserInput
  obtain ⟨a1, a2, a3, a4⟩ := moveOnKey_fields pressed GLFW_KEY_W dt s
  obtain ⟨b1, b2, b3, b4⟩ := moveOnKey_fields pressed GLFW_KEY_A dt
    (moveOnKey pressed GLFW_KEY_W dt s)
  obtain ⟨c1, c2, c3, c4⟩ := moveOnKey_fields pressed GLFW_KEY_S dt
    (moveOnKey pressed GLFW_KEY_A dt (moveOnKey pressed GLFW_KEY_W dt s))
  obtain ⟨d1, d2, d3, d4⟩ := moveOnKey_fields pressed GLFW_KEY_D dt
    (moveOnKey pressed GLFW_KEY_S dt
      (moveOnKey pressed GLFW_KEY_A dt (moveOnKey pressed GLFW_KEY_W dt s)))
  obtain ⟨e1, e2, e3, e4⟩ := feedOnKey_fields pressed
    (moveOnKey pressed GLFW_KEY_D dt (moveOnKey pressed GLFW_KEY_S dt
      (moveOnKey pressed GLFW_KEY_A dt (moveOnKey pressed GLFW_KEY_W dt s))))
  exact ⟨by rw [e1, d1, c1, b1, a1], by rw [e2, d2, c2, b2, a2], by rw [e3, d3, c3, b3, a3],
    by rw [e4, d4, c4, b4, a4]⟩

/-- C7: a feed-trigger event (F down, whatever the other keys) in a state whose session is
active (`fishFoodAnimStarted = true`, `fishFoodInit` either value) leaves both session flags
and the food model unchanged; in particular a trigger in the descending phase keeps
`fishFoodInit = true` and so does not restart the deploy branch; and from any state a
second trigger leaves the session as the first trigger left it. -/
theorem feed_trigger_idempotent (pressed : Int → Bool) (dt : ℝ) (s : Scene ℝ)
    (hF : pressed GLFW_KEY_F = true) :
    (s.fishFoodAnimStarted = true → session (processUserInput pressed dt s) = session s) ∧
      (s.fishFoodAnimStarted = true → s.fishFoodInit = true →
        (processUserInput pressed dt s).fishFoodInit = true) ∧
      (∀ (pressed2 : Int → Bool) (dt2 : ℝ), pressed2 GLFW_KEY_F = true →
        session (processUserInput pressed2 dt2 (processUserInput pressed dt s))
          = session (processUserInput pressed dt s)) := by
  obtain ⟨h1, h2, -, h4⟩ := processUserInput_fields pressed dt s
  refine ⟨fun ha => ?_, fun _ hi => by rw [h1, hi], fun pressed2 dt2 _ => ?_⟩
  · simp only [session, h1, h2, h4, ha, Bool.true_or]
  · obtain ⟨g1, g2, -, g4⟩ := processUserInput_fields pressed2 dt2 (processUserInput pressed dt s)
    simp only [session, g1, g2, g4, h4, hF, Bool.or_true, Bool.true_or]

/-- C7 at a concrete input: in the scene `feedScene`, whose session is active, pressing F
leaves the session as it is. -/
theorem feed_trigger_idempotent_witness :
    session (processUserInput (fun k => decide (k = GLFW_KEY_F)) 0 feedScene)
      = session feedScene :=
  (feed_trigger_idempotent (fun k => decide (k = GLFW_KEY_F)) 0 feedScene
    (decide_eq_true rfl)).1 rfl

/-! ## Termination of the feeding session -/

/-- One pass of the food loop never sets a flag: an idle session stays idle, a descending one
stays descending or becomes idle, and it becomes idle when the floor check fires. -/
theorem foodDescentBody_flags (eT : ℝ) (i : ℕ) (s : Scene ℝ) :
    (Idle s → Idle (foodDescentBody eT i s)) ∧
      (Descending s ∨ Idle s → Descending (foodDescentBody eT i s) ∨ Idle (foodDescentBody eT i s)) ∧
      ((getMesh s.fishFoodModel i).mesh6DoF.tY - eT * 0.0001 < 0 →
        Idle (foodDescentBody eT i s)) := by
  unfold foodDescentBody Idle Descending
  simp only
  split_ifs with h
  · exact ⟨fun _ => ⟨rfl, rfl⟩, fun _ => Or.inr ⟨rfl, rfl⟩, fun _ => ⟨rfl, rfl⟩⟩
  · exact ⟨fun hc => hc, fun hc => hc, fun hc => absurd hc h⟩

/-- One pass of the food loop lowers food mesh `i` by `elapsedTime * 0.00002`. -/
theorem foodDescentBody_food (eT : ℝ) (i : ℕ) (s : Scene ℝ) :
    (foodDescentBody eT i s).fishFoodModel = setPose s.fishFoodModel i
      { (getMesh s.fishFoodModel i).mesh6DoF with
        tY := (getMesh s.fishFoodModel i).mesh6DoF.tY - eT * 0.00002 } := by
  unfold foodDescentBody
  simp only
  split_ifs <;> rfl

/-- One pass of the shark loop never sets a flag and does not touch the food model. -/
theorem sharkPursuitBody_flags (eT : ℝ) (s : Scene ℝ) :
    (Idle s → Idle (sharkPursuitBody eT s).1) ∧
      (Descending s ∨ Idle s →
        Descending (sharkPursuitBody eT s).1 ∨ Idle (sharkPursuitBody eT s).1) ∧
      (sharkPursuitBody eT s).1.fishFoodModel = s.fishFoodModel := by
  unfold sharkPursuitBody Idle Descending
  simp only
  split_ifs
  · exact ⟨fun _ => ⟨rfl, rfl⟩, fun _ => Or.inr ⟨rfl, rfl⟩, rfl⟩
  · exact ⟨fun hc => hc, fun hc => hc, rfl⟩

/-- One descending update from the descending phase: the session stays in the descending
phase or becomes idle; the food model keeps its meshes and its root sinks by
`elapsedTime * 0.00002`; and the session becomes idle when the root was below
`elapsedTime * 0.0001`. -/
theorem descend_spec (eT : ℝ) (s : Scene ℝ) (hd : Descending s) (hne : s.fishFoodModel ≠ []) :
    (Descending (descend eT s) ∨ Idle (descend eT s)) ∧
      (descend eT s).fishFoodModel ≠ [] ∧
      foodHeight (descend eT s) = foodHeight s - eT * 0.00002 ∧
      (foodHeight s - eT * 0.0001 < 0 → Idle (descend eT s)) := by
  have hlen : 0 < s.fishFoodModel.length := List.length_pos.mpr hne
  -- the food loop
  have hfood := forLoop_invariant
    (fun t : Scene ℝ => (Descending t ∨ Idle t) ∧ t.fishFoodModel.length = s.fishFoodModel.length ∧
      foodHeight t = foodHeight s - eT * 0.00002 ∧
      (foodHeight s - eT * 0.0001 < 0 → Idle t))
    (0 + 1) s.fishFoodModel.length (foodDescentBody eT) (foodDescentBody eT 0 s)
    ⟨(foodDescentBody_flags eT 0 s).2.1 (Or.inl hd), by
        rw [foodDescentBody_food, length_setPose], by
        unfold foodHeight
        rw [foodDescentBody_food, getMesh_setPose_self _ 0 _ hlen],
      (foodDescentBody_flags eT 0 s).2.2⟩
    (fun i t hi _ ht => by
      beta_reduce at ht ⊢
      refine ⟨(foodDescentBody_flags eT i t).2.1 ht.1, ?_, ?_, fun h =>
        (foodDescentBody_flags eT i t).1 (ht.2.2.2 h)⟩
      · rw [foodDescentBody_food, length_setPose]; exact ht.2.1
      · unfold foodHeight
        rw [foodDescentBody_food, getMesh_setPose_ne _ i 0 _ (by omega)]
        exact ht.2.2.1)
  rw [← forLoop_step 0 s.fishFoodModel.length _ s hlen] at hfood
  -- the shark loop
  have hshark := loopWithBreak_invariant
    (fun t : Scene ℝ => (Descending t ∨ Idle t) ∧ t.fishFoodModel.length = s.fishFoodModel.length ∧
      foodHeight t = foodHeight s - eT * 0.00002 ∧
      (foodHeight s - eT * 0.0001 < 0 → Idle t))
    (sharkPursuitBody eT)
    (fun t ht => by
      beta_reduce at ht ⊢
      obtain ⟨f1, f2, f3⟩ := sharkPursuitBody_flags eT t
      refine ⟨f2 ht.1, by rw [f3]; exact ht.2.1, ?_, fun h => f1 (ht.2.2.2 h)⟩
      unfold foodHeight
      rw [f3]
      exact ht.2.2.1)
    (forLoop 0 s.fishFoodModel.length (foodDescentBody eT) s).sharkModel.length _ hfood
  obtain ⟨r1, r2, r3, r4⟩ := hshark
  refine ⟨r1, ?_, r3, r4⟩
  intro hc
  have r2' : (descend eT s).fishFoodModel.length = s.fishFoodModel.length := r2
  rw [hc] at r2'
  exact hne (List.length_eq_zero.mp r2'.symm)

/-- Loop invariant rule for a counting loop, with the loop index. -/
theorem forLoop_invariant_indexed {σ : Type} (P : ℕ → σ → Prop) (lo hi : Nat)
    (body : Nat → σ → σ) (s : σ) (hle : lo ≤ hi) (h0 : P lo s)
    (hstep : ∀ i t, lo ≤ i → i < hi → P i t → P (i + 1) (body i t)) :
    P hi (forLoop lo hi body s) := by
  generalize hn : hi - lo = n
  induction n generalizing lo s with
  | zero =>
    have : hi = lo := by omega
    subst this
    simpa [forLoop] using h0
  | succ k ih =>
    rw [forLoop_step lo hi body s (by omega)]
    exact ih (lo + 1) (body lo s) (by omega) (hstep lo s le_rfl (by omega) h0)
      (fun i t h1 h2 ht => hstep i t (by omega) h2 ht) (by omega)

/-- Membership in the list of a coordinate of the vertices, by index. -/
theorem mem_map_iff_index {F : Type} [Zero F] (vs : List (Vec3 F)) (f : Vec3 F → F) (a : F) :
    a ∈ vs.map f ↔ ∃ j, j < vs.length ∧ f (vs.getD j default) = a := by
  constructor
  · intro h
    obtain ⟨v, hv, rfl⟩ := List.mem_map.mp h
    obtain ⟨j, hj, rfl⟩ := List.getElem_of_mem hv
    exact ⟨j, hj, by simp [List.getD_eq_getElem?_getD, hj]⟩
  · rintro ⟨j, hj, rfl⟩
    refine List.mem_map.mpr ⟨vs[j], List.getElem_mem _, by simp [List.getD_eq_getElem?_getD, hj]⟩

/-- A later pass of the loop of `getWallConstraints`, field by field. -/
theorem wallBody_succ {F : Type} [LinearOrder F] [Zero F] (vs : List (Vec3 F)) (i : ℕ)
    (b : WallBounds F) (hi : i ≠ 0) :
    wallBody vs i b =
      ⟨if (vs.getD i default).x < b.xMin then (vs.getD i default).x else b.xMin,
       if (vs.getD i default).x > b.xMax then (vs.getD i default).x else b.xMax,
       if (vs.getD i default).z < b.zMin then (vs.getD i default).z else b.zMin,
       if (vs.getD i default).z > b.zMax then (vs.getD i default).z else b.zMax⟩ := by
  unfold wallBody
  simp only [if_neg hi]
  split_ifs <;> rfl

/-- Comparing a running minimum with the next value keeps it the minimum so far. -/
theorem running_min_step {F : Type} [LinearOrder F] (f : ℕ → F) (k : ℕ) (m : F)
    (h1 : ∀ j, j < k → m ≤ f j) (h2 : ∃ j, j < k ∧ f j = m) :
    (∀ j, j < k + 1 → (if f k < m then f k else m) ≤ f j) ∧
      ∃ j, j < k + 1 ∧ f j = (if f k < m then f k else m) := by
  obtain ⟨j0, hj0, e0⟩ := h2
  by_cases c : f k < m
  · simp only [if_pos c]
    refine ⟨fun j hj => ?_, ⟨k, by omega, rfl⟩⟩
    rcases Nat.lt_succ_iff_lt_or_eq.mp hj with hj' | rfl
    · exact le_trans c.le (h1 j hj')
    · exact le_rfl
  · simp only [if_neg c]
    refine ⟨fun j hj => ?_, ⟨j0, by omega, e0⟩⟩
    rcases Nat.lt_succ_iff_lt_or_eq.mp hj with hj' | rfl
    · exact h1 j hj'
    · exact not_lt.mp c

/-- Comparing a running maximum with the next value keeps it the maximum so far. -/
theorem running_max_step {F : Type} [LinearOrder F] (f : ℕ → F) (k : ℕ) (m : F)
    (h1 : ∀ j, j < k → f j ≤ m) (h2 : ∃ j, j < k ∧ f j = m) :
    (∀ j, j < k + 1 → f j ≤ (if f k > m then f k else m)) ∧
      ∃ j, j < k + 1 ∧ f j = (if f k > m then f k else m) := by
  obtain ⟨j0, hj0, e0⟩ := h2
  by_cases c : f k > m
  · simp only [if_pos c]
    refine ⟨fun j hj => ?_, ⟨k, by omega, rfl⟩⟩
    rcases Nat.lt_succ_iff_lt_or_eq.mp hj with hj' | rfl
    · exact le_trans (h1 j hj') c.le
    · exact le_rfl
  · simp only [if_neg c]
    refine ⟨fun j hj => ?_, ⟨j0, by omega, e0⟩⟩
    rcases Nat.lt_succ_iff_lt_or_eq.mp hj with hj' | rfl
    · exact h1 j hj'
    · exact not_lt.mp c

/-- The bounds found by the loop of `getWallConstraints` over a non-empty list are the least
and greatest `x` and `z` among the vertices. -/
theorem wallLoop_extents {F : Type} [LinearOrder F] [Zero F] (vs : List (Vec3 F))
    (h : vs ≠ []) :
    IsLeast {a | a ∈ vs.map Vec3.x} (forLoop 0 vs.length (wallBody vs) ⟨0, 0, 0, 0⟩).xMin ∧
      IsGreatest {a | a ∈ vs.map Vec3.x} (forLoop 0 vs.length (wallBody vs) ⟨0, 0, 0, 0⟩).xMax ∧
      IsLeast {a | a ∈ vs.map Vec3.z} (forLoop 0 vs.length (wallBody vs) ⟨0, 0, 0, 0⟩).zMin ∧
      IsGreatest {a | a ∈ vs.map Vec3.z} (forLoop 0 vs.length (wallBody vs) ⟨0, 0, 0, 0⟩).zMax := by
  have hlen : 0 < vs.length := List.length_pos.mpr h
  rw [forLoop_step 0 vs.length _ _ hlen]
  have key := forLoop_invariant_indexed
    (fun k (b : WallBounds F) =>
      ((∀ j, j < k → b.xMin ≤ (vs.getD j default).x) ∧
        ∃ j, j < k ∧ (vs.getD j default).x = b.xMin) ∧
      ((∀ j, j < k → (vs.getD j default).x ≤ b.xMax) ∧
        ∃ j, j < k ∧ (vs.getD j default).x = b.xMax) ∧
      ((∀ j, j < k → b.zMin ≤ (vs.getD j default).z) ∧
        ∃ j, j < k ∧ (vs.getD j default).z = b.zMin) ∧
      ((∀ j, j < k → (vs.getD j default).z ≤ b.zMax) ∧
        ∃ j, j < k ∧ (vs.getD j default).z = b.zMax))
    (0 + 1) vs.length (wallBody vs) (wallBody vs 0 ⟨0, 0, 0, 0⟩) hlen
    (by
      have e : wallBody vs 0 ⟨0, 0, 0, 0⟩ = ⟨(vs.getD 0 default).x, (vs.getD 0 default).x,
          (vs.getD 0 default).z, (vs.getD 0 default).z⟩ := by simp [wallBody]
      rw [e]
      refine ⟨⟨fun j hj => ?_, ⟨0, by omega, rfl⟩⟩, ⟨fun j hj => ?_, ⟨0, by omega, rfl⟩⟩,
        ⟨fun j hj => ?_, ⟨0, by omega, rfl⟩⟩, ⟨fun j hj => ?_, ⟨0, by omega, rfl⟩⟩⟩ <;>
      · have : j = 0 := by omega
        subst this
        exact le_rfl)
    (by
      intro i b hi1 hi2 hb
      obtain ⟨⟨a1, a2⟩, ⟨b1, b2⟩, ⟨c1, c2⟩, ⟨d1, d2⟩⟩ := hb
      rw [wallBody_succ vs i b (by omega)]
      exact ⟨running_min_step (fun j => (vs.getD j default).x) i b.xMin a1 a2,
        running_max_step (fun j => (vs.getD j default).x) i b.xMax b1 b2,
        running_min_step (fun j => (vs.getD j default).z) i b.zMin c1 c2,
        running_max_step (fun j => (vs.getD j default).z) i b.zMax d1 d2⟩)
  obtain ⟨⟨a1, a2⟩, ⟨b1, b2⟩, ⟨c1, c2⟩, ⟨d1, d2⟩⟩ := key
  refine ⟨⟨?_, ?_⟩, ⟨?_, ?_⟩, ⟨?_, ?_⟩, ⟨?_, ?_⟩⟩
  · exact (mem_map_iff_index vs Vec3.x _).mpr a2
  · intro a ha
    obtain ⟨j, hj, rfl⟩ := (mem_map_iff_index vs Vec3.x a).mp ha
    exact a1 j hj
  · exact (mem_map_iff_index vs Vec3.x _).mpr b2
  · intro a ha
    obtain ⟨j, hj, rfl⟩ := (mem_map_iff_index vs Vec3.x a).mp ha
    exact b1 j hj
  · exact (mem_map_iff_index vs Vec3.z _).mpr c2
  · intro a ha
    obtain ⟨j, hj, rfl⟩ := (mem_map_iff_index vs Vec3.z a).mp ha
    exact c1 j hj
  · exact (mem_map_iff_index vs Vec3.z _).mpr d2
  · intro a ha
    obtain ⟨j, hj, rfl⟩ := (mem_map_iff_index vs Vec3.z a).mp ha
    exact d1 j hj

/-- The result of `getWallConstraints` is determined by the sets of `x` and of `z`
coordinates of the vertices. -/
theorem getWallConstraints_congr {F : Type} [LinearOrder F] [Zero F] (ar : FloatArith F)
    (vs vs2 : List (Vec3 F)) (h : vs ≠ []) (h2 : vs2 ≠ [])
    (hx : ∀ a, a ∈ vs2.map Vec3.x ↔ a ∈ vs.map Vec3.x)
    (hz : ∀ a, a ∈ vs2.map Vec3.z ↔ a ∈ vs.map Vec3.z) :
    getWallConstraints ar vs2 = getWallConstraints ar vs := by
  obtain ⟨a1, a2, a3, a4⟩ := wallLoop_extents vs h
  obtain ⟨b1, b2, b3, b4⟩ := wallLoop_extents vs2 h2
  have ex : {a | a ∈ vs2.map Vec3.x} = {a | a ∈ vs.map Vec3.x} := Set.ext hx
  have ez : {a | a ∈ vs2.map Vec3.z} = {a | a ∈ vs.map Vec3.z} := Set.ext hz
  rw [ex] at b1 b2
  rw [ez] at b3 b4
  unfold getWallConstraints
  simp only [b1.unique a1, b2.unique a2, b3.unique a3, b4.unique a4]

/-- C16 as stated fails on the code, whose sums are binary32 sums.  For two vertices with
`x = -16777216` and `x = 16777216` (both binary32 numbers) the least `x` plus `0.25` is
`-16777215.75` and the greatest `x` less `0.25` is `16777215.75`, but `getWallConstraints`
returns `xMin = -16777216` and `xMax = 16777216`: at this magnitude neighbouring binary32
numbers are `1` or `2` apart and the margin `0.25f` is rounded away. -/
theorem getWallConstraints_float_counterexample :
    wideWalls.map (fun v => binary32Value v.x) = [-16777216, 16777216] ∧
      binary32Value (getWallConstraints binary32 wideWalls).x = -16777216 ∧
      binary32Value (getWallConstraints binary32 wideWalls).y = 16777216 ∧
      binary32Value (getWallConstraints binary32 wideWalls).x ≠ -16777216 + 0.25 ∧
      binary32Value (getWallConstraints binary32 wideWalls).y ≠ 16777216 - 0.25 := by
  decide!

/-- C16 (amended): for every non-empty list of wall vertices, `getWallConstraints` returns
`(min x + 0.25f, max x - 0.25f, min z + 0.25f, max z - 0.25f)`, where `min` and `max` are
the least and greatest coordinate among the vertices and each sum and difference is the
`float` operation of the code (for every float arithmetic `ar`, exact or rounding).  The
result is the same for every reordering of the list, and for every list with the same `x`
and `z` coordinates, whatever the `y` coordinates. -/
theorem getWallConstraints_extents {F : Type} [LinearOrder F] [Zero F] (ar : FloatArith F)
    (vs : List (Vec3 F)) (h : vs ≠ []) :
    (∃ xMin xMax zMin zMax : F,
      IsLeast {a | a ∈ vs.map Vec3.x} xMin ∧ IsGreatest {a | a ∈ vs.map Vec3.x} xMax ∧
      IsLeast {a | a ∈ vs.map Vec3.z} zMin ∧ IsGreatest {a | a ∈ vs.map Vec3.z} zMax ∧
      getWallConstraints ar vs =
        ⟨ar.add xMin (ar.lit 0.25), ar.sub xMax (ar.lit 0.25),
          ar.add zMin (ar.lit 0.25), ar.sub zMax (ar.lit 0.25)⟩) ∧
      (∀ vs2 : List (Vec3 F), vs2.Perm vs →
        getWallConstraints ar vs2 = getWallConstraints ar vs) ∧
      (∀ vs2 : List (Vec3 F), vs2.map Vec3.x = vs.map Vec3.x →
        vs2.map Vec3.z = vs.map Vec3.z →
        getWallConstraints ar vs2 = getWallConstraints ar vs) := by
  obtain ⟨a1, a2, a3, a4⟩ := wallLoop_extents vs h
  refine ⟨⟨_, _, _, _, a1, a2, a3, a4, rfl⟩, fun vs2 hp => ?_, fun vs2 hx hz => ?_⟩
  · have h2 : vs2 ≠ [] := fun hc => h (by subst hc; exact List.Perm.eq_nil (List.Perm.symm hp))
    exact getWallConstraints_congr ar vs vs2 h h2
      (fun a => (hp.map Vec3.x).mem_iff) (fun a => (hp.map Vec3.z).mem_iff)
  · have h2 : vs2 ≠ [] := by
      intro hc
      subst hc
      exact h (List.map_eq_nil_iff.mp hx.symm)
    exact getWallConstraints_congr ar vs vs2 h h2 (fun a => by rw [hx]) (fun a => by rw [hz])

/-- C16 (amended) at a concrete input: in binary32, reversing the list `wideWalls` does not
change the result, and neither does moving a vertex to another height. -/
theorem getWallConstraints_extents_witness :
    getWallConstraints binary32 wideWalls.reverse = getWallConstraints binary32 wideWalls ∧
      getWallConstraints binary32
          [⟨binary32.lit (-16777216), binary32.lit 5, binary32.lit (-8)⟩,
            ⟨binary32.lit 16777216, binary32.lit 3, binary32.lit 8⟩]
        = getWallConstraints binary32 wideWalls :=
  ⟨(getWallConstraints_extents binary32 wideWalls (List.cons_ne_nil _ _)).2.1
      wideWalls.reverse (List.reverse_perm _),
    (getWallConstraints_extents binary32 wideWalls (List.cons_ne_nil _ _)).2.2 _ (by decide!) (by decide!)⟩

/-- Over exact real arithmetic the result of `getWallConstraints` is
`(min x + 0.25, max x - 0.25, min z + 0.25, max z - 0.25)`: its four components, with the
margin taken off, are the least and greatest `x` and the least and greatest `z` among the
vertices. -/
theorem getWallConstraints_real (vs : List (Vec3 ℝ)) (h : vs ≠ []) :
    IsLeast {a | a ∈ vs.map Vec3.x} ((getWallConstraints realArith vs).x - 0.25) ∧
      IsGreatest {a | a ∈ vs.map Vec3.x} ((getWallConstraints realArith vs).y + 0.25) ∧
      IsLeast {a | a ∈ vs.map Vec3.z} ((getWallConstraints realArith vs).z - 0.25) ∧
      IsGreatest {a | a ∈ vs.map Vec3.z} ((getWallConstraints realArith vs).w + 0.25) := by
  obtain ⟨a1, a2, a3, a4⟩ := wallLoop_extents vs h
  have e : ((0.25 : ℚ) : ℝ) = 0.25 := by norm_num
  refine ⟨?_, ?_, ?_, ?_⟩
  · simpa [getWallConstraints, realArith, e] using a1
  · simpa [getWallConstraints, realArith, e] using a2
  · simpa [getWallConstraints, realArith, e] using a3
  · simpa [getWallConstraints, realArith, e] using a4

/-! ## The camera stays inside its constraints -/

/-- The check reads only the `x` and `z` coordinates of its argument. -/
theorem checkPositionConstraints_congr (g : Globals ℝ) (p q : Vec3 ℝ) (hx : q.x = p.x)
    (hz : q.z = p.z) : checkPositionConstraints g q = checkPositionConstraints g p := by
  unfold checkPositionConstraints
  rw [hx, hz]

/-- A key code other than W, A, S, D moves nothing; only the first-person height assignment
runs. -/
theorem processKeyboardInput_of_other (g : Globals ℝ) (c : Camera ℝ) (d : Int) (dt : ℝ)
    (hW : d ≠ GLFW_KEY_W) (hA : d ≠ GLFW_KEY_A) (hS : d ≠ GLFW_KEY_S) (hD : d ≠ GLFW_KEY_D) :
    processKeyboardInput g c d dt =
      if c.fps then { c with position := { c.position with y := c.fixedYPos } } else c := by
  unfold processKeyboardInput
  simp [hW, hA, hS, hD]

/-- One call of `processKeyboardInput` keeps the position valid. -/
theorem processKeyboardInput_keeps_valid (g : Globals ℝ) (c : Camera ℝ) (d : Int) (dt : ℝ)
    (h : checkPositionConstraints g c.position = true) :
    checkPositionConstraints g (processKeyboardInput g c d dt).position = true := by
  have hstay : checkPositionConstraints g
      (if c.fps then { c with position := { c.position with y := c.fixedYPos } } else c).position
      = true := by
    by_cases hf : c.fps = true
    · rw [if_pos hf]
      exact (checkPositionConstraints_congr g c.position _ rfl rfl).trans h
    · rw [if_neg hf]
      exact h
  by_cases hd : d = GLFW_KEY_W ∨ d = GLFW_KEY_A ∨ d = GLFW_KEY_S ∨ d = GLFW_KEY_D
  · cases hacc : checkPositionConstraints g (moveCandidate c d dt)
    · rw [processKeyboardInput_of_rejected g c d dt hacc]
      exact hstay
    · rw [processKeyboardInput_of_accepted g c d dt hd hacc]
      by_cases hf : c.fps = true
      · rw [if_pos hf]
        exact (checkPositionConstraints_congr g (moveCandidate c d dt) _ rfl rfl).trans hacc
      · rw [if_neg hf]
        exact hacc
  · simp only [not_or] at hd
    rw [processKeyboardInput_of_other g c d dt hd.1 hd.2.1 hd.2.2.1 hd.2.2.2]
    exact hstay

/-- C17: for all wall bounds and every exclusion radius, if the camera's position
satisfies `checkPositionConstraints`, then so does its position after
`processKeyboardInput` with any direction code (W, A, S, D or any other value), any `dt`
and either first-person setting; hence after any sequence of such calls from a valid
start. -/
theorem moves_keep_constraints (g : Globals ℝ) (c : Camera ℝ)
    (h : checkPositionConstraints g c.position = true) :
    (∀ (d : Int) (dt : ℝ),
        checkPositionConstraints g (processKeyboardInput g c d dt).position = true) ∧
      (∀ moves : List (Int × ℝ),
        checkPositionConstraints g (applyMoves g c moves).position = true) := by
  refine ⟨fun d dt => processKeyboardInput_keeps_valid g c d dt h, fun moves => ?_⟩
  unfold applyMoves
  induction moves generalizing c with
  | nil => exact h
  | cons m ms ih =>
    rw [List.foldl_cons]
    exact ih _ (processKeyboardInput_keeps_valid g c m.1 m.2 h)

/-- C17 at a concrete input: the camera of `main.cpp` after W, D and an unused key code. -/
theorem moves_keep_constraints_witness :
    checkPositionConstraints Globals.initial
      (applyMoves Globals.initial mainCamera
        [(GLFW_KEY_W, 1), (GLFW_KEY_D, 1), (0, 1)]).position = true :=
  (moves_keep_constraints Globals.initial mainCamera
    ((checkPositionConstraints_eq_true_iff _ _).mpr
      ⟨by norm_num [mainCamera, Globals.initial],
        Real.lt_sqrt_of_sq_lt (by norm_num [mainCamera, Globals.initial])⟩)).2 _

/-! ## The camera basis -/

/-- The basis computed by `updateCameraVectors` for world-up `(0, 1, 0)` when the cosine of
the pitch is positive: `front` from yaw and pitch, `right` horizontal, `up` their cross
product. -/
theorem updateCameraVectors_basis (c : Camera ℝ) (hw : c.worldUp = ⟨0, 1, 0⟩)
    (hp : 0 < Real.cos (radians c.pitch)) :
    (updateCameraVectors c).front =
        ⟨Real.cos (radians c.yaw) * Real.cos (radians c.pitch), Real.sin (radians c.pitch),
          Real.sin (radians c.yaw) * Real.cos (radians c.pitch)⟩ ∧
      (updateCameraVectors c).right =
        ⟨-Real.sin (radians c.yaw), 0, Real.cos (radians c.yaw)⟩ ∧
      (updateCameraVectors c).up =
        ⟨-(Real.sin (radians c.pitch) * Real.cos (radians c.yaw)), Real.cos (radians c.pitch),
          -(Real.sin (radians c.yaw) * Real.sin (radians c.pitch))⟩ := by
  have hy := Real.sin_sq_add_cos_sq (radians c.yaw)
  have hq := Real.sin_sq_add_cos_sq (radians c.pitch)
  set cy := Real.cos (radians c.yaw) with hcy
  set sy := Real.sin (radians c.yaw) with hsy
  set cp := Real.cos (radians c.pitch) with hcp
  set sp := Real.sin (radians c.pitch) with hsp
  have hfront : (Vec3.normalize (⟨cy * cp, sp, sy * cp⟩ : Vec3 ℝ)) = ⟨cy * cp, sp, sy * cp⟩ := by
    have h1 : Vec3.dot (⟨cy * cp, sp, sy * cp⟩ : Vec3 ℝ) ⟨cy * cp, sp, sy * cp⟩ = 1 := by
      simp only [Vec3.dot]
      nlinarith [hy, hq]
    simp only [Vec3.normalize, h1, sqrtf_real, Real.sqrt_one, Vec3.scale]
    simp
  have hright : (Vec3.normalize (Vec3.cross (⟨cy * cp, sp, sy * cp⟩ : Vec3 ℝ) ⟨0, 1, 0⟩))
      = ⟨-sy, 0, cy⟩ := by
    have h1 : Vec3.dot (Vec3.cross (⟨cy * cp, sp, sy * cp⟩ : Vec3 ℝ) ⟨0, 1, 0⟩)
        (Vec3.cross (⟨cy * cp, sp, sy * cp⟩ : Vec3 ℝ) ⟨0, 1, 0⟩) = cp ^ 2 := by
      simp only [Vec3.dot, Vec3.cross]
      nlinarith [hy]
    simp only [Vec3.normalize, h1, sqrtf_real, Real.sqrt_sq hp.le]
    simp only [Vec3.cross, Vec3.scale, Vec3.mk.injEq]
    refine ⟨?_, ?_, ?_⟩ <;> field_simp
  have hup : (Vec3.normalize (Vec3.cross (⟨-sy, 0, cy⟩ : Vec3 ℝ) ⟨cy * cp, sp, sy * cp⟩))
      = ⟨-(sp * cy), cp, -(sy * sp)⟩ := by
    have h1 : Vec3.dot (Vec3.cross (⟨-sy, 0, cy⟩ : Vec3 ℝ) ⟨cy * cp, sp, sy * cp⟩)
        (Vec3.cross (⟨-sy, 0, cy⟩ : Vec3 ℝ) ⟨cy * cp, sp, sy * cp⟩) = 1 := by
      simp only [Vec3.dot, Vec3.cross]
      have e : (0 * (sy * cp) - sp * cy) * (0 * (sy * cp) - sp * cy) +
          (cy * (cy * cp) - sy * cp * -sy) * (cy * (cy * cp) - sy * cp * -sy) +
          (-sy * sp - cy * cp * 0) * (-sy * sp - cy * cp * 0)
          = sp ^ 2 * (sy ^ 2 + cy ^ 2) + cp ^ 2 * (sy ^ 2 + cy ^ 2) ^ 2 := by ring
      rw [e, hy]
      linarith
    simp only [Vec3.normalize, h1, sqrtf_real, Real.sqrt_one]
    simp only [Vec3.cross, Vec3.scale, Vec3.mk.injEq]
    refine ⟨?_, ?_, ?_⟩
    · ring
    · nlinarith [hy]
    · ring
  unfold updateCameraVectors
  simp only [hw, cos_real, sin_real, ← hcy, ← hsy, ← hcp, ← hsp, hfront, hright, hup,
    and_self]

/-- A pitch in `[-89, 89]` degrees has positive cosine. -/
theorem cos_radians_pos (pitch : ℝ) (h1 : -89 ≤ pitch) (h2 : pitch ≤ 89) :
    0 < Real.cos (radians pitch) := by
  have hpi := Real.pi_pos
  apply Real.cos_pos_of_mem_Ioo
  constructor
  · show -(Real.pi / 2) < pitch * (Real.pi / 180)
    nlinarith
  · show pitch * (Real.pi / 180) < Real.pi / 2
    nlinarith

/-- C12: for every yaw, every mouse delta and every camera whose world-up is `(0, 1, 0)`,
after `processMouseMovement` the vectors `front`, `right` and `up` each have length `1` and
are pairwise orthogonal, and `front = (cos yaw cos pitch, sin pitch, sin yaw cos pitch)` for
the new yaw and pitch, taken in degrees. -/
theorem camera_basis_orthonormal (c : Camera ℝ) (xOff yOff : ℝ) (hw : c.worldUp = ⟨0, 1, 0⟩) :
    (processMouseMovement c xOff yOff).front.length = 1 ∧
      (processMouseMovement c xOff yOff).right.length = 1 ∧
      (processMouseMovement c xOff yOff).up.length = 1 ∧
      Vec3.dot (processMouseMovement c xOff yOff).front
        (processMouseMovement c xOff yOff).right = 0 ∧
      Vec3.dot (processMouseMovement c xOff yOff).front
        (processMouseMovement c xOff yOff).up = 0 ∧
      Vec3.dot (processMouseMovement c xOff yOff).right
        (processMouseMovement c xOff yOff).up = 0 ∧
      (processMouseMovement c xOff yOff).front =
        ⟨Real.cos (radians (processMouseMovement c xOff yOff).yaw) *
            Real.cos (radians (processMouseMovement c xOff yOff).pitch),
          Real.sin (radians (processMouseMovement c xOff yOff).pitch),
          Real.sin (radians (processMouseMovement c xOff yOff).yaw) *
            Real.cos (radians (processMouseMovement c xOff yOff).pitch)⟩ := by
  obtain ⟨hp1, hp2⟩ := processMouseMovement_pitch c xOff yOff
  have hyaw : ∀ d : Camera ℝ, (updateCameraVectors d).yaw = d.yaw := fun _ => rfl
  have hpitch : ∀ d : Camera ℝ, (updateCameraVectors d).pitch = d.pitch := fun _ => rfl
  unfold processMouseMovement at hp1 hp2 ⊢
  simp only [hyaw, hpitch] at hp1 hp2 ⊢
  obtain ⟨hf, hr, hu⟩ := updateCameraVectors_basis _
    (show (({ c with
        yaw := c.yaw + xOff * c.mouseSensitivity
        pitch := (if (if c.pitch + yOff * c.mouseSensitivity > MAX_PITCH then MAX_PITCH
            else c.pitch + yOff * c.mouseSensitivity) < MIN_PITCH then MIN_PITCH
          else (if c.pitch + yOff * c.mouseSensitivity > MAX_PITCH then MAX_PITCH
            else c.pitch + yOff * c.mouseSensitivity)) } : Camera ℝ)).worldUp = ⟨0, 1, 0⟩ from hw)
    (cos_radians_pos _ hp1 hp2)
  rw [hf, hr, hu]
  have hy := Real.sin_sq_add_cos_sq (radians (c.yaw + xOff * c.mouseSensitivity))
  have hq := Real.sin_sq_add_cos_sq (radians
    (if (if c.pitch + yOff * c.mouseSensitivity > MAX_PITCH then MAX_PITCH
            else c.pitch + yOff * c.mouseSensitivity) < MIN_PITCH then MIN_PITCH
          else (if c.pitch + yOff * c.mouseSensitivity > MAX_PITCH then MAX_PITCH
            else c.pitch + yOff * c.mouseSensitivity)))
  simp only at hy hq ⊢
  generalize Real.cos (radians (c.yaw + xOff * c.mouseSensitivity)) = cy at *
  generalize Real.sin (radians (c.yaw + xOff * c.mouseSensitivity)) = sy at *
  generalize Real.cos (radians _) = cp at *
  generalize Real.sin (radians _) = sp at *
  simp only [Vec3.length, Vec3.dot, sqrtf_real]
  refine ⟨?_, ?_, ?_, ?_, ?_, ?_, trivial⟩
  · rw [show cy * cp * (cy * cp) + sp * sp + sy * cp * (sy * cp)
      = cp ^ 2 * (sy ^ 2 + cy ^ 2) + sp ^ 2 by ring, hy]
    rw [show cp ^ 2 * 1 + sp ^ 2 = 1 by linarith, Real.sqrt_one]
  · rw [show -sy * -sy + 0 * 0 + cy * cy = 1 by linarith, Real.sqrt_one]
  · rw [show -(sp * cy) * -(sp * cy) + cp * cp + -(sy * sp) * -(sy * sp)
      = sp ^ 2 * (sy ^ 2 + cy ^ 2) + cp ^ 2 by ring, hy]
    rw [show sp ^ 2 * 1 + cp ^ 2 = 1 by linarith, Real.sqrt_one]
  · ring
  · linear_combination (-(cp * sp)) * hy
  · ring

/-- C12 at a concrete input: the default camera after a pointer move of `(10, 5)`. -/
theorem camera_basis_orthonormal_witness :
    (processMouseMovement originFpsCamera 10 5).front.length = 1 ∧
      Vec3.dot (processMouseMovement originFpsCamera 10 5).front
        (processMouseMovement originFpsCamera 10 5).right = 0 :=
  ⟨(camera_basis_orthonormal originFpsCamera 10 5 rfl).1,
    (camera_basis_orthonormal originFpsCamera 10 5 rfl).2.2.2.1⟩

/-! ## The initial transform of a model -/

/-- Rotation by the angle `0` about the `x` axis is the identity. -/
theorem RotateX_zero : RotateX (0 : ℝ) = 1 := by
  ext i j
  fin_cases i <;> fin_cases j <;>
    simp [RotateX, cos_real, sin_real, Matrix.one_apply, Matrix.vecHead, Matrix.vecTail]

/-- Rotation by the angle `0` about the `y` axis is the identity. -/
theorem RotateY_zero : RotateY (0 : ℝ) = 1 := by
  ext i j
  fin_cases i <;> fin_cases j <;>
    simp [RotateY, cos_real, sin_real, Matrix.one_apply, Matrix.vecHead, Matrix.vecTail]

/-- Rotation by the angle `0` about the `z` axis is the identity. -/
theorem RotateZ_zero : RotateZ (0 : ℝ) = 1 := by
  ext i j
  fin_cases i <;> fin_cases j <;>
    simp [RotateZ, cos_real, sin_real, Matrix.one_apply, Matrix.vecHead, Matrix.vecTail]

/-- The translation matrix holds `y` in row 1 of its last column. -/
theorem Translate_apply_one_three (x y z : ℝ) : Translate x y z 1 3 = y := by
  simp [Translate]

/-- The matrix that `initModel` assigns to node 0 is the rotation about `x`, `y`, `z` by the
angles passed in, times the translation by the enumerator values; the translation passed in
does not enter. -/
theorem initModelMatrix_eq (idx : PoseIndex) (tx ty tz rx ry rz : ℝ) :
    initModelMatrix idx tx ty tz rx ry rz =
      RotateX rx * RotateY ry * RotateZ rz *
        Translate (idx.tX : ℝ) (idx.tY : ℝ) (idx.tZ : ℝ) := by
  simp only [initModelMatrix, Matrix.one_mul]

/-- The matrix that `initModel` first stores for the root mesh for the call
`initModel(fishFoodModel, 4, 2.5, 4, 0, 0, 0)` of the deploy branch is built with the
translation of the enumerators `tX, tY, tZ`, whatever natural numbers they are, not with the
translation `(4, 2.5, 4)` passed in: the statement writes `glm::vec3(tX, tY, tZ)` for
`glm::vec3(_tX, _tY, _tZ)`.  The value is overwritten by the call of `updateModelMatrix()`
that follows and is never read. -/
theorem initModelMatrix_food (idx : PoseIndex) :
    initModelMatrix idx (4 : ℝ) 2.5 4 0 0 0 =
        RotateX (0 : ℝ) * RotateY (0 : ℝ) * RotateZ (0 : ℝ) * Translate (idx.tX : ℝ) (idx.tY : ℝ) (idx.tZ : ℝ) ∧
      initModelMatrix idx (4 : ℝ) 2.5 4 0 0 0 1 3 = (idx.tY : ℝ) ∧
      (RotateX (0 : ℝ) * RotateY (0 : ℝ) * RotateZ (0 : ℝ) * Translate (4 : ℝ) 2.5 4) 1 3 = 2.5 ∧
      initModelMatrix idx (4 : ℝ) 2.5 4 0 0 0 ≠
        RotateX (0 : ℝ) * RotateY (0 : ℝ) * RotateZ (0 : ℝ) * Translate (4 : ℝ) 2.5 4 := by
  have h1 : initModelMatrix idx (4 : ℝ) 2.5 4 0 0 0 1 3 = (idx.tY : ℝ) := by
    rw [initModelMatrix_eq, RotateX_zero, RotateY_zero, RotateZ_zero]
    simp only [Matrix.one_mul, Translate_apply_one_three]
  have h2 : (RotateX (0 : ℝ) * RotateY (0 : ℝ) * RotateZ (0 : ℝ) * Translate (4 : ℝ) 2.5 4) 1 3 = 2.5 := by
    rw [RotateX_zero, RotateY_zero, RotateZ_zero]
    simp only [Matrix.one_mul, Translate_apply_one_three]
  refine ⟨initModelMatrix_eq idx _ _ _ _ _ _, h1, h2, fun hc => ?_⟩
  have h3 : (idx.tY : ℝ) = 2.5 := by rw [← h1, hc, h2]
  have h4 : ((idx.tY * 2 : ℕ) : ℝ) = ((5 : ℕ) : ℝ) := by
    push_cast
    rw [h3]
    norm_num
  have h5 : idx.tY * 2 = 5 := by exact_mod_cast h4
  omega

/-- C11: for every pose `(tx, ty, tz, rx, ry, rz)` passed to `initModel`, whatever the root
mesh held before and whatever the values of the enumerators, the root mesh after `initModel`
has the pose that was passed in and the local transform
`RotateX(rx) * RotateY(ry) * RotateZ(rz) * Translate(tx, ty, tz)` with the translation that
was passed in. -/
theorem initModelRoot_transform (idx : PoseIndex) (mesh : MeshTransform ℝ)
    (tx ty tz rx ry rz : ℝ) :
    (initModelRoot idx mesh tx ty tz rx ry rz).mesh6DoF = ⟨tx, ty, tz, rx, ry, rz⟩ ∧
      (initModelRoot idx mesh tx ty tz rx ry rz).meshMatrix =
        RotateX rx * RotateY ry * RotateZ rz * Translate tx ty tz := by
  exact ⟨rfl, rfl⟩

/-! ## The pursuit step -/

/-- The wag loop of the pursuing shark keeps the number of meshes. -/
theorem length_wagLoopPursuit (eT : ℝ) (m : Model ℝ) :
    (wagLoopPursuit eT m).length = m.length := by
  unfold wagLoopPursuit
  exact forLoop_invariant (fun t : Model ℝ => t.length = m.length) 0 m.length _ m rfl
    (fun i t _ _ ht => by simp only [length_setPose]; exact ht)

/-- Steering keeps the number of meshes. -/
theorem length_steerShark (dir : Vec3 ℝ) (m : Model ℝ) :
    (steerShark dir m).length = m.length := by
  unfold steerShark
  simp only
  split_ifs <;> simp only [length_setPose]

/-- Steering moves the root by `0.005` times the direction and keeps its orbit radius. -/
theorem steerShark_root (dir : Vec3 ℝ) (m : Model ℝ) (h : m ≠ []) :
    rootPosition (steerShark dir m) =
        ⟨(getMesh m 0).mesh6DoF.tX + dir.x * 0.005, (getMesh m 0).mesh6DoF.tY + dir.y * 0.005,
          (getMesh m 0).mesh6DoF.tZ + dir.z * 0.005⟩ ∧
      (getMesh (steerShark dir m) 0).initRad = (getMesh m 0).initRad := by
  have hl : 0 < m.length := List.length_pos.mpr h
  unfold steerShark rootPosition
  simp only [getMesh_setPose_self, length_setPose, hl]
  split_ifs <;> simp only [getMesh_setPose_self, length_setPose, hl, and_self]

/-- A pass of the shark loop with the shark at distance at least `0.1`: no break, the shark
is steered along the unit direction and wagged. -/
theorem sharkPursuitBody_far_eq (eT : ℝ) (t : Scene ℝ) (hfar : ¬ sharkFoodDistance t < 0.1) :
    sharkPursuitBody eT t =
      ({ t with sharkModel :=
          wagLoopPursuit eT (steerShark (sharkFoodDirection t) t.sharkModel) }, false) := by
  unfold sharkPursuitBody
  exact if_neg hfar

/-- A pass of the shark loop with the shark within `0.1` of the food: the flags are cleared,
the orbit radius is recomputed from the root position, and the loop breaks. -/
theorem sharkPursuitBody_near_eq (eT : ℝ) (t : Scene ℝ) (hnear : sharkFoodDistance t < 0.1) :
    sharkPursuitBody eT t =
      ({ t with
          fishFoodAnimStarted := false
          fishFoodInit := false
          sharkModel := setInitRad t.sharkModel 0
            (Real.sqrt ((getMesh t.sharkModel 0).mesh6DoF.tX ^ 2 +
              (getMesh t.sharkModel 0).mesh6DoF.tZ ^ 2)) }, true) := by
  unfold sharkPursuitBody
  exact if_pos hnear

/-- The geometry of one steering step: moving by `0.005` along the unit direction toward a
target at distance `m ≥ 0.1` leaves the distance `m - 0.005`. -/
theorem step_toward (dx dy dz m : ℝ) (hm : m = Real.sqrt (dx ^ 2 + dy ^ 2 + dz ^ 2))
    (hfar : 0.1 ≤ m) :
    Real.sqrt ((dx - dx / m * 0.005) ^ 2 + (dy - dy / m * 0.005) ^ 2 +
        (dz - dz / m * 0.005) ^ 2) = m - 0.005 := by
  have hS : 0 ≤ dx ^ 2 + dy ^ 2 + dz ^ 2 := by positivity
  have hm2 : m ^ 2 = dx ^ 2 + dy ^ 2 + dz ^ 2 := by rw [hm]; exact Real.sq_sqrt hS
  have hmpos : 0 < m := by linarith
  have hm0 : m ≠ 0 := hmpos.ne'
  have e : (dx - dx / m * 0.005) ^ 2 + (dy - dy / m * 0.005) ^ 2 + (dz - dz / m * 0.005) ^ 2
      = (m - 0.005) ^ 2 := by
    have e1 : (dx - dx / m * 0.005) ^ 2 + (dy - dy / m * 0.005) ^ 2 +
        (dz - dz / m * 0.005) ^ 2
        = (dx ^ 2 + dy ^ 2 + dz ^ 2) * ((m - 0.005) / m) ^ 2 := by
      field_simp
      ring
    rw [e1, ← hm2]
    field_simp
  rw [e]
  exact Real.sqrt_sq (by linarith)

/-- What a pass of the shark loop does when the shark is at distance at least `0.1`: it does
not break and touches neither the flags nor the food nor the orbit radius; the root moves by
`0.005` along the unit direction toward the food, the distance to the food drops by `0.005`
and the unit direction stays the same. -/
theorem sharkPursuitBody_far (eT : ℝ) (t : Scene ℝ) (hne : t.sharkModel ≠ [])
    (hfar : 0.1 ≤ sharkFoodDistance t) :
    (sharkPursuitBody eT t).2 = false ∧
      (sharkPursuitBody eT t).1.fishFoodAnimStarted = t.fishFoodAnimStarted ∧
      (sharkPursuitBody eT t).1.fishFoodInit = t.fishFoodInit ∧
      (sharkPursuitBody eT t).1.fishFoodModel = t.fishFoodModel ∧
      (sharkPursuitBody eT t).1.sharkModel ≠ [] ∧
      (sharkPursuitBody eT t).1.sharkModel.length = t.sharkModel.length ∧
      rootPosition (sharkPursuitBody eT t).1.sharkModel =
        ⟨(rootPosition t.sharkModel).x + (sharkFoodDirection t).x * 0.005,
          (rootPosition t.sharkModel).y + (sharkFoodDirection t).y * 0.005,
          (rootPosition t.sharkModel).z + (sharkFoodDirection t).z * 0.005⟩ ∧
      sharkInitRad (sharkPursuitBody eT t).1 = sharkInitRad t ∧
      sharkFoodDistance (sharkPursuitBody eT t).1 = sharkFoodDistance t - 0.005 ∧
      sharkFoodDirection (sharkPursuitBody eT t).1 = sharkFoodDirection t := by
  have hfar' : ¬ sharkFoodDistance t < 0.1 := not_lt.mpr hfar
  rw [sharkPursuitBody_far_eq eT t hfar']
  obtain ⟨hpos, hrad⟩ := steerShark_root (sharkFoodDirection t) t.sharkModel hne
  have hlen : (wagLoopPursuit eT (steerShark (sharkFoodDirection t) t.sharkModel)).length
      = t.sharkModel.length := by
    rw [length_wagLoopPursuit, length_steerShark]
  have hroot : getMesh (wagLoopPursuit eT (steerShark (sharkFoodDirection t) t.sharkModel)) 0
      = getMesh (steerShark (sharkFoodDirection t) t.sharkModel) 0 :=
    getMesh_wagLoopPursuit_zero eT _
  have hpos' : rootPosition (wagLoopPursuit eT (steerShark (sharkFoodDirection t) t.sharkModel))
      = ⟨(rootPosition t.sharkModel).x + (sharkFoodDirection t).x * 0.005,
          (rootPosition t.sharkModel).y + (sharkFoodDirection t).y * 0.005,
          (rootPosition t.sharkModel).z + (sharkFoodDirection t).z * 0.005⟩ := by
    have hpos2 := hpos
    unfold rootPosition at hpos2 ⊢
    rw [hroot]
    exact hpos2
  have hx : (getMesh (wagLoopPursuit eT (steerShark (sharkFoodDirection t) t.sharkModel))
      0).mesh6DoF.tX = (getMesh t.sharkModel 0).mesh6DoF.tX
        + ((getMesh t.fishFoodModel 0).mesh6DoF.tX - (getMesh t.sharkModel 0).mesh6DoF.tX)
          / sharkFoodDistance t * 0.005 := congrArg Vec3.x hpos'
  have hy : (getMesh (wagLoopPursuit eT (steerShark (sharkFoodDirection t) t.sharkModel))
      0).mesh6DoF.tY = (getMesh t.sharkModel 0).mesh6DoF.tY
        + ((getMesh t.fishFoodModel 0).mesh6DoF.tY - (getMesh t.sharkModel 0).mesh6DoF.tY)
          / sharkFoodDistance t * 0.005 := congrArg Vec3.y hpos'
  have hz : (getMesh (wagLoopPursuit eT (steerShark (sharkFoodDirection t) t.sharkModel))
      0).mesh6DoF.tZ = (getMesh t.sharkModel 0).mesh6DoF.tZ
        + ((getMesh t.fishFoodModel 0).mesh6DoF.tZ - (getMesh t.sharkModel 0).mesh6DoF.tZ)
          / sharkFoodDistance t * 0.005 := congrArg Vec3.z hpos'
  have hdist : sharkFoodDistance
      ({ t with sharkModel :=
        wagLoopPursuit eT (steerShark (sharkFoodDirection t) t.sharkModel) } : Scene ℝ)
      = sharkFoodDistance t - 0.005 := by
    have key := step_toward
      ((getMesh t.fishFoodModel 0).mesh6DoF.tX - (getMesh t.sharkModel 0).mesh6DoF.tX)
      ((getMesh t.fishFoodModel 0).mesh6DoF.tY - (getMesh t.sharkModel 0).mesh6DoF.tY)
      ((getMesh t.fishFoodModel 0).mesh6DoF.tZ - (getMesh t.sharkModel 0).mesh6DoF.tZ)
      (sharkFoodDistance t) rfl hfar
    rw [← key]
    show Real.sqrt _ = Real.sqrt _
    simp only []
    rw [hx, hy, hz]
    congr 1
    ring
  refine ⟨rfl, rfl, rfl, rfl, ?_, hlen, hpos', ?_, hdist, ?_⟩
  · intro hc
    have hc' : wagLoopPursuit eT (steerShark (sharkFoodDirection t) t.sharkModel) = [] := hc
    rw [hc'] at hlen
    exact hne (List.length_eq_zero.mp hlen.symm)
  · show (getMesh (wagLoopPursuit eT _) 0).initRad = _
    rw [hroot, hrad]
    rfl
  · have hm0 : sharkFoodDistance t ≠ 0 := by linarith
    have hm1 : sharkFoodDistance t - 0.005 ≠ 0 := by
      intro hc
      linarith
    show (⟨_, _, _⟩ : Vec3 ℝ) = ⟨_, _, _⟩
    simp only []
    rw [hdist, hx, hy, hz]
    simp only [Vec3.mk.injEq]
    refine ⟨?_, ?_, ?_⟩ <;> field_simp <;> ring

/-! ## The descending update, pass by pass -/

/-- What a pass of the shark loop does when the shark is within `0.1` of the food: it
breaks with both flags cleared, leaves the food and the root position as they are, and, for
a shark with at least one node, sets the orbit radius to `sqrt(x² + z²)` of the root. -/
theorem sharkPursuitBody_near (eT : ℝ) (t : Scene ℝ) (hnear : sharkFoodDistance t < 0.1) :
    (sharkPursuitBody eT t).2 = true ∧ Idle (sharkPursuitBody eT t).1 ∧
      (sharkPursuitBody eT t).1.fishFoodModel = t.fishFoodModel ∧
      rootPosition (sharkPursuitBody eT t).1.sharkModel = rootPosition t.sharkModel ∧
      (t.sharkModel ≠ [] → sharkInitRad (sharkPursuitBody eT t).1 =
        Real.sqrt ((rootPosition t.sharkModel).x ^ 2 + (rootPosition t.sharkModel).z ^ 2)) := by
  rw [sharkPursuitBody_near_eq eT t hnear]
  refine ⟨rfl, ⟨rfl, rfl⟩, rfl, ?_, fun hne => ?_⟩
  · simp only [rootPosition, getMesh_setInitRad_pose]
  · have hl : 0 < t.sharkModel.length := List.length_pos.mpr hne
    simp [sharkInitRad, rootPosition, setInitRad, getMesh, List.getD_eq_getElem?_getD, hl]

/-- The shark loop of `n` passes when the shark stays at distance at least `0.1` in every
pass: the flags, the food and the orbit radius are untouched, the root has moved `n` steps
of `0.005` along the unit direction toward the food, and the distance has dropped by
`0.005 n`. -/
theorem sharkLoop_far (eT : ℝ) (n : ℕ) (t : Scene ℝ) (hne : t.sharkModel ≠ [])
    (hfar : ∀ k : ℕ, k < n → 0.1 ≤ sharkFoodDistance t - 0.005 * (k : ℝ)) :
    (loopWithBreak (sharkPursuitBody eT) n t).fishFoodAnimStarted = t.fishFoodAnimStarted ∧
      (loopWithBreak (sharkPursuitBody eT) n t).fishFoodInit = t.fishFoodInit ∧
      (loopWithBreak (sharkPursuitBody eT) n t).fishFoodModel = t.fishFoodModel ∧
      rootPosition (loopWithBreak (sharkPursuitBody eT) n t).sharkModel =
        ⟨(rootPosition t.sharkModel).x + (n : ℝ) * 0.005 * (sharkFoodDirection t).x,
          (rootPosition t.sharkModel).y + (n : ℝ) * 0.005 * (sharkFoodDirection t).y,
          (rootPosition t.sharkModel).z + (n : ℝ) * 0.005 * (sharkFoodDirection t).z⟩ ∧
      sharkInitRad (loopWithBreak (sharkPursuitBody eT) n t) = sharkInitRad t ∧
      sharkFoodDistance (loopWithBreak (sharkPursuitBody eT) n t)
        = sharkFoodDistance t - 0.005 * (n : ℝ) := by
  induction n generalizing t with
  | zero =>
    simp only [loopWithBreak, Nat.cast_zero, zero_mul, mul_zero, add_zero, sub_zero, true_and]
  | succ n ih =>
    have h0 : 0.1 ≤ sharkFoodDistance t := by
      have := hfar 0 (Nat.succ_pos n)
      simpa using this
    obtain ⟨p1, p2, p3, p4, p5, -, p7, p8, p9, p10⟩ := sharkPursuitBody_far eT t hne h0
    have hfar' : ∀ k : ℕ, k < n →
        0.1 ≤ sharkFoodDistance (sharkPursuitBody eT t).1 - 0.005 * (k : ℝ) := by
      intro k hk
      have := hfar (k + 1) (Nat.succ_lt_succ hk)
      push_cast at this
      rw [p9]
      linarith
    obtain ⟨q1, q2, q3, q4, q5, q6⟩ := ih (sharkPursuitBody eT t).1 p5 hfar'
    unfold loopWithBreak
    rw [if_neg (by rw [p1]; decide)]
    refine ⟨q1.trans p2, q2.trans p3, q3.trans p4, ?_, q5.trans p8, ?_⟩
    · rw [q4, p7, p10]
      simp only [Vec3.mk.injEq]
      push_cast
      refine ⟨?_, ?_, ?_⟩ <;> ring
    · rw [q6, p9]
      push_cast
      ring

/-- The shark loop of `n` passes when some pass finds the shark within `0.1` of the food:
the session ends up idle. -/
theorem sharkLoop_near (eT : ℝ) (n : ℕ) (t : Scene ℝ) (hne : t.sharkModel ≠ [])
    (hnear : ∃ k : ℕ, k < n ∧ sharkFoodDistance t - 0.005 * (k : ℝ) < 0.1) :
    Idle (loopWithBreak (sharkPursuitBody eT) n t) := by
  induction n generalizing t with
  | zero =>
    obtain ⟨k, hk, -⟩ := hnear
    omega
  | succ n ih =>
    obtain ⟨k, hk, hkd⟩ := hnear
    unfold loopWithBreak
    by_cases h0 : sharkFoodDistance t < 0.1
    · obtain ⟨p1, p2, -⟩ := sharkPursuitBody_near eT t h0
      rw [if_pos p1]
      exact p2
    · obtain ⟨p1, -, -, -, p5, -, -, -, p9, -⟩ := sharkPursuitBody_far eT t hne (not_lt.mp h0)
      rw [if_neg (by rw [p1]; decide)]
      have hk0 : k ≠ 0 := by
        intro hc
        subst hc
        simp at hkd
        exact h0 hkd
      refine ih _ p5 ⟨k - 1, by omega, ?_⟩
      rw [p9]
      have : ((k - 1 : ℕ) : ℝ) = (k : ℝ) - 1 := by
        rw [Nat.cast_sub (Nat.one_le_iff_ne_zero.mpr hk0)]
        simp
      rw [this]
      linarith

/-- A pass of the food loop whose floor check does not fire leaves the flags as they are. -/
theorem foodDescentBody_flags_of_not_fired (eT : ℝ) (i : ℕ) (t : Scene ℝ)
    (h : ¬ (getMesh t.fishFoodModel i).mesh6DoF.tY - eT * 0.0001 < 0) :
    (foodDescentBody eT i t).fishFoodAnimStarted = t.fishFoodAnimStarted ∧
      (foodDescentBody eT i t).fishFoodInit = t.fishFoodInit := by
  unfold foodDescentBody
  simp only [if_neg h, and_self]

/-- A pass of the food loop does not touch the shark. -/
theorem foodDescentBody_sharkModel (eT : ℝ) (i : ℕ) (t : Scene ℝ) :
    (foodDescentBody eT i t).sharkModel = t.sharkModel := by
  unfold foodDescentBody
  simp only
  split_ifs <;> rfl

/-- A session is not both descending and idle. -/
theorem not_idle_of_descending {F : Type} (t : Scene F) (h : Descending t) : ¬ Idle t := by
  intro hi
  have h1 := h.1
  rw [hi.1] at h1
  cases h1

/-- The food loop of a descending update, started in the descending phase: it leaves the
shark alone, and the session is idle after it exactly when the floor check of some food
mesh fires, that is when the height of the mesh is below `elapsedTime * 0.0001`; otherwise
it is still descending. -/
theorem foodDescentLoop_spec (eT : ℝ) (s : Scene ℝ) (hd : Descending s) :
    (foodDescentLoop eT s).sharkModel = s.sharkModel ∧
      (Descending (foodDescentLoop eT s) ∨ Idle (foodDescentLoop eT s)) ∧
      (Idle (foodDescentLoop eT s) ↔
        ∃ i, i < s.fishFoodModel.length ∧
          (getMesh s.fishFoodModel i).mesh6DoF.tY - eT * 0.0001 < 0) := by
  have key := forLoop_invariant_indexed
    (fun k (t : Scene ℝ) =>
      t.sharkModel = s.sharkModel ∧
      (∀ j, k ≤ j → getMesh t.fishFoodModel j = getMesh s.fishFoodModel j) ∧
      (Descending t ∨ Idle t) ∧
      (Idle t ↔ ∃ i, i < k ∧ (getMesh s.fishFoodModel i).mesh6DoF.tY - eT * 0.0001 < 0))
    0 s.fishFoodModel.length (foodDescentBody eT) s (Nat.zero_le _)
    ⟨rfl, fun _ _ => rfl, Or.inl hd,
      ⟨fun hi => absurd hi (not_idle_of_descending s hd), fun ⟨i, hi, _⟩ => absurd hi (by omega)⟩⟩
    (by
      intro i t _ hi ht
      obtain ⟨h1, h2, h3, h4⟩ := ht
      have hread : getMesh t.fishFoodModel i = getMesh s.fishFoodModel i := h2 i le_rfl
      refine ⟨(foodDescentBody_sharkModel eT i t).trans h1, fun j hj => ?_,
        (foodDescentBody_flags eT i t).2.1 h3, ?_⟩
      · rw [foodDescentBody_food, getMesh_setPose_ne _ i j _ (by omega)]
        exact h2 j (by omega)
      · by_cases hc : (getMesh t.fishFoodModel i).mesh6DoF.tY - eT * 0.0001 < 0
        · refine ⟨fun _ => ⟨i, Nat.lt_succ_self i, by rw [← hread]; exact hc⟩,
            fun _ => (foodDescentBody_flags eT i t).2.2 hc⟩
        · obtain ⟨f1, f2⟩ := foodDescentBody_flags_of_not_fired eT i t hc
          have hiff : Idle (foodDescentBody eT i t) ↔ Idle t := by
            unfold Idle
            rw [f1, f2]
          rw [hiff, h4]
          constructor
          · rintro ⟨i', hi', hfire⟩
            exact ⟨i', by omega, hfire⟩
          · rintro ⟨i', hi', hfire⟩
            rcases Nat.lt_succ_iff_lt_or_eq.mp hi' with hlt | heq
            · exact ⟨i', hlt, hfire⟩
            · subst heq
              rw [hread] at hc
              exact absurd hfire hc)
  unfold foodDescentLoop
  exact ⟨key.1, key.2.2.1, key.2.2.2⟩

/-- A descending update in terms of its two loops. -/
theorem descend_eq (eT : ℝ) (s : Scene ℝ) :
    descend eT s = loopWithBreak (sharkPursuitBody eT)
      (foodDescentLoop eT s).sharkModel.length (foodDescentLoop eT s) := rfl

/-- The outcome of a descending update started in the descending phase.  It is idle when the
floor check of some food mesh fires or some pass of the shark loop finds the shark within
`0.1` of the food; otherwise it is still descending. -/
theorem descend_cases (eT : ℝ) (s : Scene ℝ) (hd : Descending s) :
    (((∃ i, i < s.fishFoodModel.length ∧
          (getMesh s.fishFoodModel i).mesh6DoF.tY - eT * 0.0001 < 0) ∨
        (∃ k : ℕ, k < s.sharkModel.length ∧
          sharkFoodDistance (foodDescentLoop eT s) - 0.005 * (k : ℝ) < 0.1)) →
        Idle (descend eT s)) ∧
      (¬ ((∃ i, i < s.fishFoodModel.length ∧
          (getMesh s.fishFoodModel i).mesh6DoF.tY - eT * 0.0001 < 0) ∨
        (∃ k : ℕ, k < s.sharkModel.length ∧
          sharkFoodDistance (foodDescentLoop eT s) - 0.005 * (k : ℝ) < 0.1)) →
        Descending (descend eT s)) := by
  obtain ⟨hshark, hflags, hidle⟩ := foodDescentLoop_spec eT s hd
  rw [descend_eq, hshark]
  have hne_of : ∀ k : ℕ, k < s.sharkModel.length → (foodDescentLoop eT s).sharkModel ≠ [] := by
    intro k hk hc
    rw [hshark] at hc
    rw [hc] at hk
    exact absurd hk (by simp)
  constructor
  · rintro (hfire | ⟨k, hk, hnear⟩)
    · exact loopWithBreak_invariant (fun t : Scene ℝ => Idle t) _
        (fun t ht => (sharkPursuitBody_flags eT t).1 ht) _ _ (hidle.mpr hfire)
    · exact sharkLoop_near eT _ _ (hne_of k hk) ⟨k, hk, hnear⟩
  · intro hnot
    simp only [not_or, not_exists, not_and, not_lt] at hnot
    obtain ⟨hnofire, hfar⟩ := hnot
    have hdesc : Descending (foodDescentLoop eT s) := by
      rcases hflags with h | h
      · exact h
      · obtain ⟨i, hi, hfire⟩ := hidle.mp h
        exact absurd hfire (not_lt.mpr (hnofire i hi))
    by_cases hN : s.sharkModel.length = 0
    · rw [hN]
      exact hdesc
    · obtain ⟨q1, q2, -⟩ := sharkLoop_far eT s.sharkModel.length (foodDescentLoop eT s)
        (hne_of 0 (Nat.pos_of_ne_zero hN)) hfar
      exact ⟨q1.trans hdesc.1, q2.trans hdesc.2⟩

/-! ## The displacement of the pursuing shark -/

/-- The food loop on `pursuitScene` at time `1`: the food root sinks to height `1`, the flags
stay set. -/
theorem foodDescentLoop_pursuitScene :
    foodDescentLoop 1 pursuitScene =
      { pursuitScene with fishFoodModel := [⟨⟨4, 1, 4, 0, 0, 0⟩, 0, 0⟩] } := by
  simp only [foodDescentLoop, forLoop, pursuitScene, List.length_singleton, Nat.sub_zero,
    List.range'_one, List.foldl_cons, List.foldl_nil, foodDescentBody, getMesh, setPose,
    List.getD_cons_zero, List.set_cons_zero]
  norm_num

/-- The food loop on `floorScene` at time `1`: the floor check fires and clears the flags,
the food root sinks to height `0`. -/
theorem foodDescentLoop_floorScene :
    foodDescentLoop 1 floorScene =
      { floorScene with
        fishFoodAnimStarted := false
        fishFoodInit := false
        fishFoodModel := [⟨⟨4, 0, 4, 0, 0, 0⟩, 0, 0⟩] } := by
  simp only [foodDescentLoop, forLoop, floorScene, List.length_singleton, Nat.sub_zero,
    List.range'_one, List.foldl_cons, List.foldl_nil, foodDescentBody, getMesh, setPose,
    List.getD_cons_zero, List.set_cons_zero]
  norm_num

/-- The unit direction toward the food has length `1` when the shark is not at the food. -/
theorem sharkFoodDirection_unit (t : Scene ℝ) (h : 0 < sharkFoodDistance t) :
    Vec3.dot (sharkFoodDirection t) (sharkFoodDirection t) = 1 := by
  have hS : 0 ≤ ((getMesh t.fishFoodModel 0).mesh6DoF.tX - (getMesh t.sharkModel 0).mesh6DoF.tX) ^ 2 +
      ((getMesh t.fishFoodModel 0).mesh6DoF.tY - (getMesh t.sharkModel 0).mesh6DoF.tY) ^ 2 +
      ((getMesh t.fishFoodModel 0).mesh6DoF.tZ - (getMesh t.sharkModel 0).mesh6DoF.tZ) ^ 2 := by
    positivity
  have hm2 : sharkFoodDistance t ^ 2 =
      ((getMesh t.fishFoodModel 0).mesh6DoF.tX - (getMesh t.sharkModel 0).mesh6DoF.tX) ^ 2 +
      ((getMesh t.fishFoodModel 0).mesh6DoF.tY - (getMesh t.sharkModel 0).mesh6DoF.tY) ^ 2 +
      ((getMesh t.fishFoodModel 0).mesh6DoF.tZ - (getMesh t.sharkModel 0).mesh6DoF.tZ) ^ 2 :=
    Real.sq_sqrt hS
  have hm0 : sharkFoodDistance t ≠ 0 := h.ne'
  simp only [Vec3.dot, sharkFoodDirection]
  field_simp
  linear_combination -hm2

/-- The displacement of the shark root over a descending update in which every pass of the
shark loop finds the shark at distance at least `0.1`: one step of `0.005` per pass, that is
`0.005` times the number of shark nodes. -/
theorem descend_displacement (eT : ℝ) (s : Scene ℝ) (hne : s.sharkModel ≠ [])
    (hfar : ∀ k : ℕ, k < s.sharkModel.length →
      0.1 ≤ sharkFoodDistance (foodDescentLoop eT s) - 0.005 * (k : ℝ)) :
    Vec3.length (Vec3.sub (rootPosition (descend eT s).sharkModel) (rootPosition s.sharkModel))
      = 0.005 * (s.sharkModel.length : ℝ) := by
  have hshark : (foodDescentLoop eT s).sharkModel = s.sharkModel :=
    foodLoop_sharkModel eT _ s
  have hpos : 0 < s.sharkModel.length := List.length_pos.mpr hne
  have h0 : 0.1 ≤ sharkFoodDistance (foodDescentLoop eT s) := by
    have := hfar 0 hpos
    simpa using this
  rw [descend_eq, hshark]
  obtain ⟨-, -, -, q4, -, -⟩ := sharkLoop_far eT s.sharkModel.length (foodDescentLoop eT s)
    (by rw [hshark]; exact hne) hfar
  rw [q4, hshark]
  have hu := sharkFoodDirection_unit (foodDescentLoop eT s) (by linarith)
  simp only [Vec3.length, Vec3.sub, Vec3.dot, sqrtf_real] at hu ⊢
  have e : ((rootPosition s.sharkModel).x +
        (s.sharkModel.length : ℝ) * 0.005 * (sharkFoodDirection (foodDescentLoop eT s)).x -
        (rootPosition s.sharkModel).x) *
      ((rootPosition s.sharkModel).x +
        (s.sharkModel.length : ℝ) * 0.005 * (sharkFoodDirection (foodDescentLoop eT s)).x -
        (rootPosition s.sharkModel).x) +
      ((rootPosition s.sharkModel).y +
        (s.sharkModel.length : ℝ) * 0.005 * (sharkFoodDirection (foodDescentLoop eT s)).y -
        (rootPosition s.sharkModel).y) *
      ((rootPosition s.sharkModel).y +
        (s.sharkModel.length : ℝ) * 0.005 * (sharkFoodDirection (foodDescentLoop eT s)).y -
        (rootPosition s.sharkModel).y) +
      ((rootPosition s.sharkModel).z +
        (s.sharkModel.length : ℝ) * 0.005 * (sharkFoodDirection (foodDescentLoop eT s)).z -
        (rootPosition s.sharkModel).z) *
      ((rootPosition s.sharkModel).z +
        (s.sharkModel.length : ℝ) * 0.005 * (sharkFoodDirection (foodDescentLoop eT s)).z -
        (rootPosition s.sharkModel).z)
      = (0.005 * (s.sharkModel.length : ℝ)) ^ 2 *
        ((sharkFoodDirection (foodDescentLoop eT s)).x *
            (sharkFoodDirection (foodDescentLoop eT s)).x +
          (sharkFoodDirection (foodDescentLoop eT s)).y *
            (sharkFoodDirection (foodDescentLoop eT s)).y +
          (sharkFoodDirection (foodDescentLoop eT s)).z *
            (sharkFoodDirection (foodDescentLoop eT s)).z) := by ring
  rw [e, hu, mul_one]
  exact Real.sqrt_sq (by positivity)

/-- The distance from the shark to the food in `pursuitScene` after the food loop is `3`. -/
theorem sharkFoodDistance_pursuitScene :
    sharkFoodDistance (foodDescentLoop 1 pursuitScene) = 3 := by
  rw [foodDescentLoop_pursuitScene]
  simp only [sharkFoodDistance, pursuitScene, getMesh, List.getD_cons_zero, sqrtf_real]
  rw [show ((4 : ℝ) - 1) ^ 2 + (1 - 1) ^ 2 + (4 - 4) ^ 2 = 3 ^ 2 by norm_num]
  exact Real.sqrt_sq (by norm_num)

/-- The distance from the shark to the food in `floorScene` after the food loop is `3`. -/
theorem sharkFoodDistance_floorScene :
    sharkFoodDistance (foodDescentLoop 1 floorScene) = 3 := by
  rw [foodDescentLoop_floorScene]
  simp only [sharkFoodDistance, floorScene, getMesh, List.getD_cons_zero, sqrtf_real]
  rw [show ((4 : ℝ) - 1) ^ 2 + (0 - 0) ^ 2 + (4 - 4) ^ 2 = 3 ^ 2 by norm_num]
  exact Real.sqrt_sq (by norm_num)

/-- C15 fails on the code.  In `pursuitScene` (a two-node shark with root at `(1, 1, 4)`,
food at `(4, 1.00002, 4)`) the descending update at time `1` does not end the pursuit, and
the shark root is displaced by `0.01`, not `0.005`: the shark loop makes one steering pass
per shark node. -/
theorem pursuit_displacement :
    Descending pursuitScene ∧ pursuitScene.sharkModel.length = 2 ∧
      Descending (descend 1 pursuitScene) ∧
      Vec3.length (Vec3.sub (rootPosition (descend 1 pursuitScene).sharkModel)
        (rootPosition pursuitScene.sharkModel)) = 0.01 ∧
      Vec3.length (Vec3.sub (rootPosition (descend 1 pursuitScene).sharkModel)
        (rootPosition pursuitScene.sharkModel)) ≠ 0.005 := by
  have hd : Descending pursuitScene := ⟨rfl, rfl⟩
  have hfar : ∀ k : ℕ, k < pursuitScene.sharkModel.length →
      0.1 ≤ sharkFoodDistance (foodDescentLoop 1 pursuitScene) - 0.005 * (k : ℝ) := by
    intro k hk
    rw [sharkFoodDistance_pursuitScene]
    have hk2 : k < 2 := hk
    have : (k : ℝ) ≤ 1 := by exact_mod_cast Nat.lt_succ_iff.mp hk2
    linarith
  have hdisp := descend_displacement 1 pursuitScene (List.cons_ne_nil _ _) hfar
  have hlen : (pursuitScene.sharkModel.length : ℝ) = 2 := by
    simp [pursuitScene]
  rw [hlen] at hdisp
  have hdisp' : Vec3.length (Vec3.sub (rootPosition (descend 1 pursuitScene).sharkModel)
      (rootPosition pursuitScene.sharkModel)) = 0.01 := by
    rw [hdisp]; norm_num
  refine ⟨hd, rfl, ?_, hdisp', ?_⟩
  · apply (descend_cases 1 pursuitScene hd).2
    rintro (⟨i, hi, hfire⟩ | ⟨k, hk, hnear⟩)
    · have hi0 : i = 0 := by
        have : i < 1 := hi
        omega
      subst hi0
      simp only [pursuitScene, getMesh, List.getD_cons_zero] at hfire
      norm_num at hfire
    · have := hfar k hk
      linarith
  · rw [hdisp']
    norm_num

/-! ## Terminal transitions and the steering step -/

/-- C13 fails on the code for the floor transition.  In `floorScene` (food at height
`0.00002`, a one-node shark at `(1, 0, 4)` with orbit radius `6`) the descending update at
time `1` fires the floor check and returns the session to idle; the shark root moves to
`(1.005, 0, 4)`, but its orbit radius is still `6`, not `sqrt(x² + z²)` of the root. -/
theorem floor_transition_keeps_initRad :
    Descending floorScene ∧ Idle (descend 1 floorScene) ∧
      rootPosition (descend 1 floorScene).sharkModel = ⟨1.005, 0, 4⟩ ∧
      sharkInitRad (descend 1 floorScene) = 6 ∧
      sharkInitRad (descend 1 floorScene) ≠
        Real.sqrt ((rootPosition (descend 1 floorScene).sharkModel).x ^ 2 +
          (rootPosition (descend 1 floorScene).sharkModel).z ^ 2) := by
  have hd : Descending floorScene := ⟨rfl, rfl⟩
  have hfar : ∀ k : ℕ, k < 1 →
      0.1 ≤ sharkFoodDistance (foodDescentLoop 1 floorScene) - 0.005 * (k : ℝ) := by
    intro k hk
    have hk0 : k = 0 := by omega
    subst hk0
    rw [sharkFoodDistance_floorScene]
    norm_num
  have hlen : (foodDescentLoop 1 floorScene).sharkModel.length = 1 := by
    rw [foodDescentLoop_floorScene]
    rfl
  obtain ⟨q1, q2, -, q4, q5, -⟩ := sharkLoop_far 1 1 (foodDescentLoop 1 floorScene)
    (by rw [foodDescentLoop_floorScene]; exact List.cons_ne_nil _ _) hfar
  have hdir : sharkFoodDirection (foodDescentLoop 1 floorScene) = ⟨1, 0, 0⟩ := by
    unfold sharkFoodDirection
    rw [sharkFoodDistance_floorScene, foodDescentLoop_floorScene]
    simp only [floorScene, getMesh, List.getD_cons_zero, Vec3.mk.injEq]
    norm_num
  have hpos : rootPosition (descend 1 floorScene).sharkModel = ⟨1.005, 0, 4⟩ := by
    rw [descend_eq, hlen, q4, hdir, foodDescentLoop_floorScene]
    simp only [rootPosition, floorScene, getMesh, List.getD_cons_zero, Vec3.mk.injEq]
    norm_num
  have hrad : sharkInitRad (descend 1 floorScene) = 6 := by
    rw [descend_eq, hlen, q5, foodDescentLoop_floorScene]
    rfl
  refine ⟨hd, ?_, hpos, hrad, ?_⟩
  · rw [descend_eq, hlen]
    refine ⟨q1.trans ?_, q2.trans ?_⟩ <;> rw [foodDescentLoop_floorScene]
  · rw [hrad, hpos]
    intro hc
    have h6 : Real.sqrt ((1.005 : ℝ) ^ 2 + 4 ^ 2) < 6 := by
      rw [Real.sqrt_lt' (by norm_num)]
      norm_num
    rw [← hc] at h6
    exact lt_irrefl _ h6

/-- C14 as stated fails: in `aboveFloorScene` the food is at height `0.00005 ≥ 0` and the
shark at distance at least `0.1`, and after the descending update at time `1` the food is
still at height `0.00003 ≥ 0`; yet the update returns the session to idle, because the
floor check compares the height with `elapsedTime * 0.0001`. -/
theorem floor_check_counterexample :
    Descending aboveFloorScene ∧ 0 ≤ foodHeight aboveFloorScene ∧
      0.1 ≤ sharkFoodDistance aboveFloorScene ∧
      foodHeight (descend 1 aboveFloorScene) = 0.00003 ∧
      Idle (descend 1 aboveFloorScene) := by
  have hd : Descending aboveFloorScene := ⟨rfl, rfl⟩
  obtain ⟨-, -, h3, h4⟩ := descend_spec 1 aboveFloorScene hd (List.cons_ne_nil _ _)
  have hh : foodHeight aboveFloorScene = 0.00005 := rfl
  refine ⟨hd, by rw [hh]; norm_num, ?_, by rw [h3, hh]; norm_num,
    h4 (by rw [hh]; norm_num)⟩
  apply Real.le_sqrt_of_sq_le
  simp only [aboveFloorScene, getMesh, List.getD_cons_zero]
  norm_num

/-- C18: in a pass of the shark loop the direction vector is divided by its magnitude only
when the guard `magnitude < 0.1` has failed: the pass steers (does not break) exactly when
the distance is at least `0.1`, and a pass that breaks leaves the shark root where it is.
When the distance `|f - s|` from the shark root `s` to the food root `f` is at least `0.1`,
the steering pass puts the root at `s + 0.005 (f - s) / |f - s|` and the distance to the
food afterwards is `|f - s| - 0.005`. -/
theorem steering_step (eT : ℝ) (s : Scene ℝ) (hne : s.sharkModel ≠ []) :
    ((sharkPursuitBody eT s).2 = false ↔ 0.1 ≤ sharkFoodDistance s) ∧
      (sharkFoodDistance s < 0.1 →
        rootPosition (sharkPursuitBody eT s).1.sharkModel = rootPosition s.sharkModel) ∧
      (0.1 ≤ sharkFoodDistance s →
        rootPosition (sharkPursuitBody eT s).1.sharkModel =
            ⟨(rootPosition s.sharkModel).x + 0.005 *
                (((rootPosition s.fishFoodModel).x - (rootPosition s.sharkModel).x)
                  / sharkFoodDistance s),
              (rootPosition s.sharkModel).y + 0.005 *
                (((rootPosition s.fishFoodModel).y - (rootPosition s.sharkModel).y)
                  / sharkFoodDistance s),
              (rootPosition s.sharkModel).z + 0.005 *
                (((rootPosition s.fishFoodModel).z - (rootPosition s.sharkModel).z)
                  / sharkFoodDistance s)⟩ ∧
          sharkFoodDistance (sharkPursuitBody eT s).1 = sharkFoodDistance s - 0.005) := by
  refine ⟨⟨fun h => ?_, fun h => (sharkPursuitBody_far eT s hne h).1⟩,
    fun h => (sharkPursuitBody_near eT s h).2.2.2.1, fun h => ?_⟩
  · by_contra hc
    have := (sharkPursuitBody_near eT s (not_le.mp hc)).1
    rw [h] at this
    cases this
  · obtain ⟨-, -, -, -, -, -, p7, -, p9, -⟩ := sharkPursuitBody_far eT s hne h
    refine ⟨?_, p9⟩
    rw [p7]
    simp only [sharkFoodDirection, rootPosition, Vec3.mk.injEq]
    refine ⟨?_, ?_, ?_⟩ <;> ring

/-- C18 at a concrete input: in `pursuitScene` the shark is at distance at least `0.1`, and
one pass of the shark loop brings it `0.005` closer to the food. -/
theorem steering_step_witness :
    sharkFoodDistance (sharkPursuitBody 1 pursuitScene).1
      = sharkFoodDistance pursuitScene - 0.005 :=
  ((steering_step 1 pursuitScene (List.cons_ne_nil _ _)).2.2 (by
    apply Real.le_sqrt_of_sq_le
    simp only [pursuitScene, getMesh, List.getD_cons_zero]
    norm_num)).2

/-! ## The descending update over a float arithmetic -/

/-- One pass of the food loop never sets a flag, and it clears both when the floor check
fires. -/
theorem foodDescentBodyF_flags {F : Type} [LinearOrder F] [Zero F] (ar : FloatArith F)
    (eT : F) (i : ℕ) (s : Scene F) :
    (Idle s → Idle (foodDescentBodyF ar eT i s)) ∧
      (Descending s ∨ Idle s →
        Descending (foodDescentBodyF ar eT i s) ∨ Idle (foodDescentBodyF ar eT i s)) ∧
      (ar.sub (getMesh s.fishFoodModel i).mesh6DoF.tY (ar.mul eT (ar.lit 0.0001)) < ar.lit 0 →
        Idle (foodDescentBodyF ar eT i s)) := by
  unfold foodDescentBodyF Idle Descending
  simp only
  split_ifs with h
  · exact ⟨fun _ => ⟨rfl, rfl⟩, fun _ => Or.inr ⟨rfl, rfl⟩, fun _ => ⟨rfl, rfl⟩⟩
  · exact ⟨fun hc => hc, fun hc => hc, fun hc => absurd hc h⟩

/-- One pass of the food loop lowers food mesh `i` by the computed `elapsedTime * 0.00002f`. -/
theorem foodDescentBodyF_food {F : Type} [LinearOrder F] [Zero F] (ar : FloatArith F)
    (eT : F) (i : ℕ) (s : Scene F) :
    (foodDescentBodyF ar eT i s).fishFoodModel = setPose s.fishFoodModel i
      { (getMesh s.fishFoodModel i).mesh6DoF with
        tY := ar.sub (getMesh s.fishFoodModel i).mesh6DoF.tY (ar.mul eT (ar.lit 0.00002)) } := by
  unfold foodDescentBodyF
  simp only
  split_ifs <;> rfl

/-- A pass of the food loop whose floor check does not fire leaves the flags as they are. -/
theorem foodDescentBodyF_flags_of_not_fired {F : Type} [LinearOrder F] [Zero F]
    (ar : FloatArith F) (eT : F) (i : ℕ) (t : Scene F)
    (h : ¬ ar.sub (getMesh t.fishFoodModel i).mesh6DoF.tY (ar.mul eT (ar.lit 0.0001))
      < ar.lit 0) :
    (foodDescentBodyF ar eT i t).fishFoodAnimStarted = t.fishFoodAnimStarted ∧
      (foodDescentBodyF ar eT i t).fishFoodInit = t.fishFoodInit := by
  unfold foodDescentBodyF
  simp only [if_neg h, and_self]

/-- A pass of the food loop does not touch the shark. -/
theorem foodDescentBodyF_sharkModel {F : Type} [LinearOrder F] [Zero F] (ar : FloatArith F)
    (eT : F) (i : ℕ) (t : Scene F) :
    (foodDescentBodyF ar eT i t).sharkModel = t.sharkModel := by
  unfold foodDescentBodyF
  simp only
  split_ifs <;> rfl

/-- One pass of the shark loop never sets a flag and does not touch the food model. -/
theorem sharkPursuitBodyF_flags {F : Type} [LinearOrder F] [Zero F] (ar : FloatArith F)
    (lm : FloatLibm F) (eT : F) (s : Scene F) :
    (Idle s → Idle (sharkPursuitBodyF ar lm eT s).1) ∧
      (Descending s ∨ Idle s →
        Descending (sharkPursuitBodyF ar lm eT s).1 ∨ Idle (sharkPursuitBodyF ar lm eT s).1) ∧
      (sharkPursuitBodyF ar lm eT s).1.fishFoodModel = s.fishFoodModel := by
  unfold sharkPursuitBodyF Idle Descending
  simp only
  split_ifs
  · exact ⟨fun _ => ⟨rfl, rfl⟩, fun _ => Or.inr ⟨rfl, rfl⟩, rfl⟩
  · exact ⟨fun hc => hc, fun hc => hc, rfl⟩

/-- A pass of the shark loop in terms of the computed distance: it breaks, with both flags
cleared, when the distance is below `0.1f`, and otherwise steers and keeps the flags. -/
theorem sharkPursuitBodyF_cases {F : Type} [LinearOrder F] [Zero F] (ar : FloatArith F)
    (lm : FloatLibm F) (eT : F) (t : Scene F) :
    (sharkFoodDistanceF ar t < ar.lit 0.1 →
        (sharkPursuitBodyF ar lm eT t).2 = true ∧ Idle (sharkPursuitBodyF ar lm eT t).1) ∧
      (¬ sharkFoodDistanceF ar t < ar.lit 0.1 →
        (sharkPursuitBodyF ar lm eT t).2 = false ∧
          (sharkPursuitBodyF ar lm eT t).1.fishFoodAnimStarted = t.fishFoodAnimStarted ∧
          (sharkPursuitBodyF ar lm eT t).1.fishFoodInit = t.fishFoodInit) := by
  unfold sharkPursuitBodyF sharkFoodDistanceF Idle
  simp only
  constructor
  · intro h
    rw [if_pos h]
    exact ⟨rfl, rfl, rfl⟩
  · intro h
    rw [if_neg h]
    exact ⟨rfl, rfl, rfl⟩

/-- The food loop of a descending update over a float arithmetic, started in the descending
phase: it leaves the shark alone, and the session is idle after it exactly when the floor
check of some food mesh fires; otherwise it is still descending. -/
theorem foodDescentLoopF_spec {F : Type} [LinearOrder F] [Zero F] (ar : FloatArith F)
    (eT : F) (s : Scene F) (hd : Descending s) :
    (foodDescentLoopF ar eT s).sharkModel = s.sharkModel ∧
      (Descending (foodDescentLoopF ar eT s) ∨ Idle (foodDescentLoopF ar eT s)) ∧
      (Idle (foodDescentLoopF ar eT s) ↔ FloorCheckFires ar eT s) := by
  have key := forLoop_invariant_indexed
    (fun k (t : Scene F) =>
      t.sharkModel = s.sharkModel ∧
      (∀ j, k ≤ j → getMesh t.fishFoodModel j = getMesh s.fishFoodModel j) ∧
      (Descending t ∨ Idle t) ∧
      (Idle t ↔ ∃ i, i < k ∧
        ar.sub (getMesh s.fishFoodModel i).mesh6DoF.tY (ar.mul eT (ar.lit 0.0001)) < ar.lit 0))
    0 s.fishFoodModel.length (foodDescentBodyF ar eT) s (Nat.zero_le _)
    ⟨rfl, fun _ _ => rfl, Or.inl hd,
      ⟨fun hi => absurd hi (not_idle_of_descending s hd), fun ⟨i, hi, _⟩ => absurd hi (by omega)⟩⟩
    (by
      intro i t _ hi ht
      obtain ⟨h1, h2, h3, h4⟩ := ht
      have hread : getMesh t.fishFoodModel i = getMesh s.fishFoodModel i := h2 i le_rfl
      refine ⟨(foodDescentBodyF_sharkModel ar eT i t).trans h1, fun j hj => ?_,
        (foodDescentBodyF_flags ar eT i t).2.1 h3, ?_⟩
      · rw [foodDescentBodyF_food, getMesh_setPose_ne _ i j _ (by omega)]
        exact h2 j (by omega)
      · by_cases hc : ar.sub (getMesh t.fishFoodModel i).mesh6DoF.tY
            (ar.mul eT (ar.lit 0.0001)) < ar.lit 0
        · refine ⟨fun _ => ⟨i, Nat.lt_succ_self i, by rw [← hread]; exact hc⟩,
            fun _ => (foodDescentBodyF_flags ar eT i t).2.2 hc⟩
        · obtain ⟨f1, f2⟩ := foodDescentBodyF_flags_of_not_fired ar eT i t hc
          have hiff : Idle (foodDescentBodyF ar eT i t) ↔ Idle t := by
            unfold Idle
            rw [f1, f2]
          rw [hiff, h4]
          constructor
          · rintro ⟨i', hi', hfire⟩
            exact ⟨i', by omega, hfire⟩
          · rintro ⟨i', hi', hfire⟩
            rcases Nat.lt_succ_iff_lt_or_eq.mp hi' with hlt | heq
            · exact ⟨i', hlt, hfire⟩
            · subst heq
              rw [hread] at hc
              exact absurd hfire hc)
  unfold foodDescentLoopF FloorCheckFires
  exact ⟨key.1, key.2.2.1, key.2.2.2⟩

/-- A descending update over a float arithmetic in terms of its two loops. -/
theorem descendF_eq {F : Type} [LinearOrder F] [Zero F] (ar : FloatArith F)
    (lm : FloatLibm F) (eT : F) (s : Scene F) :
    descendF ar lm eT s = loopWithBreak (sharkPursuitBodyF ar lm eT)
      (foodDescentLoopF ar eT s).sharkModel.length (foodDescentLoopF ar eT s) := rfl

/-- The outcome of a descending update over a float arithmetic, started in the descending
phase.  It is idle when the floor check of some food mesh fires, and when the shark has a
node and its first distance check, made after the descent of the food, finds it within
`0.1f` of the food.  When the shark loop makes at most one pass and neither is the case, it
is still descending. -/
theorem descendF_cases {F : Type} [LinearOrder F] [Zero F] (ar : FloatArith F)
    (lm : FloatLibm F) (eT : F) (s : Scene F) (hd : Descending s) :
    (FloorCheckFires ar eT s → Idle (descendF ar lm eT s)) ∧
      (s.sharkModel ≠ [] → sharkFoodDistanceF ar (foodDescentLoopF ar eT s) < ar.lit 0.1 →
        Idle (descendF ar lm eT s)) ∧
      (s.sharkModel.length ≤ 1 → ¬ FloorCheckFires ar eT s →
        (s.sharkModel ≠ [] →
          ¬ sharkFoodDistanceF ar (foodDescentLoopF ar eT s) < ar.lit 0.1) →
        Descending (descendF ar lm eT s)) := by
  obtain ⟨hshark, hflags, hidle⟩ := foodDescentLoopF_spec ar eT s hd
  rw [descendF_eq, hshark]
  refine ⟨fun hfire => ?_, fun hne hnear => ?_, fun hN hnofire hfar => ?_⟩
  · exact loopWithBreak_invariant (fun t : Scene F => Idle t) _
      (fun t ht => (sharkPursuitBodyF_flags ar lm eT t).1 ht) _ _ (hidle.mpr hfire)
  · obtain ⟨n, hn⟩ := Nat.exists_eq_succ_of_ne_zero
      (fun hc => hne (List.length_eq_zero.mp hc))
    rw [hn]
    unfold loopWithBreak
    obtain ⟨b1, b2⟩ := (sharkPursuitBodyF_cases ar lm eT (foodDescentLoopF ar eT s)).1 hnear
    rw [if_pos b1]
    exact b2
  · have hdesc : Descending (foodDescentLoopF ar eT s) := by
      rcases hflags with h | h
      · exact h
      · exact absurd (hidle.mp h) hnofire
    rcases Nat.le_one_iff_eq_zero_or_eq_one.mp hN with h0 | h1
    · rw [h0]
      exact hdesc
    · rw [h1]
      have hne : s.sharkModel ≠ [] := by
        intro hc
        rw [hc] at h1
        cases h1
      obtain ⟨b1, b2, b3⟩ :=
        (sharkPursuitBodyF_cases ar lm eT (foodDescentLoopF ar eT s)).2 (hfar hne)
      show Descending (if _ then _ else _)
      rw [if_neg (by rw [b1]; simp)]
      exact ⟨b2.trans hdesc.1, b3.trans hdesc.2⟩

/-- The food root after the food loop of a descending update: its height has been lowered by
the computed `elapsedTime * 0.00002f`, its other pose fields are as before. -/
theorem foodDescentLoopF_root {F : Type} [LinearOrder F] [Zero F] (ar : FloatArith F)
    (eT : F) (s : Scene F) (hne : s.fishFoodModel ≠ []) :
    (getMesh (foodDescentLoopF ar eT s).fishFoodModel 0).mesh6DoF =
      { (getMesh s.fishFoodModel 0).mesh6DoF with
        tY := ar.sub (getMesh s.fishFoodModel 0).mesh6DoF.tY (ar.mul eT (ar.lit 0.00002)) } := by
  have hlen : 0 < s.fishFoodModel.length := List.length_pos.mpr hne
  unfold foodDescentLoopF
  rw [forLoop_step 0 s.fishFoodModel.length _ s hlen]
  refine forLoop_invariant
    (fun t : Scene F => (getMesh t.fishFoodModel 0).mesh6DoF =
      { (getMesh s.fishFoodModel 0).mesh6DoF with
        tY := ar.sub (getMesh s.fishFoodModel 0).mesh6DoF.tY (ar.mul eT (ar.lit 0.00002)) })
    (0 + 1) s.fishFoodModel.length _ _ ?_ ?_
  · beta_reduce
    rw [foodDescentBodyF_food, getMesh_setPose_self _ 0 _ hlen]
  · intro i t hi _ ht
    beta_reduce at ht ⊢
    rw [foodDescentBodyF_food, getMesh_setPose_ne _ i 0 _ (by omega)]
    exact ht

/-- The wag term over exact real arithmetic. -/
theorem wagF_real (eT : ℝ) (j : ℕ) : wagF realArith realLibm eT j = wag eT j := by
  unfold wagF wag
  simp only [realArith_lit, realArith_add, realArith_mul, realArith_ofNat, realLibm, sin_real,
    Rat.cast_ofScientific, Rat.cast_ofNat]

/-- The wag loop of the pursuing shark over exact real arithmetic. -/
theorem wagLoopPursuitF_real (eT : ℝ) (m : Model ℝ) :
    wagLoopPursuitF realArith realLibm eT m = wagLoopPursuit eT m := by
  unfold wagLoopPursuitF wagLoopPursuit
  simp only [wagF_real, realArith_add, realArith_sub]

/-- A pass of the food loop over exact real arithmetic. -/
theorem foodDescentBodyF_real (eT : ℝ) (i : ℕ) (s : Scene ℝ) :
    foodDescentBodyF realArith eT i s = foodDescentBody eT i s := by
  unfold foodDescentBodyF foodDescentBody
  simp only [realArith_lit, realArith_sub, realArith_mul, Rat.cast_ofScientific, Rat.cast_zero]

/-- The steering over exact real arithmetic. -/
theorem steerSharkF_real (dir : Vec3 ℝ) (m : Model ℝ) :
    steerSharkF realArith realLibm dir m = steerShark dir m := by
  unfold steerSharkF steerShark
  simp only [realArith_lit, realArith_sub, realArith_mul, realArith_add, realLibm,
    Rat.cast_ofScientific, Rat.cast_zero]
  rfl

/-- A pass of the shark loop over exact real arithmetic. -/
theorem sharkPursuitBodyF_real (eT : ℝ) (s : Scene ℝ) :
    sharkPursuitBodyF realArith realLibm eT s = sharkPursuitBody eT s := by
  unfold sharkPursuitBodyF sharkPursuitBody
  simp only [wagLoopPursuitF_real, steerSharkF_real]
  simp only [realArith_lit, realArith_sub, realArith_add, realArith_div, realArith_sqrtf,
    realArith_powf2, Rat.cast_ofScientific, sqrtf_real]

/-- The food loop over exact real arithmetic. -/
theorem foodDescentLoopF_real (eT : ℝ) (s : Scene ℝ) :
    foodDescentLoopF realArith eT s = foodDescentLoop eT s := by
  unfold foodDescentLoopF foodDescentLoop
  have : foodDescentBodyF realArith eT = foodDescentBody eT := by
    funext i t
    exact foodDescentBodyF_real eT i t
  rw [this]

/-- The descending update over exact real arithmetic is the descending update of the real
model. -/
theorem descendF_real (eT : ℝ) (s : Scene ℝ) :
    descendF realArith realLibm eT s = descend eT s := by
  rw [descendF_eq, descend_eq, foodDescentLoopF_real]
  have : sharkPursuitBodyF realArith realLibm eT = sharkPursuitBody eT := by
    funext t
    exact sharkPursuitBodyF_real eT t
  rw [this]

/-- The computed distance over exact real arithmetic. -/
theorem sharkFoodDistanceF_real (s : Scene ℝ) :
    sharkFoodDistanceF realArith s = sharkFoodDistance s := by
  unfold sharkFoodDistanceF sharkFoodDistance
  simp only [realArith_sub, realArith_add, realArith_sqrtf, realArith_powf2, sqrtf_real]

/-- C14 (amended): a descending update started in the descending phase, over every float
arithmetic `ar` (exact or rounding), any `elapsedTime`, food heights and shark.  The update
returns the session to idle when the floor check of some food mesh fires, that is when the
value `tY - elapsedTime * 0.0001f` computed from the height of the mesh is below `0.0f`; and
it returns the session to idle when the shark has a node and its distance to the food root,
computed after the descent of the food by `elapsedTime * 0.00002f`, is below `0.1f`.  For a
shark whose loop makes a single pass (at most one node) the converse holds: the session is
returned to idle only in these two cases, and it stays active exactly when no floor check
fires and that distance is at least `0.1f`. -/
theorem descend_idle_iff {F : Type} [LinearOrder F] [Zero F] (ar : FloatArith F)
    (lm : FloatLibm F) (eT : F) (s : Scene F) (hd : Descending s) :
    (FloorCheckFires ar eT s → Idle (descendF ar lm eT s)) ∧
      (s.sharkModel ≠ [] → sharkFoodDistanceF ar (foodDescentLoopF ar eT s) < ar.lit 0.1 →
        Idle (descendF ar lm eT s)) ∧
      (s.sharkModel.length ≤ 1 →
        (Idle (descendF ar lm eT s) ↔
          FloorCheckFires ar eT s ∨
            (s.sharkModel ≠ [] ∧
              sharkFoodDistanceF ar (foodDescentLoopF ar eT s) < ar.lit 0.1)) ∧
        (Descending (descendF ar lm eT s) ↔
          ¬ FloorCheckFires ar eT s ∧
            (s.sharkModel ≠ [] →
              ar.lit 0.1 ≤ sharkFoodDistanceF ar (foodDescentLoopF ar eT s)))) ∧
      (foodDescentLoopF ar eT s).sharkModel = s.sharkModel ∧
      (s.fishFoodModel ≠ [] →
        (getMesh (foodDescentLoopF ar eT s).fishFoodModel 0).mesh6DoF =
          { (getMesh s.fishFoodModel 0).mesh6DoF with
            tY := ar.sub (getMesh s.fishFoodModel 0).mesh6DoF.tY
              (ar.mul eT (ar.lit 0.00002)) }) := by
  obtain ⟨c1, c2, c3⟩ := descendF_cases ar lm eT s hd
  refine ⟨c1, c2, fun hN => ⟨⟨fun hi => ?_, ?_⟩, ⟨fun hdesc => ⟨fun hf => ?_, fun hne => ?_⟩, ?_⟩⟩,
    (foodDescentLoopF_spec ar eT s hd).1, foodDescentLoopF_root ar eT s⟩
  · by_contra hc
    simp only [not_or, not_and] at hc
    exact not_idle_of_descending _ (c3 hN hc.1 hc.2) hi
  · rintro (hf | ⟨hne, hnear⟩)
    · exact c1 hf
    · exact c2 hne hnear
  · exact not_idle_of_descending _ hdesc (c1 hf)
  · by_contra hc
    exact not_idle_of_descending _ hdesc (c2 hne (not_le.mp hc))
  · rintro ⟨h1, h2⟩
    exact c3 hN h1 (fun hne => not_lt.mpr (h2 hne))

/-- C14 (amended) at a concrete input: over exact real arithmetic, in `floorScene` the floor
check of the one food mesh fires at time `1`, so the update returns the session to idle. -/
theorem descend_idle_iff_witness : Idle (descendF realArith realLibm 1 floorScene) :=
  (descend_idle_iff realArith realLibm 1 floorScene ⟨rfl, rfl⟩).1
    ⟨0, Nat.zero_lt_one, by
      simp only [floorScene, getMesh, List.getD_cons_zero, realArith]
      norm_num⟩

/-! ## The feeding session in binary32 -/

/-- The floor check in binary32.  For food at height `0.00005f` at `elapsedTime = 1` the
check fires and the update returns the session to idle, whatever `sin` and `atan2f` return,
although the height is above zero before and after the update.  At the boundary the
rounding decides: for food at height `0.0001f` the computed `0.0001f - 1 * 0.0001f` is `0`,
the check does not fire and, the shark being `3` away, the session stays active; the number
that `0.0001f` stands for is below `0.0001`, so over exact real arithmetic the check would
fire for it. -/
theorem floor_check_binary32 (lm : FloatLibm Int) :
    (FloorCheckFires binary32 (binary32.lit 1) (floorScene32 (binary32.lit 0.00005)) ∧
        Idle (descendF binary32 lm (binary32.lit 1) (floorScene32 (binary32.lit 0.00005))) ∧
        0 < binary32Value (binary32.sub (binary32.lit 0.00005)
          (binary32.mul (binary32.lit 1) (binary32.lit 0.00002)))) ∧
      (¬ FloorCheckFires binary32 (binary32.lit 1) (floorScene32 (binary32.lit 0.0001)) ∧
        Descending (descendF binary32 lm (binary32.lit 1) (floorScene32 (binary32.lit 0.0001))) ∧
        binary32Value (binary32.lit 0.0001) < 0.0001) := by
  have hfire : FloorCheckFires binary32 (binary32.lit 1) (floorScene32 (binary32.lit 0.00005)) :=
    ⟨0, Nat.zero_lt_one, by
      show binary32.sub (binary32.lit 0.00005) (binary32.mul (binary32.lit 1)
        (binary32.lit 0.0001)) < binary32.lit 0
      decide!⟩
  have hno : ¬ FloorCheckFires binary32 (binary32.lit 1) (floorScene32 (binary32.lit 0.0001)) := by
    rintro ⟨i, hi, h⟩
    have hi0 : i = 0 := by
      have : i < 1 := hi
      omega
    subst hi0
    have h2 : binary32.sub (binary32.lit 0.0001) (binary32.mul (binary32.lit 1)
        (binary32.lit 0.0001)) < binary32.lit 0 := h
    revert h2
    decide!
  refine ⟨⟨hfire, (descendF_cases binary32 lm _ _ ⟨rfl, rfl⟩).1 hfire, by decide!⟩,
    ⟨hno, ?_, by decide!⟩⟩
  refine (descendF_cases binary32 lm _ _ ⟨rfl, rfl⟩).2.2 (le_refl 1) hno (fun _ => ?_)
  have hroot := foodDescentLoopF_root binary32 (binary32.lit 1)
    (floorScene32 (binary32.lit 0.0001)) (List.cons_ne_nil _ _)
  have hshark := (foodDescentLoopF_spec binary32 (binary32.lit 1)
    (floorScene32 (binary32.lit 0.0001)) ⟨rfl, rfl⟩).1
  unfold sharkFoodDistanceF
  rw [hroot, hshark]
  simp only [floorScene32, getMesh, List.getD_cons_zero]
  decide!

end Aquarium
